import Mathlib

/-!
# Infrared command subsystem of the UCD2 firmware: codec, gateway grammar, send coordinator

Shallow embedding of `lib/util/ir_codes.hpp`, `lib/util/globalcache.hpp`,
`lib/util/string_util.hpp`, `lib/util/event_bits.hpp`, of the send and learn switches, the
repeat callback, the completion reply and the learn loop of `lib/service_ir/service_ir.cpp`,
and of the request loop of `lib/service_ir/globalcache_server.cpp`.

Conventions of the embedding:

* A C string (and an Arduino `String`) is the `List Char` of its characters before the
  terminating NUL; pointers handed to the functions are non-NULL.
* A pointer into a string (`msg + startFrom`) is the offset `startFrom`; the text it points at is
  `msg.drop startFrom`.
* Machine integers are `Nat`/`Int` with the reductions of the firmware target (ESP32, ILP32:
  `long` and `unsigned long` are 32 bits wide, `unsigned long long` is 64 bits wide) written out.
* A function whose C execution leaves defined behaviour (a 16-bit signed index running past
  32767) returns `none`.
* The service object is the record of the members its methods read or write; a method is a
  function from the record to the returned code and the record afterwards. A FreeRTOS event
  group is the `Nat` of its bits, the send queue the list of the queued messages.
-/

namespace UCD2

/-! ## C library functions used by the codec -/

/-- Largest `unsigned long` of the target. -/
def ULONG_MAX : Nat := 2 ^ 32 - 1

/-- Largest `unsigned long long`; also `UINT64_MAX`. -/
def ULLONG_MAX : Nat := 2 ^ 64 - 1

/-- Largest `long` (and `int`) of the target. -/
def LONG_MAX : Int := 2 ^ 31 - 1

/-- Smallest `long` (and `int`) of the target. -/
def LONG_MIN : Int := -(2 ^ 31)

/-- The `errno` value stored by the `strto*` family on overflow. -/
def ERANGE : Nat := 34

/-- The C `isspace` in the "C" locale: space, `\t`, `\n`, `\v`, `\f`, `\r`. -/
def isspace (c : Char) : Bool :=
  c.toNat = 32 || (9 ≤ c.toNat && c.toNat ≤ 13)

/-- Value of a character read as a digit by the `strto*` family: `0`-`9`, then letters of either
case counting from ten. -/
def digitVal (c : Char) : Option Nat :=
  if 48 ≤ c.toNat ∧ c.toNat ≤ 57 then some (c.toNat - 48)
  else if 97 ≤ c.toNat ∧ c.toNat ≤ 122 then some (c.toNat - 87)
  else if 65 ≤ c.toNat ∧ c.toNat ≤ 90 then some (c.toNat - 55)
  else none

/-- Whether `c` is a digit of the given base. -/
def isDigitOf (base : Nat) (c : Char) : Bool :=
  match digitVal c with
  | some d => decide (d < base)
  | none => false

/-- Accumulation loop of the `strto*` family over an already delimited run of digits
(`acc = acc * base + digit`), without the range clamp. -/
def accumulate (base : Nat) (ds : List Char) : Nat :=
  ds.foldl (fun acc c => acc * base + (digitVal c).getD 0) 0

/-- The subject sequence of a `strto*` call: sign, magnitude of the digit run and the offset of
the end pointer from the start of the text (`0` when no conversion is performed). -/
structure Subject where
  negative : Bool
  magnitude : Nat
  endPos : Nat
deriving DecidableEq, Repr

/-- Whether the text starts with a sign character. -/
def hasSign (s : List Char) : Bool :=
  s.head? = some '-' || s.head? = some '+'

/-- Whether the text starts with a `0x`/`0X` that the conversion takes as the base-16 prefix:
only for base 16 and only when a hexadecimal digit follows (the C standard's longest subject
sequence; a library that takes a bare `0x` and then reports no conversion returns the same
value 0, and a text so read is rejected by every caller that inspects the end pointer). -/
def hasPrefix (base : Nat) (s : List Char) : Bool :=
  match s with
  | c0 :: c1 :: c2 :: _ => base = 16 && c0 = '0' && (c1 = 'x' || c1 = 'X') && isDigitOf 16 c2
  | _ => false

/-- Locates the subject sequence as the C standard prescribes: optional white space, an optional
sign, for base 16 an optional `0x`/`0X`, and the longest run of digits of the base. -/
def parseSubject (base : Nat) (s : List Char) : Subject :=
  let s1 := s.dropWhile isspace
  let s2 := if hasSign s1 then s1.tail else s1
  let s3 := if hasPrefix base s2 then s2.drop 2 else s2
  let ds := s3.takeWhile (isDigitOf base)
  if ds = [] then ⟨false, 0, 0⟩
  else ⟨decide (s1.head? = some '-'), accumulate base ds,
        (s.takeWhile isspace).length + (if hasSign s1 then 1 else 0)
          + (if hasPrefix base s2 then 2 else 0) + ds.length⟩

/-- Result of an unsigned `strto*` call: the value, the offset of `end` from the start, and
`errno` after the call. -/
structure StrtoResult where
  value : Nat
  endPos : Nat
  errno : Nat
deriving DecidableEq, Repr

/-- Unsigned conversion with largest value `maxVal`: no conversion gives 0 and `end == nptr`; a
magnitude out of range gives `maxVal` and `errno = ERANGE`; a minus sign negates in the unsigned
type. `errno` is otherwise left as it was. -/
def strtoUnsigned (maxVal : Nat) (s : List Char) (base : Nat) (errno : Nat) : StrtoResult :=
  let r := parseSubject base s
  if r.endPos = 0 then ⟨0, 0, errno⟩
  else if r.magnitude > maxVal then ⟨maxVal, r.endPos, ERANGE⟩
  else ⟨if r.negative then (maxVal + 1 - r.magnitude) % (maxVal + 1) else r.magnitude,
        r.endPos, errno⟩

/-- The C `strtoul`. -/
def strtoul (s : List Char) (base : Nat) (errno : Nat) : StrtoResult :=
  strtoUnsigned ULONG_MAX s base errno

/-- The C `strtoull`. -/
def strtoull (s : List Char) (base : Nat) (errno : Nat) : StrtoResult :=
  strtoUnsigned ULLONG_MAX s base errno

/-- The C `strtol(s, NULL, base)`: the signed value, clamped to the range of `long`. -/
def strtol (s : List Char) (base : Nat) : Int :=
  let r := parseSubject base s
  if r.endPos = 0 then 0
  else if r.negative then (if (r.magnitude : Int) > -LONG_MIN then LONG_MIN else -(r.magnitude : Int))
  else (if (r.magnitude : Int) > LONG_MAX then LONG_MAX else (r.magnitude : Int))

/-- The C `atol`, which is `strtol(s, NULL, 10)`. -/
def atol (s : List Char) : Int := strtol s 10

/-- The C `atoi`, which is `(int) strtol(s, NULL, 10)`; `int` and `long` coincide on the target. -/
def atoi (s : List Char) : Int := strtol s 10

/-! ## `strchr` and the Arduino `String` members used by the codec -/

/-- The C `strchr(s, ch)` for a `ch` other than NUL: the offset of the first occurrence, `none`
for a NULL result. -/
def strchr (s : List Char) (ch : Char) : Option Nat :=
  match s with
  | [] => none
  | c :: cs => if c = ch then some 0 else (strchr cs ch).map (· + 1)

/-- The `String::indexOf(ch, fromIndex)` member: `-1` when `fromIndex` is not below the length,
else `strchr` from that position, as an index into the whole text. -/
def indexOf (s : List Char) (ch : Char) (fromIndex : Nat) : Int :=
  if fromIndex ≥ s.length then -1
  else
    match strchr (s.drop fromIndex) ch with
    | some i => ((fromIndex + i : Nat) : Int)
    | none => -1

/-- The `String::substring(left, right)` member: the characters at positions `left ≤ i < right`;
the bounds are swapped when `left > right` and `right` is cut to the length. -/
def substring (s : List Char) (left right : Nat) : List Char :=
  let l := min left right
  let r := min (max left right) s.length
  (s.take r).drop l

/-- The `String::toInt()` member, which is `atol` of the buffer. -/
def toInt (s : List Char) : Int := atol s

/-! ## `ir_codes.hpp` -/

/-- The `IRHexData` struct; `protocol` is the integer value of the `decode_type_t` enumerator. -/
structure IRHexData where
  protocol : Int
  command : Nat
  bits : Nat
  repeat_ : Nat
deriving DecidableEq, Repr

/-- Result of `parseULong`: returned value, the `*error` flag and `errno` after the call. -/
structure ParseULong where
  value : Nat
  error : Nat
  errno : Nat
deriving DecidableEq, Repr

/-- The function `parseULong(number, &error, base)` of `ir_codes.hpp` for a non-NULL `number`;
`errno` is read as the caller left it. -/
def parseULong (number : List Char) (base : Nat) (errno : Nat) : ParseULong :=
  let r := strtoul number base errno
  if r.endPos = 0 ∨ r.endPos < number.length ∨ r.errno = ERANGE then ⟨0, 1, r.errno⟩
  else ⟨r.value, 0, r.errno⟩

/-- The function `buildIRHexData(message, data)`: the returned flag and `*data` after the call
(fields are written as the function proceeds, also when it then fails). -/
def buildIRHexData (message : List Char) (data : IRHexData) : Bool × IRHexData :=
  let firstIndex := indexOf message ';' 0
  let secondIndex := indexOf message ';' (firstIndex + 1).toNat
  let thirdIndex := indexOf message ';' (secondIndex + 1).toNat
  if firstIndex = -1 ∨ secondIndex = -1 ∨ thirdIndex = -1 then (false, data)
  else
    let data := { data with protocol := toInt (substring message 0 firstIndex.toNat) }
    if data.protocol = 0 then (false, data)
    else
      let commandStr := substring message (firstIndex + 1).toNat secondIndex.toNat
      let c := strtoull commandStr 16 0
      if c.value = 0 ∧ c.endPos = 0 then (false, data)
      else if c.value = ULLONG_MAX ∧ c.errno ≠ 0 then (false, data)
      else if c.endPos < commandStr.length then (false, data)
      else
        let data := { data with command := c.value }
        let number := substring message (secondIndex + 1).toNat thirdIndex.toNat
        let b := parseULong number 10 c.errno
        if b.error ≠ 0 ∨ b.value > 0xFFFF then (false, data)
        else
          let data := { data with bits := b.value % 65536 }
          if data.bits = 0 then (false, data)
          else
            let number := substring message (thirdIndex + 1).toNat message.length
            let r := parseULong number 10 b.errno
            if r.error ≠ 0 ∨ r.value > 0xFFFF ∨ r.value > 20 then (false, data)
            else (true, { data with repeat_ := r.value % 65536 })

/-- Largest `int16_t`, the type of the text index in the scanning loops. -/
def INT16_MAX : Nat := 32767

/-- The loop of `countValuesInCStr` from position `index` on, over the text still to be read.
`count` is a `uint16_t`. The `int16_t` index cannot pass `INT16_MAX`: where the C loop would
increment it further and read outside the text, the result is `none`. -/
def countValuesLoop (sep : Char) : List Char → Nat → Nat → Option Nat
  | [], _, count => some count
  | c :: rest, index, count =>
    if index + 1 > INT16_MAX then none
    else countValuesLoop sep rest (index + 1) (if c = sep then (count + 1) % 65536 else count)

/-- The function `countValuesInCStr(str, sep)` for a non-NULL `str`. -/
def countValuesInCStr (str : List Char) (sep : Char) : Option Nat :=
  if str = [] then some 0
  else (countValuesLoop sep str 0 0).map (fun count => (count + 1) % 65536)

/-- What `prontoBufferToArray` and `globalCacheBufferToArray` hand back: the returned array
(`none` for NULL), `*codeCount` and `*memError` after the call. -/
structure BufferResult where
  codeArray : Option (List Nat)
  codeCount : Nat
  memError : Nat
deriving DecidableEq, Repr

/-- State of the scanning loop of `prontoBufferToArray`. `codeArray` lists the elements written
so far: element `count` is always the next one written, so a write is an append. -/
structure ProntoState where
  index : Nat
  startFrom : Nat
  count : Nat
  codeArray : List Nat
deriving DecidableEq, Repr

/-- The `while (msg[index] != 0)` loop of `prontoBufferToArray` over the text still to be read;
`none` when the `int16_t` index would pass `INT16_MAX`. The element stored is the `strtoul`
value cut to `uint16_t`. -/
def prontoLoop (msg : List Char) (separator : Char) : List Char → ProntoState → Option ProntoState
  | [], st => some st
  | c :: rest, st =>
    if st.index + 1 > INT16_MAX then none
    else if c = separator then
      prontoLoop msg separator rest
        ⟨st.index + 1, st.index + 1, (st.count + 1) % 65536,
          st.codeArray ++ [(strtoul (msg.drop st.startFrom) 16 0).value % 65536]⟩
    else prontoLoop msg separator rest { st with index := st.index + 1 }

/-- The function `prontoBufferToArray(msg, separator, &codeCount, &memError)`. `mallocOk` tells
whether `malloc` returns a buffer, `codeCount` is `*codeCount` before the call. The outer `none`
is the case in which the `int16_t` index leaves the text. Behind the guard `count < 6` the text
has five separators or more, so elements 0, 2 and 3 are written before they are read and the
default of `getD` is never taken. The comparisons with `count` are made in `int`, the lengths
and `seq2Start` are `uint16_t`. -/
def prontoBufferToArray (mallocOk : Bool) (msg : List Char) (separator : Char) (codeCount : Nat) :
    Option BufferResult :=
  match countValuesInCStr msg separator with
  | none => none
  | some count =>
    if count < 6 then some ⟨none, codeCount, 0⟩
    else if mallocOk = false then some ⟨none, codeCount, 1⟩
    else
      match prontoLoop msg separator msg ⟨0, 0, 0, []⟩ with
      | none => none
      | some st =>
        let codeArray :=
          if st.index > st.startFrom then
            st.codeArray ++ [(strtoul (msg.drop st.startFrom) 16 0).value % 65536]
          else st.codeArray
        let count := if st.index > st.startFrom then (st.count + 1) % 65536 else st.count
        if codeArray.getD 0 0 ≠ 0 then some ⟨none, codeCount, 0⟩
        else
          let seq1Len := (codeArray.getD 2 0 * 2) % 65536
          let seq2Len := (codeArray.getD 3 0 * 2) % 65536
          let seq1Start := 4
          let seq2Start := (seq1Start + seq1Len) % 65536
          if seq1Len > 0 ∧ seq1Len + seq1Start > count then some ⟨none, codeCount, 0⟩
          else if seq2Len > 0 ∧ seq2Len + seq2Start > count then some ⟨none, codeCount, 0⟩
          else some ⟨some codeArray, count, 0⟩

/-- State of the scanning loop of `globalCacheBufferToArray`; `codeArray` lists the elements
written so far, element `codeIndex` being the next one written. -/
structure GlobalCacheState where
  msgIndex : Nat
  codeIndex : Nat
  startFrom : Nat
  count : Nat
  codeArray : List Nat
deriving DecidableEq, Repr

/-- The `while (msg[msgIndex] != 0)` loop of `globalCacheBufferToArray`. -/
def globalCacheLoop (msg : List Char) (separator : Char) (startIndex : Nat) :
    List Char → GlobalCacheState → Option GlobalCacheState
  | [], st => some st
  | c :: rest, st =>
    if st.msgIndex + 1 > INT16_MAX then none
    else if c = separator then
      if st.count ≥ startIndex then
        globalCacheLoop msg separator startIndex rest
          ⟨st.msgIndex + 1, (st.codeIndex + 1) % 65536, st.msgIndex + 1, (st.count + 1) % 65536,
            st.codeArray ++ [(strtoul (msg.drop st.startFrom) 10 0).value % 65536]⟩
      else
        globalCacheLoop msg separator startIndex rest
          ⟨st.msgIndex + 1, st.codeIndex, st.msgIndex + 1, (st.count + 1) % 65536, st.codeArray⟩
    else globalCacheLoop msg separator startIndex rest { st with msgIndex := st.msgIndex + 1 }

/-- The function `globalCacheBufferToArray(msg, &codeCount, &memError)`, with `mallocOk` and
`codeCount` as for `prontoBufferToArray`. `strncmp(msg, "sendir", 6) == 0` holds exactly when
the first six characters are `sendir`; `count -= 3` wraps in `uint16_t`. -/
def globalCacheBufferToArray (mallocOk : Bool) (msg : List Char) (codeCount : Nat) :
    Option BufferResult :=
  let separator := ','
  match countValuesInCStr msg separator with
  | none => none
  | some count =>
    let sendir := decide (msg.take 6 = ['s', 'e', 'n', 'd', 'i', 'r'])
    let count := if sendir then (count + 65536 - 3) % 65536 else count
    let startIndex := if sendir then 3 else 0
    if count < 6 then some ⟨none, codeCount, 0⟩
    else if mallocOk = false then some ⟨none, codeCount, 1⟩
    else
      match globalCacheLoop msg separator startIndex msg ⟨0, 0, 0, 0, []⟩ with
      | none => none
      | some st =>
        if st.msgIndex > st.startFrom then
          some ⟨some (st.codeArray ++ [(strtoul (msg.drop st.startFrom) 10 0).value % 65536]),
            (st.codeIndex + 1) % 65536, 0⟩
        else some ⟨some st.codeArray, st.codeIndex, 0⟩

/-! ## `globalcache.hpp` -/

/-- Modelled from the spec: the `GCMsg` struct of `util_types.h`, which is not among the sources.
The spec gives `{ command: bounded string, module: u8, port: u8, parameter: Option<string slice> }`;
`param` points into the request text and is kept as the text it points at, `none` for `nullptr`. -/
structure GCMsg where
  command : List Char
  module : Nat
  port : Nat
  param : Option (List Char)
deriving DecidableEq, Repr

/-- Modelled from the spec: `sizeof(msg->command)`, the size of the command buffer declared in
`util_types.h`; a command token of 20 or more characters does not fit. -/
def GCMSG_COMMAND_SIZE : Nat := 20

/-- The function `parseGcRequest(request, msg)` for non-null arguments: the returned code and
`*msg` after the call. -/
def parseGcRequest (request : List Char) (msg : GCMsg) : Nat × GCMsg :=
  let len := GCMSG_COMMAND_SIZE
  match strchr request ',' with
  | none =>
    let cmdLen := request.length
    if cmdLen ≥ len then (1, msg)
    else (0, ⟨request.take (min len cmdLen), 0, 0, none⟩)
  | some next =>
    if next ≥ len then (1, msg)
    else
      let msg := { msg with command := request.take next }
      let current := request.drop (next + 1)
      if strchr current ',' = none ∧ strchr current ':' = none then
        (0, { msg with module := 0, port := 0, param := some current })
      else
        let module := atoi current
        if module ≠ 1 then (2, msg)
        else
          let msg := { msg with module := 1 }
          match strchr current ':' with
          | none => (3, msg)
          | some colon =>
            let current := current.drop (colon + 1)
            let port := atoi current
            if port < 1 ∨ port > 15 then (3, msg)
            else
              let msg := { msg with port := port.toNat }
              match strchr current ',' with
              | none => (0, { msg with param := none })
              | some comma => (0, { msg with param := some (current.drop (comma + 1)) })

/-! ## `service_ir.cpp`: the send coordinator -/

/-- Bit of the event group that holds the learn mode (`BIT0`). -/
def IR_LEARNING_BIT : Nat := 1

/-- Bit of the event group that asks the repeat loop to start over (`BIT1`). -/
def IR_REPEAT_BIT : Nat := 2

/-- Bit of the event group that asks the repeat loop to stop (`BIT2`). -/
def IR_REPEAT_STOP_BIT : Nat := 4

/-- The FreeRTOS `xEventGroupSetBits` on the bits of the group: `uxEventBits |= uxBitsToSet`. -/
def xEventGroupSetBits (bits uxBitsToSet : Nat) : Nat :=
  bits ||| uxBitsToSet

/-- The FreeRTOS `xEventGroupClearBits` on the bits of the group: `uxEventBits &= ~uxBitsToClear`
in the 32-bit `EventBits_t`. -/
def xEventGroupClearBits (bits uxBitsToClear : Nat) : Nat :=
  bits &&& (0xFFFFFFFF ^^^ uxBitsToClear)

/-- The `IRFormat` enumeration of `ir_codes.hpp`. -/
inductive IRFormat where
  | UNKNOWN
  | UNFOLDED_CIRCLE
  | PRONTO
  | GLOBAL_CACHE
deriving DecidableEq, Repr

/-- The `IRSendMessage` struct of `ir_codes.hpp`. -/
structure IRSendMessage where
  clientId : Int
  msgId : Nat
  format : IRFormat
  message : List Char
  repeat_ : Nat
  pin_mask : Nat
  gcSocket : Int
deriving DecidableEq, Repr

/-- The emitter pins of a board header (`board_3.h`, `board_4.h`, `board_5_4.h`): the top and
the second external emitter exist only where the header defines them. -/
structure Board where
  IR_SEND_PIN_INT_SIDE : Nat
  IR_SEND_PIN_INT_TOP : Option Nat
  IR_SEND_PIN_EXT_1 : Nat
  IR_SEND_PIN_EXT_2 : Option Nat
deriving DecidableEq, Repr

/-- The pins of `board_3.h`. -/
def board_3 : Board := ⟨19, none, 18, none⟩

/-- The pins of `board_4.h`. -/
def board_4 : Board := ⟨27, some 26, 2, some 4⟩

/-- The pins of `board_5_4.h`. -/
def board_5_4 : Board := ⟨5, some 13, 15, some 2⟩

/-- The members of `InfraredService` that `send`, `stopSend` and the learn switches write or
test: the event group (`none` for `nullptr`, else its bits), the send queue of length 1
(`none` for `nullptr`, else the queued messages, oldest first) and the remembered code. The
member `m_state`, set once by `init`, is no part of the record: whether it is set is the
parameter `hasState` of the definitions that call `m_state->setState`. -/
structure InfraredService where
  m_eventgroup : Option Nat
  m_queue : Option (List IRSendMessage)
  m_currentSendCode : List Char
deriving DecidableEq, Repr

/-- The service object before `init`. -/
def InfraredService.created : InfraredService := ⟨none, none, []⟩

/-- The method `init`, with the queue and the event group created successfully: an object
that has its event group is left as it is. -/
def InfraredService.init (s : InfraredService) : InfraredService :=
  match s.m_eventgroup with
  | some _ => s
  | none => { s with m_queue := some [], m_eventgroup := some 0 }

/-- The method `startIrLearn` on the members of the record. The call
`m_state->setState(States::IR_LEARNING)` that it makes first is
`InfraredService.startIrLearn_setState`. -/
def InfraredService.startIrLearn (s : InfraredService) : InfraredService :=
  match s.m_eventgroup with
  | some bits => { s with m_eventgroup := some (xEventGroupSetBits bits IR_LEARNING_BIT) }
  | none => s

/-- The method `stopIrLearn` on the members of the record. The call
`m_state->setState(States::NORMAL)` that it makes first is
`InfraredService.stopIrLearn_setState`. -/
def InfraredService.stopIrLearn (s : InfraredService) : InfraredService :=
  match s.m_eventgroup with
  | some bits => { s with m_eventgroup := some (xEventGroupClearBits bits IR_LEARNING_BIT) }
  | none => s

/-- The method `isIrLearning`. -/
def InfraredService.isIrLearning (s : InfraredService) : Bool :=
  match s.m_eventgroup with
  | some bits => decide (bits &&& IR_LEARNING_BIT ≠ 0)
  | none => false

/-- The `pin_mask` built by `send` from the four emitter selections. -/
def pinMask (board : Board) (internal_side internal_top external_1 external_2 : Bool) : Nat :=
  let pin_mask := 0
  let pin_mask := if internal_side then pin_mask ||| (1 <<< board.IR_SEND_PIN_INT_SIDE)
    else pin_mask
  let pin_mask :=
    match board.IR_SEND_PIN_INT_TOP with
    | some pin => if internal_top then pin_mask ||| (1 <<< pin) else pin_mask
    | none => pin_mask
  let pin_mask := if external_1 then pin_mask ||| (1 <<< board.IR_SEND_PIN_EXT_1) else pin_mask
  match board.IR_SEND_PIN_EXT_2 with
  | some pin => if external_2 then pin_mask ||| (1 <<< pin) else pin_mask
  | none => pin_mask

/-- The format selection of `send`: `none` for a format text that is none of the three known. -/
def irFormatOf (format : List Char) : Option IRFormat :=
  if format = ['h', 'e', 'x'] then some IRFormat.UNFOLDED_CIRCLE
  else if format = ['p', 'r', 'o', 'n', 't', 'o'] then some IRFormat.PRONTO
  else if format = ['g', 'c'] then some IRFormat.GLOBAL_CACHE
  else none

/-- Length of the send queue created by `init`. -/
def SEND_QUEUE_LENGTH : Nat := 1

/-- The method `send`: the returned code and the service afterwards. -/
def InfraredService.send (board : Board) (s : InfraredService) (clientId : Int) (msgId : Nat)
    (code format : List Char) (repeat_ : Nat)
    (internal_side internal_top external_1 external_2 : Bool) (gcSocket : Int) :
    Nat × InfraredService :=
  match s.m_queue, s.m_eventgroup with
  | some queue, some bits =>
    if s.isIrLearning then (503, s)
    else
      let pin_mask := pinMask board internal_side internal_top external_1 external_2
      if pin_mask = 0 then (400, s)
      else
        match irFormatOf format with
        | none => (400, s)
        | some irFormat =>
          let sending := decide (queue.length > 0)
          if sending = true ∧ repeat_ > 0 ∧ s.m_currentSendCode = code then
            (202, { s with m_eventgroup := some (xEventGroupSetBits bits IR_REPEAT_BIT) })
          else if sending = true then (429, s)
          else
            let bits := xEventGroupClearBits bits (IR_REPEAT_BIT ||| IR_REPEAT_STOP_BIT)
            let pxMessage : IRSendMessage :=
              ⟨clientId, msgId, irFormat, code, repeat_, pin_mask, gcSocket⟩
            if queue.length ≥ SEND_QUEUE_LENGTH then (429, { s with m_eventgroup := some bits })
            else
              (0, { s with m_eventgroup := some bits, m_queue := some (queue ++ [pxMessage]),
                           m_currentSendCode := code })
  | _, _ => (500, s)

/-- The method `stopSend`. -/
def InfraredService.stopSend (s : InfraredService) : InfraredService :=
  match s.m_eventgroup with
  | some bits =>
    let bits := xEventGroupSetBits bits IR_REPEAT_STOP_BIT
    let bits := xEventGroupClearBits bits IR_REPEAT_BIT
    { s with m_eventgroup := some bits }
  | none => s

/-- The end of an iteration of the `send_ir_f` loop, `delete pIrMsg; xQueueReset(ir->m_queue)`:
the iteration starts with a successful `xQueuePeek`, so it is reached only with a message in
the queue. -/
def InfraredService.send_ir_f_release (s : InfraredService) : InfraredService :=
  match s.m_queue with
  | some (_ :: _) => { s with m_queue := some [] }
  | _ => s

/-- Cut of an `int` to `int16_t`. -/
def toInt16 (x : Int) : Int :=
  (x + 32768) % 65536 - 32768

/-- The method `sendGlobalCache`: the returned code and the service afterwards. `strncmp(sendir,
"sendir,1:", 9) != 0` holds unless the first nine characters are `sendir,1:`. -/
def InfraredService.sendGlobalCache (board : Board) (s : InfraredService) (clientId : Int)
    (msgId : Nat) (sendir : List Char) (socket : Int) : Nat × InfraredService :=
  if sendir.take 9 ≠ ['s', 'e', 'n', 'd', 'i', 'r', ',', '1', ':'] then (2, s)
  else
    match strchr (sendir.drop 9) ',' with
    | none => (4, s)
    | some next =>
      let port := atoi (sendir.drop 9)
      if port < 1 ∨ port > 15 then (3, s)
      else
        match strchr (sendir.drop (9 + next + 1)) ',' with
        | none => (5, s)
        | some next2 =>
          match strchr (sendir.drop (9 + next + 1 + next2 + 1)) ',' with
          | none => (6, s)
          | some next3 =>
            let repeat_ := toInt16 (atoi (sendir.drop (9 + next + 1 + next2 + 1 + next3 + 1)))
            if repeat_ < 1 ∨ repeat_ > 50 then (6, s)
            else
              s.send board clientId msgId sendir ['g', 'c'] repeat_.toNat
                (decide (port.toNat &&& 1 ≠ 0)) (decide (port.toNat &&& 8 ≠ 0))
                (decide (port.toNat &&& 2 ≠ 0)) (decide (port.toNat &&& 4 ≠ 0)) socket

/-- The calls that change the send coordinator: the public methods and the release of the queue
by the send task. -/
inductive ServiceCall where
  | send (clientId : Int) (msgId : Nat) (code format : List Char) (repeat_ : Nat)
      (internal_side internal_top external_1 external_2 : Bool) (gcSocket : Int)
  | stopSend
  | startIrLearn
  | stopIrLearn
  | release
deriving DecidableEq, Repr

/-- The service after one call. -/
def InfraredService.call (board : Board) (s : InfraredService) : ServiceCall → InfraredService
  | .send clientId msgId code format repeat_ a b c d gcSocket =>
    (s.send board clientId msgId code format repeat_ a b c d gcSocket).2
  | .stopSend => s.stopSend
  | .startIrLearn => s.startIrLearn
  | .stopIrLearn => s.stopIrLearn
  | .release => s.send_ir_f_release

/-- The service after a sequence of calls, starting from the initialised object. -/
def InfraredService.run (board : Board) (calls : List ServiceCall) : InfraredService :=
  calls.foldl (InfraredService.call board) InfraredService.created.init

/-! ## `globalcache_server.cpp`: the reply to a `sendir` request -/

/-- The conversion `%d` of `printf` for a value that is not negative: its decimal digits. -/
def formatD (n : Nat) : List Char :=
  Nat.toDigits 10 n

/-- The conversion `%03d` of `printf` for a value that is not negative: its decimal digits,
padded with `0` on the left to three characters. -/
def format03d (n : Nat) : List Char :=
  let digits := Nat.toDigits 10 n
  List.replicate (3 - digits.length) '0' ++ digits

/-- The text `snprintf(buf, size, ...)` leaves in `buf` when the formatted output is `output`:
at most `size - 1` characters, the rest of the buffer being the terminating NUL. -/
def snprintf (size : Nat) (output : List Char) : List Char :=
  output.take (size - 1)

/-- The `sendir` branch of `GlobalCacheServer::socket_task`: the value of `msg` after the chain
of tests on `result`, `none` for `nullptr` (no reply is written), for `req.module`, `req.port`
and the `result` of `sendGlobalCache`. -/
def GlobalCacheServer.sendirMsg (module port result : Nat) : Option (List Char) :=
  if result = 0 ∨ result = 200 then none
  else if result = 202 then none
  else if result > 0 ∧ result < 100 then
    some (snprintf 16 (['E', 'R', 'R', '_'] ++ formatD module ++ [':'] ++ formatD port ++ [','] ++
      format03d result ++ ['\r']))
  else if result = 500 then
    some (snprintf 16 (['E', 'R', 'R', '_'] ++ formatD module ++ [':'] ++ formatD port ++
      [',', '0', '2', '3', '\r']))
  else if result = 429 ∨ result = 503 then some ['b', 'u', 's', 'y', 'i', 'r', '\r']
  else
    some (snprintf 16 (['E', 'R', 'R', '_'] ++ formatD module ++ [':'] ++ formatD port ++
      [',', '0', '0', '1', '\r']))

/-! ## `string_util.hpp` -/

/-- The loop `while ((ix = strchr(ix, orig)) != NULL) { *ix++ = rep; n++; }` of `replacechar`,
with `ix` as an offset into `str`. `fuel` bounds the number of passes; `none` when it runs
out. The result is `n` and the buffer at the end. -/
def replacecharLoop (orig rep : Char) : Nat → List Char → Nat → Nat → Option (Nat × List Char)
  | 0, _, _, _ => none
  | fuel + 1, str, ix, n =>
    match strchr (str.drop ix) orig with
    | none => some (n, str)
    | some k => replacecharLoop orig rep fuel (str.set (ix + k) rep) (ix + k + 1) (n + 1)

/-- The function `replacechar(str, orig, rep)`: the returned count and the buffer afterwards,
`str = none` for a NULL pointer. With `orig` the NUL character `strchr` finds the terminator,
the loop overwrites it and reads past the text: that case is `none`. Each pass of the loop
moves `ix` forward by one character at least, so one pass more than the text has characters
is enough. -/
def replacechar (str : Option (List Char)) (orig rep : Char) :
    Option (Nat × Option (List Char)) :=
  match str with
  | none => some (0, none)
  | some s =>
    if orig = Char.ofNat 0 then none
    else (replacecharLoop orig rep (s.length + 1) s 0 0).map (fun r => (r.1, some r.2))

/-! ## `event_bits.hpp` -/

/-- Conversion of an `int` to `uint32_t`. -/
def toUInt32 (x : Int) : Nat :=
  (x % 2 ^ 32).toNat

/-- The function `bitIsSetAndNoHigherPrioTask(mask, eventBits)`, for an `int` `mask` and a
`uint32_t` `eventBits`: in `eventBits & mask` the mask is converted to `uint32_t`; `mask - 1`
is computed for `mask > 1` only. -/
def bitIsSetAndNoHigherPrioTask (mask : Int) (eventBits : Nat) : Bool :=
  if eventBits &&& toUInt32 mask = 0 then false
  else if mask ≤ 1 then true
  else decide (eventBits &&& toUInt32 (mask - 1) = 0)

/-! ## `service_ir.cpp`: the repeat callback of the send task -/

/-- The variables of `send_ir_f` that the repeat callback reads and writes: `repeatLimit`
(`uint16_t`) and `repeat` (`int`). The third captured variable, `repeatCount`, is used by a
log statement that is commented out. -/
structure RepeatVars where
  repeatLimit : Nat
  repeat_ : Int
deriving DecidableEq, Repr

/-- The lambda `repeatCallback` of `send_ir_f`, on the bits of the event group and the captured
variables: the returned value, the bits and the variables afterwards. -/
def repeatCallback (bits : Nat) (v : RepeatVars) : Bool × Nat × RepeatVars :=
  let r : Nat × RepeatVars :=
    if bits &&& IR_REPEAT_STOP_BIT ≠ 0 then (bits, { v with repeat_ := 0 })
    else if bits &&& IR_REPEAT_BIT ≠ 0 then
      (xEventGroupClearBits bits IR_REPEAT_BIT, { v with repeat_ := (v.repeatLimit : Int) })
    else (bits, v)
  if r.2.repeat_ > 0 then (true, r.1, { r.2 with repeat_ := r.2.repeat_ - 1 })
  else (false, r.1, r.2)

/-- The start of a transmission in `send_ir_f`: with `pIrMsg->repeat > 0` both variables are
set to it and the callback is installed (`some`), else no callback is installed (`none`). -/
def repeatVarsOf (pIrMsg : IRSendMessage) : Option RepeatVars :=
  if pIrMsg.repeat_ > 0 then some ⟨pIrMsg.repeat_, (pIrMsg.repeat_ : Int)⟩ else none

/-- A step of the system made of the service and the running transmission: a call of the
service or an invocation of the repeat callback by the transmitter. -/
inductive TransmitStep where
  | call (c : ServiceCall)
  | repeatCallback
deriving DecidableEq, Repr

/-- The service and the captured variables after one step; the callback works on the event
group the task took from the service. -/
def transmitStep (board : Board) (t : InfraredService × RepeatVars) :
    TransmitStep → InfraredService × RepeatVars
  | .call c => (t.1.call board c, t.2)
  | .repeatCallback =>
    match t.1.m_eventgroup with
    | some bits =>
      ({ t.1 with m_eventgroup := some (repeatCallback bits t.2).2.1 },
        (repeatCallback bits t.2).2.2)
    | none => t

/-! ## `globalcache_server.cpp`: one request of a client connection -/

/-- The C library `isgraph` in the "C" locale: the printing characters other than the space. -/
def isgraph (c : Char) : Bool :=
  decide (0x21 ≤ c.toNat ∧ c.toNat ≤ 0x7E)

/-- The `States` enumeration of `states.h`. -/
inductive States where
  | NOT_SET
  | TEST_LED_RED
  | TEST_LED_GREEN
  | TEST_LED_BLUE
  | STARTUP
  | SETUP
  | CONNECTING
  | CONN_SUCCESS
  | NORMAL
  | NORMAL_CHARGING
  | ERROR
  | LED_SETUP
  | NORMAL_FULLYCHARGED
  | NORMAL_LOWBATTERY
  | OTA
  | IDENTIFY
  | IR_LEARNING
  | IR_LEARN_OK
  | IR_LEARN_FAILED
deriving DecidableEq, Repr

/-- The first statement of the method `startIrLearn`, `if (m_state)
m_state->setState(States::IR_LEARNING)`: the state passed to `setState`, `none` when `m_state`
is not set and nothing is called. -/
def InfraredService.startIrLearn_setState (hasState : Bool) : Option States :=
  if hasState then some States.IR_LEARNING else none

/-- The first statement of the method `stopIrLearn`, `if (m_state)
m_state->setState(States::NORMAL)`. -/
def InfraredService.stopIrLearn_setState (hasState : Bool) : Option States :=
  if hasState then some States.NORMAL else none

/-- The client identifier of the gateway, `IR_CLIENT_GC`. -/
def IR_CLIENT_GC : Int := -2

/-- What `socket_task` reads besides the request: the emitter pins of the board, whether
`HAS_ETHERNET` is defined, the build constant `DOCK_VERSION`, of the `GCClient` the socket and
the MAC address text, and whether the infrared service it points to has its `m_state` set. -/
structure GCClient where
  board : Board
  HAS_ETHERNET : Bool
  DOCK_VERSION : List Char
  socket : Int
  mac : List Char
  hasState : Bool
deriving DecidableEq, Repr

/-- What one pass of the `while (true)` loop of `socket_task` does after a successful `recv`:
the texts handed to `send_string_to_socket` in order (every write taken as successful), the
infrared service afterwards and the state passed to `setState`, if it is called, by the pass
itself (`blink`) or by the learn switch it calls (`get_IRL`, `stop_IRL`). -/
structure SocketPass where
  sent : List (List Char)
  irService : InfraredService
  setState : Option States
deriving DecidableEq, Repr

/-- The number of ports in the `getdevices` reply: one, and one more for each of
`IR_SEND_PIN_INT_TOP`, `IR_SEND_PIN_EXT_1` and `IR_SEND_PIN_EXT_2` the board defines
(`IR_SEND_PIN_EXT_1` is defined by every board header). -/
def getdevicesPorts (board : Board) : Nat :=
  let ports := 1
  let ports := match board.IR_SEND_PIN_INT_TOP with
    | some _ => ports + 1
    | none => ports
  let ports := ports + 1
  match board.IR_SEND_PIN_EXT_2 with
  | some _ => ports + 1
  | none => ports

/-- The `getversion` reply: `DOCK_VERSION` without a leading `v`, followed by CR, cut to the
buffer `version[20]`, with every `.` replaced by `-` through `replacechar`. -/
def getversionReply (DOCK_VERSION : List Char) : Option (List Char) :=
  let version := snprintf 20
    ((if DOCK_VERSION.head? = some 'v' then DOCK_VERSION.drop 1 else DOCK_VERSION) ++ ['\r'])
  match replacechar (some version) '.' '-' with
  | some (_, some version) => some version
  | _ => none

/-- One pass of the loop of `GlobalCacheServer::socket_task` for the text `received` that `recv`
put into `rx_buffer` (up to its terminating NUL), with `irService` the infrared service before
and `req` the uninitialised `GCMsg` of the pass. `none` is a pass that leaves defined
behaviour: `atoi(req.param)` with `req.param` a null pointer. -/
def GlobalCacheServer.socket_task (client : GCClient) (irService : InfraredService)
    (req : GCMsg) (received : List Char) : Option SocketPass :=
  match strchr received '\r' with
  | none =>
    let msg := if received.take 7 = ['s', 'e', 'n', 'd', 'i', 'r', ','] then
        ['E', 'R', 'R', ' ', '0', '2', '0', '\r']
      else ['E', 'R', 'R', ' ', '0', '1', '6', '\r']
    some ⟨[msg], irService, none⟩
  | some end_ =>
    let rx_buffer := received.take end_
    let start := rx_buffer.dropWhile (fun c => !isgraph c)
    if start = [] then some ⟨[], irService, none⟩
    else
      let parsed := parseGcRequest rx_buffer req
      let result := parsed.1
      let req := parsed.2
      if result ≠ 0 then
        some ⟨[snprintf 16 (['E', 'R', 'R', '_', '1', ':', '1', ','] ++ format03d result ++
          ['\r'])], irService, none⟩
      else if req.command = ['s', 'e', 'n', 'd', 'i', 'r'] then
        match req.param with
        | none => none
        | some param =>
          let clientId := IR_CLIENT_GC
          let msgId := toUInt32 (atoi param)
          let r := irService.sendGlobalCache client.board clientId msgId rx_buffer client.socket
          match GlobalCacheServer.sendirMsg req.module req.port r.1 with
          | none => some ⟨[], r.2, none⟩
          | some msg => some ⟨[msg], r.2, none⟩
      else if req.command = ['s', 't', 'o', 'p', 'i', 'r'] then
        some ⟨[rx_buffer], irService.stopSend, none⟩
      else if req.command = ['g', 'e', 't', 'd', 'e', 'v', 'i', 'c', 'e', 's'] then
        let msg := snprintf 64 ("device,0,0 WIFI\rdevice,1,".toList ++
          formatD (getdevicesPorts client.board) ++ " IR\rendlistdevices\r".toList)
        if client.HAS_ETHERNET then
          some ⟨["device,0,0 ETHERNET\r".toList, msg], irService, none⟩
        else some ⟨[msg], irService, none⟩
      else if req.command = ['g', 'e', 't', 'v', 'e', 'r', 's', 'i', 'o', 'n'] then
        match getversionReply client.DOCK_VERSION with
        | some version => some ⟨[version], irService, none⟩
        | none => none
      else if req.command = ['g', 'e', 't', 'm', 'a', 'c'] then
        some ⟨[snprintf 30 ("MACaddress,".toList ++ client.mac ++ ['\r'])], irService, none⟩
      else if req.command = ['b', 'l', 'i', 'n', 'k'] then
        match req.param with
        | some param =>
          if param = ['1'] then some ⟨[], irService, some States.IDENTIFY⟩
          else if param = ['0'] then some ⟨[], irService, some States.NORMAL⟩
          else some ⟨[], irService, none⟩
        | none => some ⟨[], irService, some States.IDENTIFY⟩
      else if req.command = ['g', 'e', 't', '_', 'I', 'R', 'L'] then
        some ⟨[], irService.startIrLearn,
          InfraredService.startIrLearn_setState client.hasState⟩
      else if req.command = ['s', 't', 'o', 'p', '_', 'I', 'R', 'L'] then
        some ⟨[], irService.stopIrLearn,
          InfraredService.stopIrLearn_setState client.hasState⟩
      else
        some ⟨[snprintf 16 (['E', 'R', 'R', '_'] ++ formatD req.module ++ [':'] ++
          formatD req.port ++ [',', '0', '0', '1', '\r'])], irService, none⟩

/-! ## `service_ir.cpp`: completion reply and learn loop -/

/-- Value of a `uint32_t` read as an `int`, which is how `printf` takes it for `%d`. -/
def toInt32 (n : Nat) : Int :=
  if n % 2 ^ 32 < 2 ^ 31 then ((n % 2 ^ 32 : Nat) : Int) else ((n % 2 ^ 32 : Nat) : Int) - 2 ^ 32

/-- The conversion `%d` of `printf` for an `int`. -/
def formatInt (x : Int) : List Char :=
  if x < 0 then '-' :: Nat.toDigits 10 x.natAbs else Nat.toDigits 10 x.toNat

/-- The reply `send_ir_f` writes to the socket of a gateway request when the transmission is
over, `none` when the message does not come from the gateway (the reply then goes to the API
response queue). `req` is the uninitialised `GCMsg` the message text is parsed into. -/
def InfraredService.send_ir_f_response (pIrMsg : IRSendMessage) (req : GCMsg) :
    Option (List Char) :=
  if pIrMsg.clientId = IR_CLIENT_GC ∧ pIrMsg.gcSocket > 0 then
    let parsed := parseGcRequest pIrMsg.message req
    let module := if parsed.1 = 0 then parsed.2.module else 1
    let port := if parsed.1 = 0 then parsed.2.port else 1
    some (snprintf 24 ("completeir,".toList ++ formatD module ++ [':'] ++ formatD port ++ [','] ++
      formatInt (toInt32 pIrMsg.msgId) ++ ['\r']))
  else none

/-- Modelled from the spec: the fields of the decoder library's `decode_results` that the learn
loop reads. The library is not among the sources; the spec names protocol, value, bit count,
repeat and the overflow mark of a raw decode result. `decode_type` is the number of the
protocol, `value` a `uint64_t`, `bits` a `uint16_t`. -/
structure decode_results where
  decode_type : Int
  value : Nat
  bits : Nat
  overflow : Bool
  repeat_ : Bool
deriving DecidableEq, Repr

/-- The largest `uint64_t`. -/
def UINT64_MAX : Nat := 2 ^ 64 - 1

/-- The `IrResponse` struct of `service_ir.h`; `message` holds the serialised JSON document as
the list of its members in the order they are set. -/
structure IrResponse where
  clientId : Int
  message : List (List Char × List Char)
deriving DecidableEq, Repr

/-- Length of the API response queue created by `init`. -/
def API_RESPONSE_QUEUE_LENGTH : Nat := 5

/-- What the learn loop does with one decode result: whether it is classified as failed, the
state passed to `setState` (when the service has a state object) and the API response queue
afterwards. -/
structure LearnPass where
  failed : Bool
  setState : Option States
  apiResponseQueue : List IrResponse
deriving DecidableEq, Repr

/-- The body of the inner loop of `learn_ir_f` after `irrecv.decode(&results)` returned true.
`UNKNOWN` is the enumerator `decode_type_t::UNKNOWN` and `resultToHexidecimal` the function of
that name, both of the decoder library; `hasState` tells whether `ir->m_state` is set;
`apiResponseQueue` lists the responses waiting in `m_apiResponseQueue`, which takes no further
one when it holds `API_RESPONSE_QUEUE_LENGTH`. -/
def InfraredService.learn_ir_f_pass (UNKNOWN : Int)
    (resultToHexidecimal : decode_results → List Char) (hasState : Bool)
    (apiResponseQueue : List IrResponse) (results : decode_results) : LearnPass :=
  let failed :=
    if results.overflow then true
    else if results.decode_type = UNKNOWN then true
    else if results.value = 0 ∨ results.value = UINT64_MAX then true
    else false
  if failed then
    ⟨true, if hasState then some States.IR_LEARN_FAILED else none, apiResponseQueue⟩
  else
    let code : List Char := []
    let code := code ++ formatInt results.decode_type
    let code := code ++ [';']
    let code := code ++ resultToHexidecimal results
    let code := code ++ [';']
    let code := code ++ formatD results.bits
    let code := code ++ [';']
    let code := code ++ formatD (if results.repeat_ then 1 else 0)
    let response : IrResponse :=
      ⟨-1, [("type".toList, "event".toList), ("msg".toList, "ir_receive".toList),
        ("ir_code".toList, code)]⟩
    if apiResponseQueue.length ≥ API_RESPONSE_QUEUE_LENGTH then
      ⟨false, if hasState then some States.IR_LEARN_OK else none, apiResponseQueue⟩
    else
      ⟨false, if hasState then some States.IR_LEARN_OK else none, apiResponseQueue ++ [response]⟩

/-! ## Vocabulary of the statements -/

/-- A nonempty run of digits of the base: a numeral without sign, prefix or padding. -/
def IsNumeral (base : Nat) (s : List Char) : Prop :=
  s ≠ [] ∧ ∀ c ∈ s, isDigitOf base c = true

instance (base : Nat) (s : List Char) : Decidable (IsNumeral base s) := by
  unfold IsNumeral; infer_instance

/-- Positional value of a run of digit characters, most significant digit first. -/
def numeralValue (base : Nat) (s : List Char) : Nat :=
  Nat.ofDigits base ((s.map (fun c => (digitVal c).getD 0)).reverse)

/-- A text whose first character is neither white space nor a sign. -/
def PlainStart (t : List Char) : Prop :=
  ∃ c cs, t = c :: cs ∧ isspace c = false ∧ c ≠ '-' ∧ c ≠ '+'

instance (t : List Char) : Decidable (PlainStart t) :=
  match t with
  | [] => isFalse (fun h => by obtain ⟨c, cs, e, _⟩ := h; cases e)
  | c :: cs =>
    if h : isspace c = false ∧ c ≠ '-' ∧ c ≠ '+' then isTrue ⟨c, cs, rfl, h⟩
    else isFalse (fun h' => by obtain ⟨c', cs', e, h''⟩ := h'; cases e; exact h h'')

/-- A character that ends every digit run and cannot continue a `0x` prefix. -/
def IsStop (base : Nat) (a : Char) : Prop :=
  isDigitOf base a = false ∧ isDigitOf 16 a = false ∧ a ≠ 'x' ∧ a ≠ 'X'

/-- The message `P;C;B;R` assembled from its four field texts. -/
def hexMessage (P C B R : List Char) : List Char :=
  P ++ ';' :: (C ++ ';' :: (B ++ ';' :: R))

/-- The command field `Cf` writes the hexadecimal numeral `C`, bare or behind `0x`/`0X`. -/
def IsHexField (Cf C : List Char) : Prop :=
  IsNumeral 16 C ∧ (Cf = C ∨ Cf = '0' :: 'x' :: C ∨ Cf = '0' :: 'X' :: C)

instance (Cf C : List Char) : Decidable (IsHexField Cf C) := by
  unfold IsHexField; infer_instance

/-- The text left after the white space and the one sign that the conversions skip. -/
def afterSpaceAndSign (s : List Char) : List Char :=
  if hasSign (s.dropWhile isspace) then (s.dropWhile isspace).tail else s.dropWhile isspace

/-- The text begins, after optional white space and an optional sign, with a decimal digit. -/
def StartsWithDigit (s : List Char) : Prop :=
  (afterSpaceAndSign s).head?.map (isDigitOf 10) = some true

/-- A numeral of the base behind optional white space and an optional sign; for base 16 it may
carry the prefix `0x` or `0X`. -/
def IsPaddedNumeral (base : Nat) (s : List Char) : Prop :=
  IsNumeral base (afterSpaceAndSign s) ∨
  (base = 16 ∧ ((afterSpaceAndSign s).take 2 = ['0', 'x'] ∨ (afterSpaceAndSign s).take 2 = ['0', 'X'])
    ∧ IsNumeral 16 ((afterSpaceAndSign s).drop 2))

instance (s : List Char) : Decidable (StartsWithDigit s) := by
  unfold StartsWithDigit; infer_instance

instance (base : Nat) (s : List Char) : Decidable (IsPaddedNumeral base s) := by
  unfold IsPaddedNumeral; infer_instance

/-- The separator-led continuation of a joined text: each further token behind a separator. -/
def tailJoin (sep : Char) : List (List Char) → List Char
  | [] => []
  | t :: ts => sep :: (t ++ tailJoin sep ts)

/-- Tokens joined by a separator character. -/
def joinSep (sep : Char) : List (List Char) → List Char
  | [] => []
  | t :: ts => t ++ tailJoin sep ts

/-- A token as the decoders read it cleanly: non-empty, free of the separator, and not starting
with white space or a sign. -/
def IsToken (sep : Char) (t : List Char) : Prop :=
  PlainStart t ∧ sep ∉ t

instance (sep : Char) (t : List Char) : Decidable (IsToken sep t) := by
  unfold IsToken; infer_instance

/-- The `uint16_t` stored for a token text: the `strtoul` value of the text, cut to 16 bits. -/
def storedValue (base : Nat) (t : List Char) : Nat :=
  (strtoul t base 0).value % 65536

/-- The literal command prefix tested by `globalCacheBufferToArray`. -/
def sendirText : List Char := ['s', 'e', 'n', 'd', 'i', 'r']

/-- The text of an integer written in decimal: a decimal numeral, or a minus sign and a decimal
numeral. -/
def IsIntegerText (M : List Char) (m : Int) : Prop :=
  (IsNumeral 10 M ∧ m = (numeralValue 10 M : Int)) ∨
  (∃ D, M = '-' :: D ∧ IsNumeral 10 D ∧ m = -(numeralValue 10 D : Int))

/-- A run of decimal digits, possibly empty. -/
def IsDigitRun (D : List Char) : Prop := ∀ c ∈ D, isDigitOf 10 c = true

instance (D : List Char) : Decidable (IsDigitRun D) := by
  unfold IsDigitRun; infer_instance

/-- The text does not go on with a decimal digit: it is empty or starts with another character. -/
def NoDigitAhead (rest : List Char) : Prop :=
  rest.head?.map (isDigitOf 10) ≠ some true

instance (rest : List Char) : Decidable (NoDigitAhead rest) := by
  unfold NoDigitAhead; infer_instance

/-- The text starts with nothing that `atoi` would skip: it is empty or its first character is
neither white space nor a sign. -/
def NoPadAhead (rest : List Char) : Prop :=
  rest = [] ∨ PlainStart rest

instance (rest : List Char) : Decidable (NoPadAhead rest) := by
  unfold NoPadAhead; infer_instance

/-- The value of a `long` conversion: the integer cut to the range of `long`. -/
def clampLong (m : Int) : Int :=
  if m > LONG_MAX then LONG_MAX else if m < LONG_MIN then LONG_MIN else m

/-- The optional tail of a request: nothing, or a comma and the parameter text. -/
def gcTail : Option (List Char) → List Char
  | none => []
  | some t => ',' :: t

/-- The single-slot condition on a service: the send queue exists, holds at most one request,
and a request it holds has the remembered code as its text. -/
def SingleSlot (s : InfraredService) : Prop :=
  ∃ q, s.m_queue = some q ∧ q.length ≤ 1 ∧ ∀ m ∈ q, s.m_currentSendCode = m.message

/-- Request `m` is in flight: it is the one request in the send queue, and the remembered code
is its text, as in every state the calls lead to. -/
def InFlight (s : InfraredService) (m : IRSendMessage) : Prop :=
  s.m_queue = some [m] ∧ s.m_currentSendCode = m.message

instance (s : InfraredService) (m : IRSendMessage) : Decidable (InFlight s m) := by
  unfold InFlight; infer_instance

/-- Nothing is in flight: the send queue is empty or was never created. -/
def NothingInFlight (s : InfraredService) : Prop :=
  s.m_queue = some [] ∨ s.m_queue = none

instance (s : InfraredService) : Decidable (NothingInFlight s) := by
  unfold NothingInFlight; infer_instance

/-- The bits of the event group and the captured variables after `n` invocations of the repeat
callback with no other step in between. -/
def afterCallbacks (bits : Nat) (v : RepeatVars) : Nat → Nat × RepeatVars
  | 0 => (bits, v)
  | n + 1 => (repeatCallback (afterCallbacks bits v n).1 (afterCallbacks bits v n).2).2

/-- A run of white space, possibly empty. -/
def IsSpaceRun (W : List Char) : Prop := ∀ c ∈ W, isspace c = true

instance (W : List Char) : Decidable (IsSpaceRun W) := by
  unfold IsSpaceRun; infer_instance

/-- An optional sign: nothing, `+` or `-`. -/
def IsSign (S : List Char) : Prop := S = [] ∨ S = ['+'] ∨ S = ['-']

instance (S : List Char) : Decidable (IsSign S) := by
  unfold IsSign; infer_instance

/-- The integer written by an optional sign and a run of decimal digits; an empty run
counts 0. -/
def signedValue (S D : List Char) : Int :=
  if S = ['-'] then -(numeralValue 10 D : Int) else (numeralValue 10 D : Int)

/-- The text `M` read from the left: white space `W`, an optional sign `S`, the run `D` of
decimal digits that follows, and the rest `T`, which does not go on with a digit and, when there
is neither sign nor digit, starts with neither white space nor a sign. -/
def Reading (M W S D T : List Char) : Prop :=
  M = W ++ (S ++ (D ++ T)) ∧ IsSpaceRun W ∧ IsSign S ∧ IsDigitRun D ∧ NoDigitAhead T ∧
    (S = [] → D = [] → NoPadAhead T)

instance (M W S D T : List Char) : Decidable (Reading M W S D T) := by
  unfold Reading; infer_instance

/-- The captured variables after the repeat callback has been invoked once for each element of
`seen`, in order, each element being the bits of the event group the invocation finds. -/
def callbacksFrom (v : RepeatVars) : List Nat → RepeatVars
  | [] => v
  | bits :: rest => callbacksFrom (repeatCallback bits v).2.2 rest

/-! ## Lemmas on the C library model -/

theorem isspace_of_digit {base : Nat} {c : Char} (h : isDigitOf base c = true) : isspace c = false := by
  unfold isDigitOf digitVal at h
  unfold isspace
  split_ifs at h <;> simp_all <;> omega

theorem digit_toNat {base : Nat} {c : Char} (hb : base ≤ 16) (h : isDigitOf base c = true) :
    (48 ≤ c.toNat ∧ c.toNat ≤ 57) ∨ (97 ≤ c.toNat ∧ c.toNat ≤ 102) ∨ (65 ≤ c.toNat ∧ c.toNat ≤ 70) := by
  unfold isDigitOf digitVal at h
  split_ifs at h <;> simp_all <;> omega

theorem digit_ne_of_toNat {base : Nat} {c d : Char} (hb : base ≤ 16) (h : isDigitOf base c = true)
    (hd : d.toNat < 48 ∨ (57 < d.toNat ∧ d.toNat < 65) ∨ (70 < d.toNat ∧ d.toNat < 97) ∨ 102 < d.toNat) :
    c ≠ d := by
  intro hcd
  subst hcd
  have := digit_toNat hb h
  omega

theorem takeWhile_append_stop {p : Char → Bool} (l : List Char) (a : Char) (r : List Char)
    (ha : p a = false) : (l ++ a :: r).takeWhile p = l.takeWhile p := by
  induction l with
  | nil => simp [List.takeWhile, ha]
  | cons x xs ih =>
    simp only [List.cons_append, List.takeWhile]
    cases p x <;> simp [ih]

theorem hasPrefix_append_stop (base : Nat) (t : List Char) (a : Char) (r : List Char)
    (ht : t ≠ []) (ha : IsStop base a) :
    hasPrefix base (t ++ a :: r) = hasPrefix base t := by
  obtain ⟨-, ha16, hx, hX⟩ := ha
  match t, ht with
  | [c], _ =>
    match r with
    | [] => simp [hasPrefix]
    | r0 :: rs => simp [hasPrefix, hx, hX]
  | [c, b], _ => simp [hasPrefix, ha16]
  | c :: b :: b2 :: cs, _ => simp [hasPrefix]

theorem hasPrefix_length {base : Nat} {t : List Char} (h : hasPrefix base t = true) :
    ∃ c b cs, t = c :: b :: cs := by
  match t with
  | [] => simp [hasPrefix] at h
  | [c] => simp [hasPrefix] at h
  | c :: b :: cs => exact ⟨c, b, cs, rfl⟩

theorem parseSubject_append_stop (base : Nat) (t : List Char) (a : Char) (r : List Char)
    (ht : PlainStart t) (ha : IsStop base a) :
    parseSubject base (t ++ a :: r) = parseSubject base t := by
  obtain ⟨c, cs, rfl, hsp, hm, hp⟩ := ht
  have hs1 : ((c :: cs) ++ a :: r).dropWhile isspace = (c :: cs) ++ a :: r := by
    simp [List.dropWhile, hsp]
  have hs1' : (c :: cs).dropWhile isspace = c :: cs := by simp [List.dropWhile, hsp]
  have hw : ((c :: cs) ++ a :: r).takeWhile isspace = [] := by simp [List.takeWhile, hsp]
  have hw' : (c :: cs).takeWhile isspace = [] := by simp [List.takeWhile, hsp]
  have hsg : hasSign ((c :: cs) ++ a :: r) = false := by simp [hasSign, hm, hp]
  have hsg' : hasSign (c :: cs) = false := by simp [hasSign, hm, hp]
  have hpre := hasPrefix_append_stop base (c :: cs) a r (by simp) ha
  unfold parseSubject
  simp only [hs1, hs1', hw, hw', hsg, hsg', Bool.false_eq_true, if_false]
  rw [hpre]
  have hh : ((c :: cs) ++ a :: r).head? = (c :: cs).head? := by simp
  rw [hh]
  cases hpf : hasPrefix base (c :: cs) with
  | false =>
    simp only [Bool.false_eq_true, if_false]
    rw [takeWhile_append_stop _ _ _ ha.1]
  | true =>
    obtain ⟨c', b, cs', h⟩ := hasPrefix_length hpf
    rw [h]
    simp only [if_true, List.cons_append, List.drop_succ_cons, List.drop_zero]
    rw [takeWhile_append_stop _ _ _ ha.1]

theorem accumulate_eq_foldl (base : Nat) (ds : List Char) (a : Nat) :
    ds.foldl (fun acc c => acc * base + (digitVal c).getD 0) a
      = a * base ^ ds.length + numeralValue base ds := by
  induction ds generalizing a with
  | nil => simp [numeralValue]
  | cons d ds ih =>
    simp only [List.foldl_cons, List.length_cons]
    rw [ih]
    have : numeralValue base (d :: ds) = (digitVal d).getD 0 * base ^ ds.length + numeralValue base ds := by
      simp [numeralValue, Nat.ofDigits_append, Nat.ofDigits_singleton]
      ring
    rw [this]
    ring

theorem accumulate_eq (base : Nat) (ds : List Char) : accumulate base ds = numeralValue base ds := by
  unfold accumulate
  rw [accumulate_eq_foldl]
  simp

theorem numeral_plainStart {base : Nat} {s : List Char} (hb : base ≤ 16) (h : IsNumeral base s) :
    PlainStart s := by
  obtain ⟨hne, hall⟩ := h
  match s, hne with
  | c :: cs, _ =>
    have hc := hall c (by simp)
    exact ⟨c, cs, rfl, isspace_of_digit hc,
      digit_ne_of_toNat hb hc (by decide), digit_ne_of_toNat hb hc (by decide)⟩

theorem takeWhile_all {p : Char → Bool} {l : List Char} (h : ∀ c ∈ l, p c = true) :
    l.takeWhile p = l := by
  induction l with
  | nil => rfl
  | cons x xs ih =>
    simp only [List.takeWhile, h x (by simp)]
    rw [ih (fun c hc => h c (by simp [hc]))]

theorem hasPrefix_numeral {base : Nat} {s : List Char} (hb : base ≤ 16) (h : IsNumeral base s) :
    hasPrefix base s = false := by
  match s with
  | [] => rfl
  | [_] => rfl
  | [_, _] => rfl
  | c0 :: c1 :: c2 :: cs =>
    have h1 := h.2 c1 (by simp)
    have hx : c1 ≠ 'x' := digit_ne_of_toNat hb h1 (by decide)
    have hX : c1 ≠ 'X' := digit_ne_of_toNat hb h1 (by decide)
    simp [hasPrefix, hx, hX]

/-- A numeral is converted whole, with its positional value. -/
theorem parseSubject_numeral {base : Nat} {s : List Char} (hb : base ≤ 16) (h : IsNumeral base s) :
    parseSubject base s = ⟨false, numeralValue base s, s.length⟩ := by
  obtain ⟨c, cs, rfl, hsp, hm, hp⟩ := numeral_plainStart hb h
  have hs1 : (c :: cs).dropWhile isspace = c :: cs := by simp [List.dropWhile, hsp]
  have hw : (c :: cs).takeWhile isspace = [] := by simp [List.takeWhile, hsp]
  have hsg : hasSign (c :: cs) = false := by simp [hasSign, hm, hp]
  unfold parseSubject
  simp only [hs1, hw, hsg, Bool.false_eq_true, if_false, hasPrefix_numeral hb h,
    takeWhile_all h.2, accumulate_eq]
  simp [hm]

/-- A hexadecimal numeral behind `0x` or `0X` is converted whole, prefix included. -/
theorem parseSubject_prefixed {x : Char} {s : List Char} (hx : x = 'x' ∨ x = 'X')
    (h : IsNumeral 16 s) :
    parseSubject 16 ('0' :: x :: s) = ⟨false, numeralValue 16 s, s.length + 2⟩ := by
  obtain ⟨hne, hall⟩ := h
  match s, hne with
  | c :: cs, _ =>
    have hc := hall c (by simp)
    have hpre : hasPrefix 16 ('0' :: x :: c :: cs) = true := by
      rcases hx with rfl | rfl <;> simp [hasPrefix, hc]
    have h0 : isspace '0' = false := by decide
    have hs1 : ('0' :: x :: c :: cs).dropWhile isspace = '0' :: x :: c :: cs := by
      rw [List.dropWhile, h0]
    have hw : ('0' :: x :: c :: cs).takeWhile isspace = [] := by
      rw [List.takeWhile, h0]
    have hsg : hasSign ('0' :: x :: c :: cs) = false := by
      simp [hasSign]
    unfold parseSubject
    simp only [hs1, hw, hsg, hpre, Bool.false_eq_true, if_false, if_true, List.drop_succ_cons,
      List.drop_zero, takeWhile_all hall, accumulate_eq]
    simp
    omega

/-! ## Lemmas on `strchr`, `indexOf` and `substring` -/

theorem strchr_append {pre : List Char} {ch : Char} (post : List Char) (h : ch ∉ pre) :
    strchr (pre ++ ch :: post) ch = some pre.length := by
  induction pre with
  | nil => simp [strchr]
  | cons c cs ih =>
    have hc : c ≠ ch := fun e => h (by simp [e])
    have hcs : ch ∉ cs := fun e => h (by simp [e])
    simp [strchr, hc, ih hcs]

theorem strchr_none {s : List Char} {ch : Char} (h : ch ∉ s) : strchr s ch = none := by
  induction s with
  | nil => rfl
  | cons c cs ih =>
    have hc : c ≠ ch := fun e => h (by simp [e])
    have hcs : ch ∉ cs := fun e => h (by simp [e])
    simp [strchr, hc, ih hcs]

theorem strchr_some {s : List Char} {ch : Char} {i : Nat} (h : strchr s ch = some i) :
    ∃ pre post, s = pre ++ ch :: post ∧ pre.length = i ∧ ch ∉ pre := by
  induction s generalizing i with
  | nil => simp [strchr] at h
  | cons c cs ih =>
    unfold strchr at h
    split_ifs at h with hc
    · exact ⟨[], cs, by simp [hc], by simpa using h, by simp⟩
    · cases hr : strchr cs ch with
      | none => simp [hr] at h
      | some j =>
        obtain ⟨pre, post, e, hl, hn⟩ := ih hr
        refine ⟨c :: pre, post, by simp [e], ?_, ?_⟩
        · simp [hr] at h; simp [hl, h]
        · simp [hn]; exact fun e => hc e.symm

theorem indexOf_append (pre : List Char) {mid : List Char} {ch : Char} (post : List Char) (h : ch ∉ mid)
    (m : List Char) (i j : Nat) (hm : m = pre ++ (mid ++ ch :: post)) (hi : i = pre.length)
    (hj : j = pre.length + mid.length) :
    indexOf m ch i = (j : Int) := by
  subst hm hi hj
  unfold indexOf
  have : ¬ pre.length ≥ (pre ++ (mid ++ ch :: post)).length := by simp
  simp only [this, if_false, List.drop_left, strchr_append post h]

theorem substring_mid (pre mid post : List Char) (m : List Char) (l r : Nat)
    (hm : m = pre ++ (mid ++ post)) (hl : l = pre.length) (hr : r = pre.length + mid.length) :
    substring m l r = mid := by
  subst hm hl hr
  unfold substring
  have h1 : min pre.length (pre.length + mid.length) = pre.length := by omega
  have h2 : min (max pre.length (pre.length + mid.length)) (pre ++ (mid ++ post)).length
      = pre.length + mid.length := by
    simp only [List.length_append]; omega
  simp only [h1, h2]
  rw [← List.append_assoc, List.take_left' (by simp), List.drop_left]

/-- Indices and substrings computed by `buildIRHexData` on a message of four fields. -/
theorem fields_split (P C B R : List Char) (hP : ';' ∉ P) (hC : ';' ∉ C) (hB : ';' ∉ B) :
    let m := P ++ ';' :: (C ++ ';' :: (B ++ ';' :: R))
    indexOf m ';' 0 = (P.length : Int) ∧
    indexOf m ';' (P.length + 1) = ((P.length + 1 + C.length : Nat) : Int) ∧
    indexOf m ';' (P.length + 1 + C.length + 1) = ((P.length + 1 + C.length + 1 + B.length : Nat) : Int) ∧
    substring m 0 P.length = P ∧
    substring m (P.length + 1) (P.length + 1 + C.length) = C ∧
    substring m (P.length + 1 + C.length + 1) (P.length + 1 + C.length + 1 + B.length) = B ∧
    substring m (P.length + 1 + C.length + 1 + B.length + 1) m.length = R := by
  intro m
  refine ⟨?_, ?_, ?_, ?_, ?_, ?_, ?_⟩
  · exact indexOf_append [] (C ++ ';' :: (B ++ ';' :: R)) hP m _ _ (by simp [m])
      (by simp) (by simp)
  · exact indexOf_append (P ++ [';']) (B ++ ';' :: R) hC m _ _ (by simp [m])
      (by simp) (by simp)
  · exact indexOf_append (P ++ ';' :: C ++ [';']) R hB m _ _ (by simp [m])
      (by simp; omega) (by simp; omega)
  · exact substring_mid [] P (';' :: (C ++ ';' :: (B ++ ';' :: R))) m _ _ (by simp [m])
      (by simp) (by simp)
  · exact substring_mid (P ++ [';']) C (';' :: (B ++ ';' :: R)) m _ _ (by simp [m])
      (by simp) (by simp)
  · exact substring_mid (P ++ ';' :: C ++ [';']) B (';' :: R) m _ _ (by simp [m])
      (by simp; omega) (by simp; omega)
  · exact substring_mid (P ++ ';' :: C ++ ';' :: B ++ [';']) R [] m _ _ (by simp [m])
      (by simp; omega) (by simp [m]; omega)

/-! ## Conversions applied to numerals -/

theorem numeral_length_pos {base : Nat} {s : List Char} (h : IsNumeral base s) : s.length ≠ 0 := by
  have := h.1
  cases s <;> simp_all

theorem strtoUnsigned_numeral {base : Nat} {s : List Char} (maxVal e : Nat) (hb : base ≤ 16)
    (h : IsNumeral base s) :
    strtoUnsigned maxVal s base e =
      if numeralValue base s > maxVal then ⟨maxVal, s.length, ERANGE⟩
      else ⟨numeralValue base s, s.length, e⟩ := by
  unfold strtoUnsigned
  simp only [parseSubject_numeral hb h, numeral_length_pos h, if_false, Bool.false_eq_true]

theorem strtoUnsigned_prefixed {x : Char} {s : List Char} (maxVal e : Nat)
    (hx : x = 'x' ∨ x = 'X') (h : IsNumeral 16 s) :
    strtoUnsigned maxVal ('0' :: x :: s) 16 e =
      if numeralValue 16 s > maxVal then ⟨maxVal, s.length + 2, ERANGE⟩
      else ⟨numeralValue 16 s, s.length + 2, e⟩ := by
  unfold strtoUnsigned
  simp only [parseSubject_prefixed hx h, Nat.add_eq_zero, OfNat.ofNat_ne_zero, and_false,
    if_false, Bool.false_eq_true]

theorem parseULong_numeral {s : List Char} (e : Nat) (he : e ≠ ERANGE) (h : IsNumeral 10 s) :
    parseULong s 10 e =
      if numeralValue 10 s > ULONG_MAX then ⟨0, 1, ERANGE⟩ else ⟨numeralValue 10 s, 0, e⟩ := by
  unfold parseULong strtoul
  rw [strtoUnsigned_numeral _ _ (by decide) h]
  split_ifs with hv <;> simp [numeral_length_pos h, he]

theorem toInt_numeral {s : List Char} (h : IsNumeral 10 s) :
    toInt s = if (numeralValue 10 s : Int) > LONG_MAX then LONG_MAX else (numeralValue 10 s : Int) := by
  unfold toInt atol strtol
  simp only [parseSubject_numeral (by decide) h, numeral_length_pos h, if_false, Bool.false_eq_true]

theorem semicolon_not_mem {base : Nat} {s : List Char} (hb : base ≤ 16) (h : IsNumeral base s) :
    ';' ∉ s := by
  intro hm
  exact digit_ne_of_toNat hb (h.2 _ hm) (by decide) rfl

/-! ## `buildIRHexData` on messages made of numerals -/

theorem toNat_succ_cast (n : Nat) : ((n : Int) + 1).toNat = n + 1 := by omega

theorem cast_ne_neg_one (n : Nat) : ((n : Int) = -1) = False := by
  simp only [eq_iff_iff, iff_false]; omega

theorem strtoull_hexField {Cf C : List Char} (h : IsHexField Cf C)
    (hc : numeralValue 16 C < 2 ^ 64) :
    strtoull Cf 16 0 = ⟨numeralValue 16 C, Cf.length, 0⟩ := by
  obtain ⟨hC, rfl | rfl | rfl⟩ := h
  · unfold strtoull
    rw [strtoUnsigned_numeral _ _ (by decide) hC, if_neg]
    simp only [ULLONG_MAX]; omega
  · unfold strtoull
    rw [strtoUnsigned_prefixed _ _ (Or.inl rfl) hC, if_neg]
    · simp
    · simp only [ULLONG_MAX]; omega
  · unfold strtoull
    rw [strtoUnsigned_prefixed _ _ (Or.inr rfl) hC, if_neg]
    · simp
    · simp only [ULLONG_MAX]; omega

theorem hexField_semicolon {Cf C : List Char} (h : IsHexField Cf C) : ';' ∉ Cf := by
  obtain ⟨hC, rfl | rfl | rfl⟩ := h
  · exact semicolon_not_mem (by decide) hC
  · have := semicolon_not_mem (by decide) hC
    simp [this]
  · have := semicolon_not_mem (by decide) hC
    simp [this]

theorem hexField_length {Cf C : List Char} (h : IsHexField Cf C) : Cf.length ≠ 0 := by
  obtain ⟨hC, rfl | rfl | rfl⟩ := h
  · exact numeral_length_pos hC
  · simp
  · simp

theorem buildIRHexData_numerals (P Cf C B R : List Char) (data : IRHexData)
    (hP : IsNumeral 10 P) (hC : IsHexField Cf C) (hB : IsNumeral 10 B) (hR : IsNumeral 10 R)
    (hp0 : numeralValue 10 P ≠ 0) (hp : numeralValue 10 P < 2 ^ 31)
    (hc : numeralValue 16 C < 2 ^ 64) :
    buildIRHexData (hexMessage P Cf B R) data =
      if numeralValue 10 B > ULONG_MAX ∨ numeralValue 10 B > 0xFFFF then
        (false, { data with protocol := numeralValue 10 P, command := numeralValue 16 C })
      else if numeralValue 10 B = 0 then
        (false, { data with protocol := numeralValue 10 P, command := numeralValue 16 C, bits := 0 })
      else if numeralValue 10 R > 20 then
        (false, { data with protocol := numeralValue 10 P, command := numeralValue 16 C,
                            bits := numeralValue 10 B })
      else (true, ⟨numeralValue 10 P, numeralValue 16 C, numeralValue 10 B, numeralValue 10 R⟩) := by
  obtain ⟨i1, i2, i3, s1, s2, s3, s4⟩ := fields_split P Cf B R
    (semicolon_not_mem (by decide) hP) (hexField_semicolon hC) (semicolon_not_mem (by decide) hB)
  have hpi : toInt P = (numeralValue 10 P : Int) := by
    rw [toInt_numeral hP, if_neg]
    simp only [LONG_MAX]; omega
  have hcv := strtoull_hexField hC hc
  unfold buildIRHexData hexMessage
  simp only [i1, i2, i3, s1, s2, s3, s4, toNat_succ_cast, Int.toNat_ofNat, cast_ne_neg_one,
    or_self, if_false, hpi, hcv, parseULong_numeral 0 (by decide) hB]
  have hp0' : ((numeralValue 10 P : Nat) : Int) ≠ 0 := by exact_mod_cast hp0
  have hlen : ¬ (Cf.length < Cf.length) := by simp
  have hlen0 := hexField_length hC
  simp only [hp0', hlen, hlen0, if_false, and_false, ne_eq, not_true_eq_false]
  by_cases h1 : numeralValue 10 B > ULONG_MAX
  · simp [h1]
  · simp only [h1, if_false, false_or, not_true_eq_false]
    rw [parseULong_numeral 0 (by decide) hR]
    by_cases h2 : numeralValue 10 B > 65535
    · simp [h2]
    · have h2' : numeralValue 10 B % 65536 = numeralValue 10 B := Nat.mod_eq_of_lt (by omega)
      simp only [h2, if_false, h2']
      by_cases h3 : numeralValue 10 B = 0
      · simp [h3]
      · simp only [h3, if_false]
        by_cases h4 : numeralValue 10 R > 20
        · by_cases h5 : numeralValue 10 R > ULONG_MAX
          · simp [h4, h5]
          · simp [h4, h5]
        · have h5 : ¬ numeralValue 10 R > ULONG_MAX := by simp only [ULONG_MAX]; omega
          have h6 : numeralValue 10 R % 65536 = numeralValue 10 R := Nat.mod_eq_of_lt (by omega)
          have h7 : ¬ numeralValue 10 R > 65535 := by omega
          simp [h4, h5, h6, h7]



/-! ## `buildIRHexData` on arbitrary messages -/

theorem buildIRHexData_post (message : List Char) (data : IRHexData) :
    (buildIRHexData message data).1 = true →
    (buildIRHexData message data).2.protocol ≠ 0 ∧
    1 ≤ (buildIRHexData message data).2.bits ∧ (buildIRHexData message data).2.bits ≤ 65535 ∧
    (buildIRHexData message data).2.repeat_ ≤ 20 := by
  unfold buildIRHexData
  simp only []
  generalize indexOf message ';' 0 = i1
  generalize indexOf message ';' (i1 + 1).toNat = i2
  generalize indexOf message ';' (i2 + 1).toNat = i3
  generalize toInt (substring message 0 i1.toNat) = p
  generalize substring message (i1 + 1).toNat i2.toNat = cs
  generalize strtoull cs 16 0 = c
  generalize parseULong (substring message (i2 + 1).toNat i3.toNat) 10 c.errno = b
  generalize parseULong (substring message (i3 + 1).toNat message.length) 10 b.errno = r
  split_ifs with h1 h2 h3 h4 h5 h6 h7 h8
  all_goals try (intro h; simp at h; done)
  intro _
  simp only [not_or, not_lt, ne_eq, Decidable.not_not] at h6 h8
  refine ⟨h2, ?_, ?_, ?_⟩
  · simp only; omega
  · simp only; omega
  · simp only; omega

theorem indexOf_count {s : List Char} {ch : Char} {i j : Nat}
    (h : indexOf s ch i = (j : Int)) :
    (s.drop i).count ch = 1 + (s.drop (j + 1)).count ch := by
  unfold indexOf at h
  by_cases hi : i ≥ s.length
  · rw [if_pos hi] at h; omega
  rw [if_neg hi] at h
  cases hs : strchr (s.drop i) ch with
  | none => rw [hs] at h; simp only at h; omega
  | some k =>
    rw [hs] at h
    simp only at h
    have h' : i + k = j := by exact_mod_cast h
    obtain ⟨pre, post, e, hl, hn⟩ := strchr_some hs
    have hd : s.drop (j + 1) = post := by
      have : j + 1 = i + (pre.length + 1) := by omega
      rw [this, ← List.drop_drop, e]
      simp
    rw [hd, e]
    simp [List.count_append, List.count_eq_zero_of_not_mem hn]
    try omega

theorem indexOf_cases (s : List Char) (ch : Char) (i : Nat) :
    indexOf s ch i = -1 ∨ ∃ j : Nat, indexOf s ch i = (j : Int) := by
  unfold indexOf
  split_ifs
  · left; rfl
  · cases strchr (s.drop i) ch with
    | none => left; rfl
    | some k => right; exact ⟨_, rfl⟩

/-- Three separators are found only in a message that holds three of them. -/
theorem three_indices {m : List Char}
    (h : ¬ (indexOf m ';' 0 = -1 ∨
            indexOf m ';' (indexOf m ';' 0 + 1).toNat = -1 ∨
            indexOf m ';' (indexOf m ';' (indexOf m ';' 0 + 1).toNat + 1).toNat = -1)) :
    3 ≤ m.count ';' := by
  simp only [not_or] at h
  obtain ⟨h1, h2, h3⟩ := h
  rcases indexOf_cases m ';' 0 with e1 | ⟨j1, e1⟩
  · exact absurd e1 h1
  rw [e1, toNat_succ_cast] at h2 h3
  rcases indexOf_cases m ';' (j1 + 1) with e2 | ⟨j2, e2⟩
  · exact absurd e2 h2
  rw [e2, toNat_succ_cast] at h3
  rcases indexOf_cases m ';' (j2 + 1) with e3 | ⟨j3, e3⟩
  · exact absurd e3 h3
  have c1 := indexOf_count e1
  have c2 := indexOf_count e2
  have c3 := indexOf_count e3
  simp only [List.drop_zero] at c1
  omega

theorem buildIRHexData_few_separators (message : List Char) (data : IRHexData)
    (h : message.count ';' < 3) : (buildIRHexData message data).1 = false := by
  unfold buildIRHexData
  simp only []
  by_cases h1 : (indexOf message ';' 0 = -1 ∨
      indexOf message ';' (indexOf message ';' 0 + 1).toNat = -1 ∨
      indexOf message ';' (indexOf message ';' (indexOf message ';' 0 + 1).toNat + 1).toNat = -1)
  · rw [if_pos h1]
  · have := three_indices h1
    omega

/-- What an accepted message of four fields tells about the conversions of its fields. -/
theorem accepted_fields (P C B R : List Char) (data : IRHexData)
    (hP : ';' ∉ P) (hC : ';' ∉ C) (hB : ';' ∉ B)
    (h : (buildIRHexData (hexMessage P C B R) data).1 = true) :
    toInt P ≠ 0 ∧
    ¬ ((strtoull C 16 0).value = 0 ∧ (strtoull C 16 0).endPos = 0) ∧
    ¬ (strtoull C 16 0).endPos < C.length ∧
    (parseULong B 10 (strtoull C 16 0).errno).error = 0 ∧
    (parseULong R 10 (parseULong B 10 (strtoull C 16 0).errno).errno).error = 0 := by
  obtain ⟨i1, i2, i3, s1, s2, s3, s4⟩ := fields_split P C B R hP hC hB
  revert h
  unfold buildIRHexData hexMessage
  simp only [i1, i2, i3, s1, s2, s3, s4, toNat_succ_cast, Int.toNat_ofNat, cast_ne_neg_one,
    or_self, if_false]
  generalize toInt P = p
  generalize strtoull C 16 0 = c
  generalize parseULong B 10 c.errno = b
  generalize parseULong R 10 b.errno = r
  intro h
  by_cases h2 : p = 0
  · rw [if_pos h2] at h; exact absurd h (by simp)
  rw [if_neg h2] at h
  by_cases h3 : c.value = 0 ∧ c.endPos = 0
  · rw [if_pos h3] at h; exact absurd h (by simp)
  rw [if_neg h3] at h
  by_cases h4 : c.value = ULLONG_MAX ∧ c.errno ≠ 0
  · rw [if_pos h4] at h; exact absurd h (by simp)
  rw [if_neg h4] at h
  by_cases h5 : c.endPos < C.length
  · rw [if_pos h5] at h; exact absurd h (by simp)
  rw [if_neg h5] at h
  by_cases h6 : b.error ≠ 0 ∨ b.value > 65535
  · rw [if_pos h6] at h; exact absurd h (by simp)
  rw [if_neg h6] at h
  by_cases h7 : b.value % 65536 = 0
  · rw [if_pos h7] at h; exact absurd h (by simp)
  rw [if_neg h7] at h
  by_cases h8 : r.error ≠ 0 ∨ r.value > 65535 ∨ r.value > 20
  · rw [if_pos h8] at h; exact absurd h (by simp)
  simp only [not_or, ne_eq, Decidable.not_not] at h6 h8
  exact ⟨h2, h3, h5, h6.1, h8.1⟩

theorem parseULong_nil (e : Nat) : (parseULong [] 10 e).error = 1 := by
  simp [parseULong, strtoul, strtoUnsigned, parseSubject]

theorem buildIRHexData_empty_field (P C B R : List Char) (data : IRHexData)
    (hP : ';' ∉ P) (hC : ';' ∉ C) (hB : ';' ∉ B)
    (h : P = [] ∨ C = [] ∨ B = [] ∨ R = []) :
    (buildIRHexData (hexMessage P C B R) data).1 = false := by
  cases hr : (buildIRHexData (hexMessage P C B R) data).1 with
  | false => rfl
  | true =>
    obtain ⟨a1, a2, a3, a4, a5⟩ := accepted_fields P C B R data hP hC hB hr
    rcases h with rfl | rfl | rfl | rfl
    · exact absurd (by decide) a1
    · exact absurd (by decide) a2
    · rw [parseULong_nil] at a4; omega
    · rw [parseULong_nil] at a5; omega

/-! ## Shape of the fields of an accepted message -/

theorem takeWhile_length_eq {p : Char → Bool} {l : List Char}
    (h : l.length ≤ (l.takeWhile p).length) : ∀ c ∈ l, p c = true := by
  induction l with
  | nil => simp
  | cons x xs ih =>
    cases hx : p x with
    | false => simp [List.takeWhile, hx] at h
    | true =>
      simp only [List.takeWhile, hx, List.length_cons, Nat.add_le_add_iff_right] at h
      intro c hc
      rcases List.mem_cons.mp hc with rfl | hc
      · exact hx
      · exact ih h c hc

theorem span_length (p : Char → Bool) (l : List Char) :
    (l.takeWhile p).length + (l.dropWhile p).length = l.length := by
  induction l with
  | nil => rfl
  | cons x xs ih =>
    cases hx : p x <;> simp [List.takeWhile, List.dropWhile, hx]
    omega

theorem hasSign_length {s : List Char} (h : hasSign s = true) : s.tail.length + 1 = s.length := by
  cases s with
  | nil => simp [hasSign] at h
  | cons c cs => simp

theorem hasPrefix_shape {base : Nat} {t : List Char} (h : hasPrefix base t = true) :
    base = 16 ∧ (t.take 2 = ['0', 'x'] ∨ t.take 2 = ['0', 'X']) ∧ (t.drop 2).length + 2 = t.length := by
  match t with
  | [] => simp [hasPrefix] at h
  | [_] => simp [hasPrefix] at h
  | [_, _] => simp [hasPrefix] at h
  | c0 :: c1 :: c2 :: cs =>
    simp only [hasPrefix, Bool.and_eq_true, decide_eq_true_eq, Bool.or_eq_true] at h
    obtain ⟨⟨⟨hb, h0⟩, hx⟩, _⟩ := h
    subst h0
    refine ⟨hb, ?_, by simp⟩
    rcases hx with rfl | rfl
    · left; rfl
    · right; rfl

/-- A conversion that consumes a whole, non-empty text has read a padded numeral. -/
theorem padded_of_whole {base : Nat} {s : List Char}
    (h0 : (parseSubject base s).endPos ≠ 0)
    (h1 : ¬ (parseSubject base s).endPos < s.length) : IsPaddedNumeral base s := by
  unfold parseSubject at h0 h1
  simp only [] at h0 h1
  have hsp := span_length isspace s
  unfold IsPaddedNumeral afterSpaceAndSign
  generalize hs1 : s.dropWhile isspace = s1 at *
  have hsg : (if hasSign s1 then s1.tail else s1).length + (if hasSign s1 then 1 else 0)
      = s1.length := by
    by_cases g : hasSign s1 = true
    · simp only [g, if_true]; exact hasSign_length g
    · simp only [g, if_false]; simp
  generalize hs2 : (if hasSign s1 then s1.tail else s1) = s2 at *
  by_cases hp : hasPrefix base s2 = true
  · simp only [hp, if_true] at h0 h1
    obtain ⟨hb, hx, hl⟩ := hasPrefix_shape hp
    right
    refine ⟨hb, hx, ?_⟩
    subst hb
    by_cases hd : List.takeWhile (isDigitOf 16) (List.drop 2 s2) = []
    · simp [hd] at h0
    · simp only [hd, if_false] at h0 h1
      refine ⟨?_, takeWhile_length_eq (by omega)⟩
      intro e; rw [e] at hd; exact hd rfl
  · have hp' : hasPrefix base s2 = false := by simpa using hp
    simp only [hp', Bool.false_eq_true, if_false] at h0 h1
    left
    by_cases hd : List.takeWhile (isDigitOf base) s2 = []
    · simp [hd] at h0
    · simp only [hd, if_false] at h0 h1
      refine ⟨?_, takeWhile_length_eq (by omega)⟩
      intro e; rw [e] at hd; exact hd rfl



theorem strtoUnsigned_endPos (maxVal : Nat) (s : List Char) (base e : Nat) :
    (strtoUnsigned maxVal s base e).endPos = (parseSubject base s).endPos := by
  unfold strtoUnsigned
  simp only []
  by_cases h1 : (parseSubject base s).endPos = 0
  · rw [if_pos h1]; exact h1.symm
  · rw [if_neg h1]
    by_cases h2 : (parseSubject base s).magnitude > maxVal
    · rw [if_pos h2]
    · rw [if_neg h2]

theorem strtoUnsigned_value_zero (maxVal : Nat) (s : List Char) (base e : Nat)
    (h : (parseSubject base s).endPos = 0) : (strtoUnsigned maxVal s base e).value = 0 := by
  unfold strtoUnsigned
  simp only [h, if_true]

theorem padded_of_parseULong {s : List Char} {e : Nat} (h : (parseULong s 10 e).error = 0) :
    IsPaddedNumeral 10 s := by
  unfold parseULong at h
  simp only [] at h
  by_cases hc : (strtoul s 10 e).endPos = 0 ∨ (strtoul s 10 e).endPos < s.length ∨
      (strtoul s 10 e).errno = ERANGE
  · rw [if_pos hc] at h; simp at h
  · simp only [not_or] at hc
    unfold strtoul at hc
    rw [strtoUnsigned_endPos] at hc
    exact padded_of_whole hc.1 hc.2.1

theorem padded_of_strtoull {s : List Char}
    (h0 : ¬ ((strtoull s 16 0).value = 0 ∧ (strtoull s 16 0).endPos = 0))
    (h1 : ¬ (strtoull s 16 0).endPos < s.length) : IsPaddedNumeral 16 s := by
  unfold strtoull at h0 h1
  rw [strtoUnsigned_endPos] at h0 h1
  refine padded_of_whole (fun h => h0 ⟨strtoUnsigned_value_zero _ _ _ _ h, h⟩) h1

theorem startsWithDigit_of_toInt {s : List Char} (h : toInt s ≠ 0) : StartsWithDigit s := by
  unfold toInt atol strtol at h
  simp only [] at h
  have h0 : (parseSubject 10 s).endPos ≠ 0 := by
    intro e; rw [if_pos e] at h; exact h rfl
  unfold parseSubject at h0
  simp only [] at h0
  unfold StartsWithDigit afterSpaceAndSign
  generalize (if hasSign (s.dropWhile isspace) then (s.dropWhile isspace).tail
    else s.dropWhile isspace) = s2 at *
  have hp : hasPrefix 10 s2 = false := by
    match s2 with
    | [] => rfl
    | [_] => rfl
    | [_, _] => rfl
    | _ :: _ :: _ :: _ => simp [hasPrefix]
  simp only [hp, Bool.false_eq_true, if_false] at h0
  match s2 with
  | [] => simp at h0
  | c :: cs =>
    cases hc : isDigitOf 10 c with
    | true => simp [hc]
    | false => simp [List.takeWhile, hc] at h0

/-! ## The scanning loops of the array decoders -/

theorem countValuesLoop_eq (sep : Char) (s : List Char) (index count : Nat)
    (hi : index + s.length ≤ INT16_MAX) (hc : count + s.count sep < 65536) :
    countValuesLoop sep s index count = some (count + s.count sep) := by
  induction s generalizing index count with
  | nil => simp [countValuesLoop]
  | cons c cs ih =>
    simp only [List.length_cons] at hi
    have h1 : ¬ index + 1 > INT16_MAX := by omega
    unfold countValuesLoop
    rw [if_neg h1]
    by_cases hcs : c = sep
    · subst hcs
      simp only [List.count_cons_self] at hc
      rw [if_pos rfl, Nat.mod_eq_of_lt (by omega), ih _ _ (by omega) (by omega)]
      simp only [List.count_cons_self]
      congr 1; omega
    · have hcs' : (c == sep) = false := by simpa using hcs
      simp only [List.count_cons, hcs', Bool.false_eq_true, if_false, Nat.add_zero] at hc
      rw [if_neg hcs, ih _ _ (by omega) hc]
      simp [List.count_cons, hcs']

theorem countValuesLoop_long (sep : Char) (s : List Char) (index count : Nat)
    (hi : index + s.length > INT16_MAX) (h0 : index ≤ INT16_MAX) :
    countValuesLoop sep s index count = none := by
  induction s generalizing index count with
  | nil => simp only [List.length_nil] at hi; omega
  | cons c cs ih =>
    simp only [List.length_cons] at hi
    unfold countValuesLoop
    by_cases h1 : index + 1 > INT16_MAX
    · rw [if_pos h1]
    · rw [if_neg h1]
      exact ih _ _ (by omega) (by omega)

theorem tailJoin_count {sep : Char} {ts : List (List Char)} (h : ∀ t ∈ ts, sep ∉ t) :
    (tailJoin sep ts).count sep = ts.length := by
  induction ts with
  | nil => rfl
  | cons t ts ih =>
    have ht : sep ∉ t := h t (by simp)
    simp only [tailJoin, List.count_cons_self, List.count_append,
      List.count_eq_zero_of_not_mem ht, List.length_cons]
    rw [ih (fun u hu => h u (by simp [hu]))]
    omega

theorem tailJoin_length_ge (sep : Char) (ts : List (List Char)) :
    ts.length ≤ (tailJoin sep ts).length := by
  induction ts with
  | nil => simp
  | cons t ts ih => simp only [tailJoin, List.length_cons, List.length_append]; omega

theorem countValuesInCStr_join {sep : Char} (t : List Char) (ts : List (List Char))
    (ht : t ≠ []) (hs : ∀ u ∈ t :: ts, sep ∉ u)
    (hlen : (joinSep sep (t :: ts)).length ≤ INT16_MAX) :
    countValuesInCStr (joinSep sep (t :: ts)) sep = some (ts.length + 1) := by
  have hne : joinSep sep (t :: ts) ≠ [] := by
    simp [joinSep, ht]
  have hcount : (joinSep sep (t :: ts)).count sep = ts.length := by
    simp only [joinSep, List.count_append, List.count_eq_zero_of_not_mem (hs t (by simp))]
    rw [tailJoin_count (fun u hu => hs u (by simp [hu]))]
    omega
  have hb : ts.length ≤ INT16_MAX := by
    have := tailJoin_length_ge sep ts
    simp only [joinSep, List.length_append] at hlen
    omega
  unfold countValuesInCStr
  rw [if_neg hne, countValuesLoop_eq sep _ 0 0 (by omega)
    (by rw [hcount]; simp only [INT16_MAX] at hb; omega), hcount]
  simp only [INT16_MAX] at hb
  simp only [Option.map_some', Option.some.injEq]
  omega

theorem strtoul_append_stop (base : Nat) (t : List Char) (a : Char) (r : List Char)
    (ht : PlainStart t) (ha : IsStop base a) :
    (strtoul (t ++ a :: r) base 0).value = (strtoul t base 0).value := by
  unfold strtoul strtoUnsigned
  rw [parseSubject_append_stop base t a r ht ha]

theorem prontoLoop_token (msg : List Char) (sep : Char) (t rest : List Char) (st : ProntoState)
    (ht : sep ∉ t) (hi : st.index + t.length ≤ INT16_MAX) :
    prontoLoop msg sep (t ++ rest) st =
      prontoLoop msg sep rest { st with index := st.index + t.length } := by
  induction t generalizing st with
  | nil => simp
  | cons c cs ih =>
    have hc : c ≠ sep := fun e => ht (by simp [e])
    have hcs : sep ∉ cs := fun e => ht (by simp [e])
    simp only [List.length_cons] at hi
    have h1 : ¬ st.index + 1 > INT16_MAX := by omega
    simp only [List.cons_append, prontoLoop, if_neg h1, if_neg hc, List.append_eq]
    rw [ih _ hcs (by simp only; omega)]
    simp only [List.length_cons]
    congr 2
    omega

theorem prontoLoop_sep (msg : List Char) (sep : Char) (rest : List Char) (st : ProntoState)
    (hi : st.index + 1 ≤ INT16_MAX) :
    prontoLoop msg sep (sep :: rest) st =
      prontoLoop msg sep rest
        ⟨st.index + 1, st.index + 1, (st.count + 1) % 65536,
          st.codeArray ++ [(strtoul (msg.drop st.startFrom) 16 0).value % 65536]⟩ := by
  have h1 : ¬ st.index + 1 > INT16_MAX := by omega
  simp only [prontoLoop, if_neg h1, if_true]

/-- The scanning loop of `prontoBufferToArray` over a run of clean tokens: every token but the
last is stored, and the last one is left between `startFrom` and the end of the text. -/
theorem prontoLoop_tokens (msg : List Char) (sep : Char) (hsep : IsStop 16 sep)
    (ts : List (List Char)) (t : List Char) (st : ProntoState)
    (hts : ∀ u ∈ t :: ts, IsToken sep u)
    (hmsg : msg.drop st.startFrom = t ++ tailJoin sep ts)
    (hidx : st.index = st.startFrom)
    (hlen : st.index + (t ++ tailJoin sep ts).length ≤ INT16_MAX)
    (hcnt : st.count + ts.length < 65536) :
    ∃ sf, prontoLoop msg sep (t ++ tailJoin sep ts) st =
        some ⟨st.index + (t ++ tailJoin sep ts).length, sf, st.count + ts.length,
          st.codeArray ++ ((t :: ts).dropLast.map (storedValue 16))⟩ ∧
      sf < st.index + (t ++ tailJoin sep ts).length ∧
      (strtoul (msg.drop sf) 16 0).value % 65536 =
        storedValue 16 ((t :: ts).getLast (by simp)) := by
  induction ts generalizing t st with
  | nil =>
    have ht := hts t (by simp)
    simp only [tailJoin, List.append_nil] at hmsg hlen ⊢
    refine ⟨st.startFrom, ?_, ?_, ?_⟩
    · have := prontoLoop_token msg sep t [] st ht.2 hlen
      simp only [List.append_nil] at this
      rw [this]
      simp [prontoLoop]
    · obtain ⟨c, cs, rfl, _⟩ := ht.1
      simp only [List.length_cons]; omega
    · simp [hmsg, storedValue]
  | cons u us ih =>
    have ht := hts t (by simp)
    simp only [tailJoin, List.length_append, List.length_cons] at hlen
    simp only [List.length_cons] at hcnt
    have hstore : (strtoul (msg.drop st.startFrom) 16 0).value % 65536 = storedValue 16 t := by
      rw [hmsg]
      simp only [tailJoin, storedValue]
      rw [strtoul_append_stop 16 t sep _ ht.1 hsep]
    have hdrop : msg.drop (st.index + t.length + 1) = u ++ tailJoin sep us := by
      have e : st.index + t.length + 1 = st.startFrom + (t.length + 1) := by omega
      rw [e, ← List.drop_drop, hmsg]
      simp only [tailJoin]
      rw [List.drop_append_eq_append_drop]
      simp
    obtain ⟨sf, h1, h2, h3⟩ := ih u
      ⟨st.index + t.length + 1, st.index + t.length + 1, st.count + 1,
        st.codeArray ++ [storedValue 16 t]⟩
      (fun x hx => hts x (by simp at hx ⊢; tauto)) hdrop rfl
      (by simp only [List.length_append]; omega) (by simp only; omega)
    refine ⟨sf, ?_, ?_, ?_⟩
    · simp only [tailJoin]
      rw [prontoLoop_token msg sep t _ st ht.2 (by omega),
        prontoLoop_sep msg sep _ _ (by simp only; omega)]
      simp only [hstore]
      rw [Nat.mod_eq_of_lt (by omega), h1]
      simp only [List.length_append, List.length_cons, List.dropLast_cons₂, List.map_cons,
        List.append_assoc, List.singleton_append]
      congr 2
      · omega
      · omega
    · simp only [List.length_append, List.length_cons, tailJoin] at h2 ⊢
      omega
    · rw [h3]
      simp

theorem joinSep_length_ge (sep : Char) (t : List Char) (ts : List (List Char)) :
    t.length + ts.length ≤ (joinSep sep (t :: ts)).length := by
  have := tailJoin_length_ge sep ts
  simp only [joinSep, List.length_append]
  omega

/-- `prontoBufferToArray` on a text of six or more clean tokens whose stored values pass the
validation: the stored values are returned. -/
theorem prontoBufferToArray_tokens (sep : Char) (hsep : IsStop 16 sep)
    (t : List Char) (ts : List (List Char)) (codeCount : Nat) (v : List Nat)
    (hts : ∀ u ∈ t :: ts, IsToken sep u) (hn : 5 ≤ ts.length)
    (hlen : (joinSep sep (t :: ts)).length ≤ INT16_MAX)
    (hv : v = (t :: ts).map (storedValue 16))
    (h0 : v.getD 0 0 = 0) (hfit : 4 + 2 * v.getD 2 0 + 2 * v.getD 3 0 ≤ v.length) :
    prontoBufferToArray true (joinSep sep (t :: ts)) sep codeCount =
      some ⟨some v, v.length, 0⟩ := by
  have hne : t ≠ [] := by
    obtain ⟨c, cs, rfl, _⟩ := (hts t (by simp)).1
    simp
  have hcount := countValuesInCStr_join t ts hne (fun u hu => (hts u hu).2) hlen
  have hjl := joinSep_length_ge sep t ts
  have hvl : v.length = ts.length + 1 := by simp [hv]
  obtain ⟨sf, h1, h2, h3⟩ := prontoLoop_tokens (joinSep sep (t :: ts)) sep hsep ts t ⟨0, 0, 0, []⟩
    hts (by simp [joinSep]) rfl (by simpa [joinSep] using hlen)
    (by simp only [INT16_MAX] at hlen; simp only; omega)
  have harr : ([] : List Nat) ++ (t :: ts).dropLast.map (storedValue 16)
      ++ [storedValue 16 ((t :: ts).getLast (by simp))] = v := by
    rw [hv, List.nil_append, ← List.map_singleton, ← List.map_append,
      List.dropLast_append_getLast]
  unfold prontoBufferToArray
  simp only [hcount]
  have hc6 : ¬ ts.length + 1 < 6 := by omega
  rw [if_neg hc6]
  simp only [Bool.true_eq_false, if_false]
  change (match prontoLoop (joinSep sep (t :: ts)) sep (t ++ tailJoin sep ts) ⟨0, 0, 0, []⟩ with
    | none => none
    | some st => _) = _
  rw [h1]
  simp only [Nat.zero_add] at h2 ⊢
  simp only [h2, if_true, h3, harr, h0, ne_eq, not_true_eq_false, if_false]
  simp only [INT16_MAX] at hlen
  have e1 : v.getD 2 0 * 2 % 65536 = v.getD 2 0 * 2 := Nat.mod_eq_of_lt (by omega)
  have e2 : v.getD 3 0 * 2 % 65536 = v.getD 3 0 * 2 := Nat.mod_eq_of_lt (by omega)
  have e3 : (ts.length + 1) % 65536 = ts.length + 1 := Nat.mod_eq_of_lt (by omega)
  have e4 : (4 + v.getD 2 0 * 2) % 65536 = 4 + v.getD 2 0 * 2 := Nat.mod_eq_of_lt (by omega)
  simp only [e1, e2, e3, e4]
  have c1 : ¬ (v.getD 2 0 * 2 > 0 ∧ v.getD 2 0 * 2 + 4 > ts.length + 1) := by omega
  have c2 : ¬ (v.getD 3 0 * 2 > 0 ∧ v.getD 3 0 * 2 + (4 + v.getD 2 0 * 2) > ts.length + 1) := by
    omega
  rw [if_neg c1, if_neg c2, hvl]

theorem digitVal_lt {base : Nat} {c : Char} (h : isDigitOf base c = true) :
    (digitVal c).getD 0 < base := by
  unfold isDigitOf at h
  cases hd : digitVal c with
  | none => simp [hd] at h
  | some d => simpa [hd] using h

theorem numeralValue_lt {base : Nat} {s : List Char} (hb : 1 < base) (h : IsNumeral base s) :
    numeralValue base s < base ^ s.length := by
  unfold numeralValue
  have := Nat.ofDigits_lt_base_pow_length (b := base)
    (l := (s.map (fun c => (digitVal c).getD 0)).reverse) hb (by
      intro x hx
      simp only [List.mem_reverse, List.mem_map] at hx
      obtain ⟨c, hc, rfl⟩ := hx
      exact digitVal_lt (h.2 c hc))
  simpa using this

theorem storedValue_numeral {base : Nat} {s : List Char} (hb : base ≤ 16)
    (h : IsNumeral base s) (hv : numeralValue base s < 65536) :
    storedValue base s = numeralValue base s := by
  unfold storedValue strtoul
  rw [strtoUnsigned_numeral _ _ hb h, if_neg (by simp only [ULONG_MAX]; omega)]
  exact Nat.mod_eq_of_lt hv

theorem isStop_sep {base : Nat} {sep : Char} (h : sep = ' ' ∨ sep = ',') : IsStop base sep := by
  unfold IsStop
  rcases h with rfl | rfl
  · refine ⟨?_, by decide, by decide, by decide⟩
    simp [isDigitOf, digitVal]
  · refine ⟨?_, by decide, by decide, by decide⟩
    simp [isDigitOf, digitVal]

theorem isToken_numeral {base : Nat} {sep : Char} {s : List Char} (hb : base ≤ 16)
    (hsep : sep = ' ' ∨ sep = ',') (h : IsNumeral base s) : IsToken sep s := by
  refine ⟨numeral_plainStart hb h, fun hm => ?_⟩
  have hd := h.2 sep hm
  rw [(isStop_sep hsep : IsStop base sep).1] at hd
  exact absurd hd (by simp)

theorem storedValue_nondigit {t : List Char} (ht : PlainStart t)
    (hd : t.head?.map (isDigitOf 16) = some false) : storedValue 16 t = 0 := by
  obtain ⟨c, cs, rfl, hsp, hm, hp⟩ := ht
  simp only [List.head?_cons, Option.map_some', Option.some.injEq] at hd
  have hs1 : (c :: cs).dropWhile isspace = c :: cs := by simp [List.dropWhile, hsp]
  have hsg : hasSign (c :: cs) = false := by simp [hasSign, hm, hp]
  have hpre : hasPrefix 16 (c :: cs) = false := by
    match cs with
    | [] => rfl
    | [_] => rfl
    | c1 :: c2 :: _ =>
      have : c ≠ '0' := by
        intro e; subst e; revert hd; decide
      simp [hasPrefix, this]
  have hps : parseSubject 16 (c :: cs) = ⟨false, 0, 0⟩ := by
    unfold parseSubject
    simp only [hs1, hsg, hpre, Bool.false_eq_true, if_false]
    simp [List.takeWhile, hd]
  unfold storedValue strtoul strtoUnsigned
  simp [hps]

theorem globalCacheLoop_token (msg : List Char) (sep : Char) (k : Nat) (t rest : List Char)
    (st : GlobalCacheState) (ht : sep ∉ t) (hi : st.msgIndex + t.length ≤ INT16_MAX) :
    globalCacheLoop msg sep k (t ++ rest) st =
      globalCacheLoop msg sep k rest { st with msgIndex := st.msgIndex + t.length } := by
  induction t generalizing st with
  | nil => simp
  | cons c cs ih =>
    have hc : c ≠ sep := fun e => ht (by simp [e])
    have hcs : sep ∉ cs := fun e => ht (by simp [e])
    simp only [List.length_cons] at hi
    have h1 : ¬ st.msgIndex + 1 > INT16_MAX := by omega
    simp only [List.cons_append, globalCacheLoop, if_neg h1, if_neg hc, List.append_eq]
    rw [ih _ hcs (by simp only; omega)]
    simp only [List.length_cons]
    congr 2
    omega

theorem globalCacheLoop_sep_store (msg : List Char) (sep : Char) (k : Nat) (rest : List Char)
    (st : GlobalCacheState) (hi : st.msgIndex + 1 ≤ INT16_MAX) (hk : st.count ≥ k) :
    globalCacheLoop msg sep k (sep :: rest) st =
      globalCacheLoop msg sep k rest
        ⟨st.msgIndex + 1, (st.codeIndex + 1) % 65536, st.msgIndex + 1, (st.count + 1) % 65536,
          st.codeArray ++ [(strtoul (msg.drop st.startFrom) 10 0).value % 65536]⟩ := by
  have h1 : ¬ st.msgIndex + 1 > INT16_MAX := by omega
  simp only [globalCacheLoop, if_neg h1, if_true, if_pos hk]

theorem globalCacheLoop_sep_skip (msg : List Char) (sep : Char) (k : Nat) (rest : List Char)
    (st : GlobalCacheState) (hi : st.msgIndex + 1 ≤ INT16_MAX) (hk : ¬ st.count ≥ k) :
    globalCacheLoop msg sep k (sep :: rest) st =
      globalCacheLoop msg sep k rest
        ⟨st.msgIndex + 1, st.codeIndex, st.msgIndex + 1, (st.count + 1) % 65536,
          st.codeArray⟩ := by
  have h1 : ¬ st.msgIndex + 1 > INT16_MAX := by omega
  simp only [globalCacheLoop, if_neg h1, if_true, if_neg hk]

/-- A descriptor field before `startIndex` and the separator behind it are passed over. -/
theorem globalCacheLoop_skip_field (msg : List Char) (sep : Char) (k : Nat) (d rest : List Char)
    (st : GlobalCacheState) (hd : sep ∉ d) (hi : st.msgIndex + d.length + 1 ≤ INT16_MAX)
    (hk : st.count < k) :
    globalCacheLoop msg sep k (d ++ sep :: rest) st =
      globalCacheLoop msg sep k rest
        ⟨st.msgIndex + d.length + 1, st.codeIndex, st.msgIndex + d.length + 1,
          (st.count + 1) % 65536, st.codeArray⟩ := by
  rw [globalCacheLoop_token msg sep k d _ st hd (by omega),
    globalCacheLoop_sep_skip msg sep k rest _ (by simp only; omega) (by simp only; omega)]

/-- The scanning loop of `globalCacheBufferToArray` over a run of clean tokens at or behind
`startIndex`: every token but the last is stored. -/
theorem globalCacheLoop_tokens (msg : List Char) (sep : Char) (hsep : IsStop 10 sep) (k : Nat)
    (ts : List (List Char)) (t : List Char) (st : GlobalCacheState)
    (hts : ∀ u ∈ t :: ts, IsToken sep u)
    (hmsg : msg.drop st.startFrom = t ++ tailJoin sep ts)
    (hidx : st.msgIndex = st.startFrom)
    (hlen : st.msgIndex + (t ++ tailJoin sep ts).length ≤ INT16_MAX)
    (hcnt : st.count + ts.length < 65536) (hci : st.codeIndex + ts.length < 65536)
    (hk : k ≤ st.count) :
    ∃ sf, globalCacheLoop msg sep k (t ++ tailJoin sep ts) st =
        some ⟨st.msgIndex + (t ++ tailJoin sep ts).length, st.codeIndex + ts.length, sf,
          st.count + ts.length, st.codeArray ++ ((t :: ts).dropLast.map (storedValue 10))⟩ ∧
      sf < st.msgIndex + (t ++ tailJoin sep ts).length ∧
      (strtoul (msg.drop sf) 10 0).value % 65536 =
        storedValue 10 ((t :: ts).getLast (by simp)) := by
  induction ts generalizing t st with
  | nil =>
    have ht := hts t (by simp)
    simp only [tailJoin, List.append_nil] at hmsg hlen ⊢
    refine ⟨st.startFrom, ?_, ?_, ?_⟩
    · have := globalCacheLoop_token msg sep k t [] st ht.2 hlen
      simp only [List.append_nil] at this
      rw [this]
      simp [globalCacheLoop]
    · obtain ⟨c, cs, rfl, _⟩ := ht.1
      simp only [List.length_cons]; omega
    · simp [hmsg, storedValue]
  | cons u us ih =>
    have ht := hts t (by simp)
    simp only [tailJoin, List.length_append, List.length_cons] at hlen
    simp only [List.length_cons] at hcnt hci
    have hstore : (strtoul (msg.drop st.startFrom) 10 0).value % 65536 = storedValue 10 t := by
      rw [hmsg]
      simp only [tailJoin, storedValue]
      rw [strtoul_append_stop 10 t sep _ ht.1 hsep]
    have hdrop : msg.drop (st.msgIndex + t.length + 1) = u ++ tailJoin sep us := by
      have e : st.msgIndex + t.length + 1 = st.startFrom + (t.length + 1) := by omega
      rw [e, ← List.drop_drop, hmsg]
      simp only [tailJoin]
      rw [List.drop_append_eq_append_drop]
      simp
    obtain ⟨sf, h1, h2, h3⟩ := ih u
      ⟨st.msgIndex + t.length + 1, st.codeIndex + 1, st.msgIndex + t.length + 1, st.count + 1,
        st.codeArray ++ [storedValue 10 t]⟩
      (fun x hx => hts x (by simp at hx ⊢; tauto)) hdrop rfl
      (by simp only [List.length_append]; omega) (by simp only; omega) (by simp only; omega)
      (by simp only; omega)
    refine ⟨sf, ?_, ?_, ?_⟩
    · simp only [tailJoin]
      rw [globalCacheLoop_token msg sep k t _ st ht.2 (by omega),
        globalCacheLoop_sep_store msg sep k _ _ (by simp only; omega) (by simp only; omega)]
      simp only [hstore]
      rw [Nat.mod_eq_of_lt (by omega), Nat.mod_eq_of_lt (by omega), h1]
      simp only [List.length_append, List.length_cons, List.dropLast_cons₂, List.map_cons,
        List.append_assoc, List.singleton_append]
      congr 2
      · omega
      · omega
      · omega
    · simp only [List.length_append, List.length_cons, tailJoin] at h2 ⊢
      omega
    · rw [h3]
      simp

/-- `globalCacheBufferToArray` on a text of six or more clean tokens that does not start with
`sendir`: the stored values are returned. -/
theorem globalCacheBufferToArray_tokens (t : List Char) (ts : List (List Char))
    (codeCount : Nat) (v : List Nat)
    (hts : ∀ u ∈ t :: ts, IsToken ',' u) (hn : 5 ≤ ts.length)
    (hlen : (joinSep ',' (t :: ts)).length ≤ INT16_MAX)
    (hns : (joinSep ',' (t :: ts)).take 6 ≠ ['s', 'e', 'n', 'd', 'i', 'r'])
    (hv : v = (t :: ts).map (storedValue 10)) :
    globalCacheBufferToArray true (joinSep ',' (t :: ts)) codeCount =
      some ⟨some v, v.length, 0⟩ := by
  have hne : t ≠ [] := by
    obtain ⟨c, cs, rfl, _⟩ := (hts t (by simp)).1
    simp
  have hcount := countValuesInCStr_join t ts hne (fun u hu => (hts u hu).2) hlen
  have hjl := joinSep_length_ge ',' t ts
  have hvl : v.length = ts.length + 1 := by simp [hv]
  obtain ⟨sf, h1, h2, h3⟩ := globalCacheLoop_tokens (joinSep ',' (t :: ts)) ','
    (isStop_sep (Or.inr rfl)) 0 ts t ⟨0, 0, 0, 0, []⟩
    hts (by simp [joinSep]) rfl (by simpa [joinSep] using hlen)
    (by simp only [INT16_MAX] at hlen; simp only; omega)
    (by simp only [INT16_MAX] at hlen; simp only; omega) (by simp)
  have harr : ([] : List Nat) ++ (t :: ts).dropLast.map (storedValue 10)
      ++ [storedValue 10 ((t :: ts).getLast (by simp))] = v := by
    rw [hv, List.nil_append, ← List.map_singleton, ← List.map_append,
      List.dropLast_append_getLast]
  unfold globalCacheBufferToArray
  simp only [hcount, hns, decide_False, Bool.false_eq_true, if_false]
  have hc6 : ¬ ts.length + 1 < 6 := by omega
  rw [if_neg hc6]
  simp only [Bool.true_eq_false, if_false]
  change (match globalCacheLoop (joinSep ',' (t :: ts)) ',' 0 (t ++ tailJoin ',' ts)
      ⟨0, 0, 0, 0, []⟩ with
    | none => none
    | some st => _) = _
  rw [h1]
  simp only [Nat.zero_add] at h2 ⊢
  simp only [h2, if_true, h3, harr]
  simp only [INT16_MAX] at hlen
  rw [Nat.mod_eq_of_lt (by omega), hvl]

/-- `globalCacheBufferToArray` on `sendir,d1,d2,` followed by six or more clean tokens: the three
leading fields are passed over and the stored values of the tokens are returned. -/
theorem globalCacheBufferToArray_sendir (d1 d2 t : List Char) (ts : List (List Char))
    (codeCount : Nat) (v : List Nat)
    (hd1 : ',' ∉ d1) (hd2 : ',' ∉ d2)
    (hts : ∀ u ∈ t :: ts, IsToken ',' u) (hn : 5 ≤ ts.length)
    (hlen : (joinSep ',' (sendirText :: d1 :: d2 :: t :: ts)).length ≤ INT16_MAX)
    (hv : v = (t :: ts).map (storedValue 10)) :
    globalCacheBufferToArray true (joinSep ',' (sendirText :: d1 :: d2 :: t :: ts)) codeCount =
      some ⟨some v, v.length, 0⟩ := by
  have hall : ∀ u ∈ sendirText :: d1 :: d2 :: t :: ts, ',' ∉ u := by
    intro u hu
    simp only [List.mem_cons] at hu
    rcases hu with rfl | rfl | rfl | rfl | hu
    · decide
    · exact hd1
    · exact hd2
    · exact (hts _ (by simp)).2
    · exact (hts u (by simp [hu])).2
  have hcount := countValuesInCStr_join sendirText (d1 :: d2 :: t :: ts) (by decide) hall hlen
  have hvl : v.length = ts.length + 1 := by simp [hv]
  have hmsg : joinSep ',' (sendirText :: d1 :: d2 :: t :: ts) =
      sendirText ++ ',' :: (d1 ++ ',' :: (d2 ++ ',' :: (t ++ tailJoin ',' ts))) := by
    simp [joinSep, tailJoin]
  have hL : (joinSep ',' (sendirText :: d1 :: d2 :: t :: ts)).length =
      6 + 1 + d1.length + 1 + d2.length + 1 + (t ++ tailJoin ',' ts).length := by
    rw [hmsg]; simp [sendirText]; omega
  have htl := tailJoin_length_ge ',' ts
  have hta : (t ++ tailJoin ',' ts).length = t.length + (tailJoin ',' ts).length :=
    List.length_append _ _
  simp only [INT16_MAX] at hlen
  have hdrop : (joinSep ',' (sendirText :: d1 :: d2 :: t :: ts)).drop
      (6 + 1 + d1.length + 1 + d2.length + 1) = t ++ tailJoin ',' ts := by
    have e : joinSep ',' (sendirText :: d1 :: d2 :: t :: ts) =
        (sendirText ++ ',' :: d1 ++ ',' :: d2 ++ [',']) ++ (t ++ tailJoin ',' ts) := by
      rw [hmsg]; simp
    have el : 6 + 1 + d1.length + 1 + d2.length + 1 =
        (sendirText ++ ',' :: d1 ++ ',' :: d2 ++ [',']).length := by
      simp [sendirText]; omega
    rw [e, el, List.drop_left]
  obtain ⟨sf, h1, h2, h3⟩ := globalCacheLoop_tokens
    (joinSep ',' (sendirText :: d1 :: d2 :: t :: ts)) ','
    (isStop_sep (Or.inr rfl)) 3 ts t
    ⟨6 + 1 + d1.length + 1 + d2.length + 1, 0, 6 + 1 + d1.length + 1 + d2.length + 1, 3, []⟩
    hts hdrop rfl (by simp only [INT16_MAX]; omega)
    (by simp only [List.length_append] at hL; simp only; omega)
    (by simp only [List.length_append] at hL; simp only; omega) (by simp)
  have harr : ([] : List Nat) ++ (t :: ts).dropLast.map (storedValue 10)
      ++ [storedValue 10 ((t :: ts).getLast (by simp))] = v := by
    rw [hv, List.nil_append, ← List.map_singleton, ← List.map_append,
      List.dropLast_append_getLast]
  have hloop : globalCacheLoop (joinSep ',' (sendirText :: d1 :: d2 :: t :: ts)) ',' 3
      (joinSep ',' (sendirText :: d1 :: d2 :: t :: ts)) ⟨0, 0, 0, 0, []⟩ =
      globalCacheLoop (joinSep ',' (sendirText :: d1 :: d2 :: t :: ts)) ',' 3
        (t ++ tailJoin ',' ts)
        ⟨6 + 1 + d1.length + 1 + d2.length + 1, 0, 6 + 1 + d1.length + 1 + d2.length + 1, 3,
          []⟩ := by
    conv_lhs => arg 4; rw [hmsg]
    rw [globalCacheLoop_skip_field _ ',' 3 sendirText _ _ (by decide)
        (by simp [sendirText, INT16_MAX]) (by simp),
      globalCacheLoop_skip_field _ ',' 3 d1 _ _ hd1
        (by simp [sendirText, INT16_MAX]; omega) (by simp),
      globalCacheLoop_skip_field _ ',' 3 d2 _ _ hd2
        (by simp [sendirText, INT16_MAX]; omega) (by simp)]
    simp [sendirText]
  have htake : (joinSep ',' (sendirText :: d1 :: d2 :: t :: ts)).take 6 =
      ['s', 'e', 'n', 'd', 'i', 'r'] := by
    rw [hmsg]; simp [sendirText]
  unfold globalCacheBufferToArray
  simp only [hcount, htake, decide_True, if_true, List.length_cons]
  have e6 : (ts.length + 1 + 1 + 1 + 1 + 65536 - 3) % 65536 = ts.length + 1 := by omega
  have hc6 : ¬ ts.length + 1 < 6 := by omega
  rw [e6, if_neg hc6]
  simp only [Bool.true_eq_false, if_false]
  rw [hloop, h1]
  simp only [h2, if_true, h3, harr]
  rw [Nat.mod_eq_of_lt (by omega), hvl]
  simp

theorem countValuesInCStr_long (s : List Char) (sep : Char) (h : s.length > INT16_MAX) :
    countValuesInCStr s sep = none := by
  have hne : s ≠ [] := by
    intro e; rw [e] at h; simp [INT16_MAX] at h
  unfold countValuesInCStr
  rw [if_neg hne, countValuesLoop_long sep s 0 0 (by omega) (by simp)]
  rfl

theorem globalCacheBufferToArray_long (mallocOk : Bool) (msg : List Char) (codeCount : Nat)
    (h : msg.length > INT16_MAX) : globalCacheBufferToArray mallocOk msg codeCount = none := by
  unfold globalCacheBufferToArray
  simp only [countValuesInCStr_long msg ',' h]

theorem joinSep_replicate_length (sep : Char) (t : List Char) (n : Nat) :
    t.length + n ≤ (joinSep sep (List.replicate (n + 1) t)).length := by
  rw [List.replicate_succ]
  have := joinSep_length_ge sep t (List.replicate n t)
  simpa using this

/-! ## `parseGcRequest` -/

theorem strtol_numeral {s : List Char} (h : IsNumeral 10 s) (hv : numeralValue 10 s < 2 ^ 31) :
    strtol s 10 = (numeralValue 10 s : Int) := by
  unfold strtol
  simp only [parseSubject_numeral (by decide) h, numeral_length_pos h, if_false,
    Bool.false_eq_true]
  rw [if_neg]
  simp only [LONG_MAX]; omega

theorem strtol_numeral_stop {s : List Char} (a : Char) (r : List Char) (h : IsNumeral 10 s)
    (hv : numeralValue 10 s < 2 ^ 31) (ha : IsStop 10 a) :
    strtol (s ++ a :: r) 10 = (numeralValue 10 s : Int) := by
  have := strtol_numeral h hv
  unfold strtol at this ⊢
  rw [parseSubject_append_stop 10 s a r (numeral_plainStart (by decide) h) ha]
  exact this

theorem comma_not_mem_numeral {s : List Char} (h : IsNumeral 10 s) : ',' ∉ s := by
  intro hm
  exact digit_ne_of_toNat (by decide) (h.2 _ hm) (by decide) rfl

theorem isStop_comma : IsStop 10 ',' := isStop_sep (Or.inr rfl)

theorem isStop_colon : IsStop 10 ':' := by
  unfold IsStop; decide

/-- Reading of the command token and of what follows the first comma. -/
theorem parseGcRequest_command (c rest : List Char) (msg : GCMsg) (hc : ',' ∉ c)
    (hl : c.length < 20) :
    parseGcRequest (c ++ ',' :: rest) msg =
      if strchr rest ',' = none ∧ strchr rest ':' = none then
        (0, ⟨c, 0, 0, some rest⟩)
      else if atoi rest ≠ 1 then (2, { msg with command := c })
      else
        match strchr rest ':' with
        | none => (3, ⟨c, 1, msg.port, msg.param⟩)
        | some colon =>
          if atoi (rest.drop (colon + 1)) < 1 ∨ atoi (rest.drop (colon + 1)) > 15 then
            (3, ⟨c, 1, msg.port, msg.param⟩)
          else
            match strchr (rest.drop (colon + 1)) ',' with
            | none => (0, ⟨c, 1, (atoi (rest.drop (colon + 1))).toNat, none⟩)
            | some comma =>
              (0, ⟨c, 1, (atoi (rest.drop (colon + 1))).toNat,
                some ((rest.drop (colon + 1)).drop (comma + 1))⟩) := by
  have h1 : strchr (c ++ ',' :: rest) ',' = some c.length := strchr_append rest hc
  have h2 : ¬ c.length ≥ GCMSG_COMMAND_SIZE := by simp only [GCMSG_COMMAND_SIZE]; omega
  have h3 : (c ++ ',' :: rest).take c.length = c := by simp
  have h4 : (c ++ ',' :: rest).drop (c.length + 1) = rest := by
    rw [← List.drop_drop]; simp
  unfold parseGcRequest
  simp only [h1, h2, if_false, h3, h4]

/-! ## `parseGcRequest` on address parts -/

theorem hasPrefix_ten (s : List Char) : hasPrefix 10 s = false := by
  match s with
  | [] => rfl
  | [_] => rfl
  | [_, _] => rfl
  | _ :: _ :: _ :: _ => simp [hasPrefix]

theorem takeWhile_run {p : Char → Bool} {D rest : List Char} (hD : ∀ c ∈ D, p c = true)
    (hr : rest.head?.map p ≠ some true) : (D ++ rest).takeWhile p = D := by
  induction D with
  | nil =>
    match rest with
    | [] => rfl
    | a :: r =>
      have : p a = false := by
        cases h : p a with
        | false => rfl
        | true => simp [h] at hr
      simp [List.takeWhile, this]
  | cons c cs ih =>
    simp only [List.cons_append, List.takeWhile, hD c (by simp), List.append_eq]
    rw [ih (fun x hx => hD x (by simp [hx]))]

/-- A decimal numeral is converted up to the first character that is not a digit. -/
theorem parseSubject_ten_run {D rest : List Char} (hD : IsNumeral 10 D) (hr : NoDigitAhead rest) :
    parseSubject 10 (D ++ rest) = ⟨false, numeralValue 10 D, D.length⟩ := by
  obtain ⟨c, cs, rfl, hsp, hm, hp⟩ := numeral_plainStart (by decide) hD
  have hs1 : ((c :: cs) ++ rest).dropWhile isspace = (c :: cs) ++ rest := by
    simp [List.dropWhile, hsp]
  have hw : ((c :: cs) ++ rest).takeWhile isspace = [] := by simp [List.takeWhile, hsp]
  have hsg : hasSign ((c :: cs) ++ rest) = false := by simp [hasSign, hm, hp]
  have hh : ((c :: cs) ++ rest).head? = some c := by simp
  unfold parseSubject
  simp only [hs1, hw, hsg, hasPrefix_ten, Bool.false_eq_true, if_false, takeWhile_run hD.2 hr,
    accumulate_eq, hh]
  simp [hm]

/-- A minus sign and a decimal numeral are converted up to the first character that is not a
digit, as a negative subject. -/
theorem parseSubject_ten_minus {D rest : List Char} (hD : IsNumeral 10 D)
    (hr : NoDigitAhead rest) :
    parseSubject 10 ('-' :: (D ++ rest)) = ⟨true, numeralValue 10 D, D.length + 1⟩ := by
  have h0 : isspace '-' = false := by decide
  have hs1 : ('-' :: (D ++ rest)).dropWhile isspace = '-' :: (D ++ rest) := by
    rw [List.dropWhile, h0]
  have hw : ('-' :: (D ++ rest)).takeWhile isspace = [] := by rw [List.takeWhile, h0]
  have hsg : hasSign ('-' :: (D ++ rest)) = true := by simp [hasSign]
  have hne : D ≠ [] := hD.1
  unfold parseSubject
  simp only [hs1, hw, hsg, hasPrefix_ten, Bool.false_eq_true, if_false, if_true, List.tail_cons,
    takeWhile_run hD.2 hr, accumulate_eq, hne, List.head?_cons]
  simp
  omega

/-- A text that starts with neither a digit, white space nor a sign is not converted. -/
theorem parseSubject_ten_none {rest : List Char} (hp : NoPadAhead rest) (hr : NoDigitAhead rest) :
    parseSubject 10 rest = ⟨false, 0, 0⟩ := by
  rcases hp with rfl | ⟨c, cs, rfl, hsp, hm, hpl⟩
  · simp [parseSubject, hasSign, hasPrefix]
  · have hs1 : (c :: cs).dropWhile isspace = c :: cs := by simp [List.dropWhile, hsp]
    have hsg : hasSign (c :: cs) = false := by simp [hasSign, hm, hpl]
    have hd : isDigitOf 10 c = false := by
      cases h : isDigitOf 10 c with
      | false => rfl
      | true => simp [NoDigitAhead, h] at hr
    unfold parseSubject
    simp only [hs1, hsg, hasPrefix_ten, Bool.false_eq_true, if_false]
    simp [List.takeWhile, hd]

theorem atoi_integerText {M rest : List Char} {m : Int} (hM : IsIntegerText M m)
    (hr : NoDigitAhead rest) : atoi (M ++ rest) = clampLong m := by
  unfold atoi strtol clampLong
  rcases hM with ⟨hD, rfl⟩ | ⟨D, rfl, hD, rfl⟩
  · rw [parseSubject_ten_run hD hr]
    simp only [numeral_length_pos hD, if_false, Bool.false_eq_true]
    simp only [LONG_MAX, LONG_MIN]
    split_ifs <;> omega
  · rw [List.cons_append, parseSubject_ten_minus hD hr]
    simp only [Nat.add_eq_zero, one_ne_zero, and_false, if_false, if_true]
    simp only [LONG_MAX, LONG_MIN]
    split_ifs <;> omega

theorem atoi_run {D rest : List Char} (hD : IsDigitRun D) (hr : NoDigitAhead rest)
    (hp : D = [] → NoPadAhead rest) : atoi (D ++ rest) = clampLong (numeralValue 10 D) := by
  by_cases hne : D = []
  · subst hne
    unfold atoi strtol clampLong
    rw [List.nil_append, parseSubject_ten_none (hp rfl) hr]
    simp [numeralValue, LONG_MAX, LONG_MIN]
  · exact atoi_integerText (Or.inl ⟨⟨hne, hD⟩, rfl⟩) hr

/-- Return code of `parseGcRequest` on a request with an address part: `Mt` is the text between
the first comma and the first colon behind it, `Pt` is all that follows that colon. -/
theorem parseGcRequest_address (c Mt Pt : List Char) (msg : GCMsg) (hc : ',' ∉ c)
    (hl : c.length < 20) (hM : ':' ∉ Mt) :
    (parseGcRequest (c ++ ',' :: (Mt ++ ':' :: Pt)) msg).1 =
      if atoi (Mt ++ ':' :: Pt) ≠ 1 then 2
      else if atoi Pt < 1 ∨ atoi Pt > 15 then 3 else 0 := by
  have hcolon : strchr (Mt ++ ':' :: Pt) ':' = some Mt.length := strchr_append Pt hM
  have hdrop : (Mt ++ ':' :: Pt).drop (Mt.length + 1) = Pt := by
    rw [← List.drop_drop]; simp
  rw [parseGcRequest_command c _ msg hc hl,
    if_neg (fun h => by rw [hcolon] at h; exact absurd h.2 (by simp))]
  by_cases h1 : atoi (Mt ++ ':' :: Pt) ≠ 1
  · rw [if_pos h1, if_pos h1]
  · rw [if_neg h1, if_neg h1]
    simp only [hcolon, hdrop]
    by_cases h2 : atoi Pt < 1 ∨ atoi Pt > 15
    · rw [if_pos h2, if_pos h2]
    · rw [if_neg h2, if_neg h2]
      cases strchr Pt ',' <;> rfl

theorem colon_not_mem_numeral {s : List Char} (h : IsDigitRun s) : ':' ∉ s := by
  intro hm
  exact digit_ne_of_toNat (by decide) (h _ hm) (by decide) rfl

theorem colon_not_mem_integerText {M : List Char} {m : Int} (h : IsIntegerText M m) :
    ':' ∉ M := by
  rcases h with ⟨hD, _⟩ | ⟨D, rfl, hD, _⟩
  · exact colon_not_mem_numeral hD.2
  · have := colon_not_mem_numeral hD.2
    simp [this]

theorem noDigitAhead_colon (r : List Char) : NoDigitAhead (':' :: r) := by
  unfold NoDigitAhead
  simp only [List.head?_cons, Option.map_some']
  decide

theorem noDigitAhead_gcTail (tail : Option (List Char)) : NoDigitAhead (gcTail tail) := by
  cases tail with
  | none => simp [NoDigitAhead, gcTail]
  | some t =>
    unfold NoDigitAhead gcTail
    simp only [List.head?_cons, Option.map_some']
    decide

theorem noDigitAhead_append {T rest : List Char} (hT : NoDigitAhead T)
    (hr : NoDigitAhead rest) : NoDigitAhead (T ++ rest) := by
  cases T with
  | nil => simpa using hr
  | cons a r => simpa [NoDigitAhead] using hT

theorem noPadAhead_append_colon {T : List Char} (rest : List Char) (hT : NoPadAhead T) :
    NoPadAhead (T ++ ':' :: rest) := by
  right
  rcases hT with rfl | ⟨a, r, rfl, h⟩
  · exact ⟨':', rest, rfl, by decide, by decide, by decide⟩
  · exact ⟨a, r ++ ':' :: rest, rfl, h⟩

theorem noPadAhead_append_gcTail {T : List Char} (tail : Option (List Char))
    (hT : NoPadAhead T) : NoPadAhead (T ++ gcTail tail) := by
  rcases hT with rfl | ⟨a, r, rfl, h⟩
  · cases tail with
    | none => left; rfl
    | some t => right; exact ⟨',', t, rfl, by decide, by decide, by decide⟩
  · right; exact ⟨a, r ++ gcTail tail, rfl, h⟩

/-! ## The bits of the event group -/

theorem testBit_small {k : Nat} (hk : k < 8) (i : Nat) : k.testBit (i + 3) = false :=
  Nat.testBit_lt_two_pow (by
    have : 8 ≤ 2 ^ (i + 3) := by
      have := Nat.one_le_two_pow (n := i)
      rw [Nat.pow_add]; omega
    omega)

/-- Two bit patterns are equal when they agree on bits 0, 1, 2 and on every higher bit. -/
theorem bits_eq {x y : Nat} (h0 : x.testBit 0 = y.testBit 0) (h1 : x.testBit 1 = y.testBit 1)
    (h2 : x.testBit 2 = y.testBit 2) (h : ∀ i, x.testBit (i + 3) = y.testBit (i + 3)) :
    x = y := by
  apply Nat.eq_of_testBit_eq
  intro i
  match i with
  | 0 => exact h0
  | 1 => exact h1
  | 2 => exact h2
  | i + 3 => exact h i

theorem testBit_two_high (i : Nat) : Nat.testBit 2 (i + 3) = false := testBit_small (by decide) i

theorem testBit_four_high (i : Nat) : Nat.testBit 4 (i + 3) = false := testBit_small (by decide) i

theorem testBit_one_high (i : Nat) : Nat.testBit 1 (i + 3) = false := testBit_small (by decide) i

/-- Clearing both repeat flags wipes out what `stopSend` did to them. -/
theorem stop_then_clear (bits : Nat) :
    xEventGroupClearBits
        (xEventGroupClearBits (xEventGroupSetBits bits IR_REPEAT_STOP_BIT) IR_REPEAT_BIT)
        (IR_REPEAT_BIT ||| IR_REPEAT_STOP_BIT) =
      xEventGroupClearBits bits (IR_REPEAT_BIT ||| IR_REPEAT_STOP_BIT) := by
  unfold xEventGroupClearBits xEventGroupSetBits IR_REPEAT_BIT IR_REPEAT_STOP_BIT
  apply bits_eq
  · simp only [Nat.testBit_and, Nat.testBit_or, Nat.testBit_xor]
    generalize bits.testBit 0 = b; revert b; decide
  · simp only [Nat.testBit_and, Nat.testBit_or, Nat.testBit_xor]
    generalize bits.testBit 1 = b; revert b; decide
  · simp only [Nat.testBit_and, Nat.testBit_or, Nat.testBit_xor]
    generalize bits.testBit 2 = b; revert b; decide
  · intro i
    simp only [Nat.testBit_and, Nat.testBit_or, Nat.testBit_xor, testBit_two_high,
      testBit_four_high]
    generalize bits.testBit (i + 3) = b
    generalize Nat.testBit 4294967295 (i + 3) = f
    revert b f; decide

/-- Calling `stopSend` twice sets the flags as calling it once. -/
theorem stop_twice (bits : Nat) :
    xEventGroupClearBits (xEventGroupSetBits
        (xEventGroupClearBits (xEventGroupSetBits bits IR_REPEAT_STOP_BIT) IR_REPEAT_BIT)
        IR_REPEAT_STOP_BIT) IR_REPEAT_BIT =
      xEventGroupClearBits (xEventGroupSetBits bits IR_REPEAT_STOP_BIT) IR_REPEAT_BIT := by
  unfold xEventGroupClearBits xEventGroupSetBits IR_REPEAT_BIT IR_REPEAT_STOP_BIT
  apply bits_eq
  · simp only [Nat.testBit_and, Nat.testBit_or, Nat.testBit_xor]
    generalize bits.testBit 0 = b; revert b; decide
  · simp only [Nat.testBit_and, Nat.testBit_or, Nat.testBit_xor]
    generalize bits.testBit 1 = b; revert b; decide
  · simp only [Nat.testBit_and, Nat.testBit_or, Nat.testBit_xor]
    generalize bits.testBit 2 = b; revert b; decide
  · intro i
    simp only [Nat.testBit_and, Nat.testBit_or, Nat.testBit_xor, testBit_two_high,
      testBit_four_high]
    generalize bits.testBit (i + 3) = b
    generalize Nat.testBit 4294967295 (i + 3) = f
    revert b f; decide

/-- Whether a mask of one of the three flags meets the bits is the value of that bit. -/
theorem and_one_ne_zero (bits : Nat) : (bits &&& 1 ≠ 0) ↔ bits.testBit 0 = true := by
  rw [Nat.testBit_zero]
  have := Nat.and_one_is_mod bits
  rw [this]
  have := Nat.mod_two_eq_zero_or_one bits
  constructor
  · intro h; simp; omega
  · intro h; simp at h; omega

/-- `stopSend` leaves the learn bit as it is. -/
theorem stop_keeps_learning (bits : Nat) :
    (xEventGroupClearBits (xEventGroupSetBits bits IR_REPEAT_STOP_BIT) IR_REPEAT_BIT
        &&& IR_LEARNING_BIT ≠ 0) ↔ (bits &&& IR_LEARNING_BIT ≠ 0) := by
  unfold IR_LEARNING_BIT
  rw [and_one_ne_zero, and_one_ne_zero]
  unfold xEventGroupClearBits xEventGroupSetBits IR_REPEAT_BIT IR_REPEAT_STOP_BIT
  simp only [Nat.testBit_and, Nat.testBit_or, Nat.testBit_xor]
  generalize bits.testBit 0 = b; revert b; decide

/-- A flag that has just been set is set, and the two repeat flags are clear once cleared. -/
theorem flag_facts (bits : Nat) :
    xEventGroupSetBits bits IR_REPEAT_BIT &&& IR_REPEAT_BIT ≠ 0 ∧
    xEventGroupClearBits bits (IR_REPEAT_BIT ||| IR_REPEAT_STOP_BIT) &&& IR_REPEAT_BIT = 0 ∧
    xEventGroupClearBits bits (IR_REPEAT_BIT ||| IR_REPEAT_STOP_BIT) &&& IR_REPEAT_STOP_BIT = 0 := by
  unfold xEventGroupClearBits xEventGroupSetBits IR_REPEAT_BIT IR_REPEAT_STOP_BIT
  refine ⟨?_, ?_, ?_⟩
  · intro h
    have := congrArg (fun x => Nat.testBit x 1) h
    simp only [Nat.testBit_and, Nat.testBit_or] at this
    revert this
    generalize bits.testBit 1 = b; revert b; decide
  · apply bits_eq
    · simp only [Nat.testBit_and, Nat.testBit_or, Nat.testBit_xor]
      generalize bits.testBit 0 = b; revert b; decide
    · simp only [Nat.testBit_and, Nat.testBit_or, Nat.testBit_xor]
      generalize bits.testBit 1 = b; revert b; decide
    · simp only [Nat.testBit_and, Nat.testBit_or, Nat.testBit_xor]
      generalize bits.testBit 2 = b; revert b; decide
    · intro i
      simp only [Nat.testBit_and, Nat.testBit_or, Nat.testBit_xor, testBit_two_high,
        testBit_four_high, Nat.zero_testBit, Bool.and_false]
  · apply bits_eq
    · simp only [Nat.testBit_and, Nat.testBit_or, Nat.testBit_xor]
      generalize bits.testBit 0 = b; revert b; decide
    · simp only [Nat.testBit_and, Nat.testBit_or, Nat.testBit_xor]
      generalize bits.testBit 1 = b; revert b; decide
    · simp only [Nat.testBit_and, Nat.testBit_or, Nat.testBit_xor]
      generalize bits.testBit 2 = b; revert b; decide
    · intro i
      simp only [Nat.testBit_and, Nat.testBit_or, Nat.testBit_xor, testBit_two_high,
        testBit_four_high, Nat.zero_testBit, Bool.and_false]

/-- The state with the given bits, queue and remembered code, sending to an idle queue. -/
theorem send_idle (board : Board) (bits : Nat) (c0 : List Char) (clientId : Int) (msgId : Nat)
    (code format : List Char) (repeat_ : Nat) (a b c d : Bool) (gcSocket : Int) :
    InfraredService.send board ⟨some bits, some [], c0⟩ clientId msgId code format repeat_
        a b c d gcSocket =
      if bits &&& IR_LEARNING_BIT ≠ 0 then (503, ⟨some bits, some [], c0⟩)
      else if pinMask board a b c d = 0 then (400, ⟨some bits, some [], c0⟩)
      else match irFormatOf format with
        | none => (400, ⟨some bits, some [], c0⟩)
        | some irFormat =>
          (0, ⟨some (xEventGroupClearBits bits (IR_REPEAT_BIT ||| IR_REPEAT_STOP_BIT)),
            some [⟨clientId, msgId, irFormat, code, repeat_, pinMask board a b c d, gcSocket⟩],
            code⟩) := by
  unfold InfraredService.send InfraredService.isIrLearning
  simp only [decide_eq_true_eq]
  by_cases hl : bits &&& IR_LEARNING_BIT ≠ 0
  · rw [if_pos hl, if_pos hl]
  · rw [if_neg hl, if_neg hl]
    by_cases hp : pinMask board a b c d = 0
    · rw [if_pos hp, if_pos hp]
    · rw [if_neg hp, if_neg hp]
      cases irFormatOf format with
      | none => rfl
      | some f => simp [SEND_QUEUE_LENGTH]

/-- Sending while a request is in the queue. -/
theorem send_busy (board : Board) (bits : Nat) (m : IRSendMessage) (q : List IRSendMessage)
    (c0 : List Char) (clientId : Int) (msgId : Nat)
    (code format : List Char) (repeat_ : Nat) (a b c d : Bool) (gcSocket : Int) :
    InfraredService.send board ⟨some bits, some (m :: q), c0⟩ clientId msgId code format repeat_
        a b c d gcSocket =
      if bits &&& IR_LEARNING_BIT ≠ 0 then (503, ⟨some bits, some (m :: q), c0⟩)
      else if pinMask board a b c d = 0 then (400, ⟨some bits, some (m :: q), c0⟩)
      else match irFormatOf format with
        | none => (400, ⟨some bits, some (m :: q), c0⟩)
        | some _ =>
          if repeat_ > 0 ∧ c0 = code then
            (202, ⟨some (xEventGroupSetBits bits IR_REPEAT_BIT), some (m :: q), c0⟩)
          else (429, ⟨some bits, some (m :: q), c0⟩) := by
  unfold InfraredService.send InfraredService.isIrLearning
  simp only [decide_eq_true_eq]
  by_cases hl : bits &&& IR_LEARNING_BIT ≠ 0
  · rw [if_pos hl, if_pos hl]
  · rw [if_neg hl, if_neg hl]
    by_cases hp : pinMask board a b c d = 0
    · rw [if_pos hp, if_pos hp]
    · rw [if_neg hp, if_neg hp]
      cases irFormatOf format with
      | none => rfl
      | some f =>
        by_cases hr : repeat_ > 0 ∧ c0 = code
        · simp [hr]
        · simp [hr]

/-- Without a queue or without an event group `send` returns 500 and changes nothing. -/
theorem send_uninitialised (board : Board) (s : InfraredService)
    (h : s.m_queue = none ∨ s.m_eventgroup = none) (clientId : Int) (msgId : Nat)
    (code format : List Char) (repeat_ : Nat) (a b c d : Bool) (gcSocket : Int) :
    s.send board clientId msgId code format repeat_ a b c d gcSocket = (500, s) := by
  obtain ⟨eg, q, c0⟩ := s
  unfold InfraredService.send
  cases q with
  | none => rfl
  | some q =>
    cases eg with
    | none => rfl
    | some bits => simp at h

/-- What `send` does to the queue and the remembered code: nothing, or it puts one message with
the code into the empty queue and remembers the code. -/
theorem send_queue_cases (board : Board) (s : InfraredService) (clientId : Int) (msgId : Nat)
    (code format : List Char) (repeat_ : Nat) (a b c d : Bool) (gcSocket : Int) :
    ((s.send board clientId msgId code format repeat_ a b c d gcSocket).2.m_queue = s.m_queue ∧
      (s.send board clientId msgId code format repeat_ a b c d gcSocket).2.m_currentSendCode =
        s.m_currentSendCode) ∨
    (s.m_queue = some [] ∧
      ∃ px : IRSendMessage, px.message = code ∧
        (s.send board clientId msgId code format repeat_ a b c d gcSocket).2.m_queue = some [px] ∧
        (s.send board clientId msgId code format repeat_ a b c d gcSocket).2.m_currentSendCode =
          code) := by
  obtain ⟨eg, q, c0⟩ := s
  cases eg with
  | none => rw [send_uninitialised board _ (Or.inr rfl)]; exact Or.inl ⟨rfl, rfl⟩
  | some bits =>
    cases q with
    | none => rw [send_uninitialised board _ (Or.inl rfl)]; exact Or.inl ⟨rfl, rfl⟩
    | some q =>
      cases q with
      | nil =>
        rw [send_idle]
        by_cases hl : bits &&& IR_LEARNING_BIT ≠ 0
        · rw [if_pos hl]; exact Or.inl ⟨rfl, rfl⟩
        · rw [if_neg hl]
          by_cases hp : pinMask board a b c d = 0
          · rw [if_pos hp]; exact Or.inl ⟨rfl, rfl⟩
          · rw [if_neg hp]
            cases irFormatOf format with
            | none => exact Or.inl ⟨rfl, rfl⟩
            | some f => exact Or.inr ⟨rfl, _, rfl, rfl, rfl⟩
      | cons m q =>
        rw [send_busy]
        by_cases hl : bits &&& IR_LEARNING_BIT ≠ 0
        · rw [if_pos hl]; exact Or.inl ⟨rfl, rfl⟩
        · rw [if_neg hl]
          by_cases hp : pinMask board a b c d = 0
          · rw [if_pos hp]; exact Or.inl ⟨rfl, rfl⟩
          · rw [if_neg hp]
            cases irFormatOf format with
            | none => exact Or.inl ⟨rfl, rfl⟩
            | some f =>
              by_cases hr : repeat_ > 0 ∧ c0 = code
              · dsimp only; rw [if_pos hr]; exact Or.inl ⟨rfl, rfl⟩
              · dsimp only; rw [if_neg hr]; exact Or.inl ⟨rfl, rfl⟩

/-! ## The send queue under the calls -/

theorem singleSlot_call (board : Board) (s : InfraredService) (h : SingleSlot s)
    (call : ServiceCall) : SingleSlot (s.call board call) := by
  obtain ⟨q, hq, hlen, hmem⟩ := h
  cases call with
  | send clientId msgId code format repeat_ a b c d gcSocket =>
    unfold InfraredService.call
    rcases send_queue_cases board s clientId msgId code format repeat_ a b c d gcSocket with
      ⟨h1, h2⟩ | ⟨_, px, hpx, h1, h2⟩
    · exact ⟨q, by rw [h1, hq], hlen, by rw [h2]; exact hmem⟩
    · refine ⟨[px], h1, by simp, ?_⟩
      intro m hm
      rw [List.mem_singleton] at hm
      rw [h2, hm, hpx]
  | stopSend =>
    unfold InfraredService.call InfraredService.stopSend
    cases s.m_eventgroup with
    | none => exact ⟨q, hq, hlen, hmem⟩
    | some bits => exact ⟨q, hq, hlen, hmem⟩
  | startIrLearn =>
    unfold InfraredService.call InfraredService.startIrLearn
    cases s.m_eventgroup with
    | none => exact ⟨q, hq, hlen, hmem⟩
    | some bits => exact ⟨q, hq, hlen, hmem⟩
  | stopIrLearn =>
    unfold InfraredService.call InfraredService.stopIrLearn
    cases s.m_eventgroup with
    | none => exact ⟨q, hq, hlen, hmem⟩
    | some bits => exact ⟨q, hq, hlen, hmem⟩
  | release =>
    obtain ⟨eg, q0, c0⟩ := s
    simp only at hq
    subst hq
    unfold InfraredService.call InfraredService.send_ir_f_release
    cases q with
    | nil => exact ⟨[], rfl, hlen, hmem⟩
    | cons m q => exact ⟨[], rfl, by simp, by simp⟩

theorem singleSlot_foldl (board : Board) (calls : List ServiceCall) :
    ∀ s : InfraredService, SingleSlot s →
      SingleSlot (calls.foldl (InfraredService.call board) s) := by
  induction calls with
  | nil => intro s h; exact h
  | cons call calls ih =>
    intro s h
    rw [List.foldl_cons]
    exact ih _ (singleSlot_call board s h call)

theorem singleSlot_init : SingleSlot InfraredService.created.init :=
  ⟨[], rfl, by simp, by simp⟩

/-- Setting the repeat bit sets bit 1 and no other. -/
theorem set_repeat_bits (bits : Nat) (i : Nat) :
    (xEventGroupSetBits bits IR_REPEAT_BIT).testBit i = (decide (i = 1) || bits.testBit i) := by
  unfold xEventGroupSetBits IR_REPEAT_BIT
  rw [Nat.testBit_or, Bool.or_comm]
  congr 1
  match i with
  | 0 => rfl
  | 1 => rfl
  | 2 => rfl
  | i + 3 => rw [testBit_two_high]; simp

/-! ## The reply texts of the gateway -/

/-- Below 100 the conversion `%03d` gives a `0` and the two decimal digits. -/
theorem format03d_two_digits (r : Nat) (h : r < 100) :
    format03d r = ['0', Nat.digitChar (r / 10), Nat.digitChar (r % 10)] := by
  interval_cases r <;> decide

/-- The head `ERR_m:p,` of an error reply has at most 10 characters for module 0 or 1 and a
port up to 15, so with three digits and CR the reply has at most 14. -/
theorem replyHead_length (m p : Nat) (hm : m ≤ 1) (hp : p ≤ 15) :
    (['E', 'R', 'R', '_'] ++ formatD m ++ [':'] ++ formatD p ++ [',']).length ≤ 10 := by
  interval_cases m <;> interval_cases p <;> decide

/-- With a module and a port set by `parseGcRequest` on a request it accepts, the module is 0
or 1 and the port at most 15. -/
theorem parseGcRequest_fields (request : List Char) (msg req : GCMsg)
    (h : parseGcRequest request msg = (0, req)) : req.module ≤ 1 ∧ req.port ≤ 15 := by
  unfold parseGcRequest at h
  simp only at h
  split at h
  · split at h
    · simp at h
    · simp only [Prod.mk.injEq, true_and] at h
      subst h
      simp
  · split at h
    · simp at h
    · split at h
      · simp only [Prod.mk.injEq, true_and] at h
        subst h
        simp
      · split at h
        · simp at h
        · split at h
          · simp at h
          · split at h
            · simp at h
            · rename_i hport
              split at h
              · simp only [Prod.mk.injEq, true_and] at h
                subst h
                simp only [le_refl, true_and]
                omega
              · simp only [Prod.mk.injEq, true_and] at h
                subst h
                simp only [le_refl, true_and]
                omega

/-! ## `replacechar` -/

/-- The text with every `orig` replaced by `rep`. -/
theorem map_replace_of_not_mem {orig rep : Char} {a : List Char} (h : orig ∉ a) :
    a.map (fun c => if c = orig then rep else c) = a := by
  induction a with
  | nil => rfl
  | cons c cs ih =>
    have hc : c ≠ orig := fun e => h (by simp [e])
    have hcs : orig ∉ cs := fun e => h (by simp [e])
    simp only [List.map_cons, if_neg hc, ih hcs]

theorem set_append_mid (pre a b : List Char) (x y : Char) :
    (pre ++ (a ++ x :: b)).set (pre.length + a.length) y = pre ++ (a ++ y :: b) := by
  rw [← List.append_assoc, ← List.append_assoc, ← List.length_append]
  rw [List.set_append_right _ _ (Nat.le_refl _)]
  simp

/-- The loop of `replacechar`, started at offset `pre.length` of `pre ++ rest` with fuel for
one pass per character of `rest` and one more, ends with every `orig` of `rest` replaced and
counted. -/
theorem replacecharLoop_eq (orig rep : Char) :
    ∀ (fuel : Nat) (pre rest : List Char) (n : Nat), rest.length < fuel →
      replacecharLoop orig rep fuel (pre ++ rest) pre.length n =
        some (n + rest.count orig, pre ++ rest.map (fun c => if c = orig then rep else c)) := by
  intro fuel
  induction fuel with
  | zero => intro pre rest n h; omega
  | succ fuel ih =>
    intro pre rest n h
    unfold replacecharLoop
    rw [List.drop_left]
    cases hs : strchr rest orig with
    | none =>
      have hn : orig ∉ rest := by
        intro hm
        obtain ⟨a, b, e⟩ := List.append_of_mem hm
        obtain ⟨a1, b1, e1, -, hna⟩ : ∃ a1 b1, rest = a1 ++ orig :: b1 ∧ True ∧ orig ∉ a1 := by
          clear hs h e
          induction rest with
          | nil => simp at hm
          | cons c cs ih2 =>
            by_cases hc : c = orig
            · exact ⟨[], cs, by simp [hc], trivial, by simp⟩
            · have hm2 : orig ∈ cs := by
                rcases List.mem_cons.mp hm with h1 | h1
                · exact absurd h1.symm hc
                · exact h1
              obtain ⟨a1, b1, e1, -, hna⟩ := ih2 hm2
              refine ⟨c :: a1, b1, by simp [e1], trivial, ?_⟩
              intro hx
              rcases List.mem_cons.mp hx with h1 | h1
              · exact hc h1.symm
              · exact hna h1
        rw [e1, strchr_append b1 hna] at hs
        simp at hs
      simp only [List.count_eq_zero_of_not_mem hn, Nat.add_zero, map_replace_of_not_mem hn]
    | some k =>
      obtain ⟨a, b, e, hl, hna⟩ := strchr_some hs
      subst e
      subst hl
      simp only
      rw [set_append_mid]
      have hlen : pre.length + a.length + 1 = (pre ++ (a ++ [rep])).length := by
        simp only [List.length_append, List.length_cons, List.length_nil]; omega
      have hsplit : pre ++ (a ++ rep :: b) = (pre ++ (a ++ [rep])) ++ b := by simp
      rw [hlen, hsplit, ih (pre ++ (a ++ [rep])) b (n + 1) (by
        simp only [List.length_append, List.length_cons] at h; omega)]
      simp only [List.count_append, List.count_cons_self, List.count_eq_zero_of_not_mem hna,
        List.map_append, List.map_cons, map_replace_of_not_mem hna, if_true, List.append_assoc,
        List.singleton_append]
      congr 2
      omega

theorem replacechar_eq (s : List Char) (orig rep : Char) (h : orig ≠ Char.ofNat 0) :
    replacechar (some s) orig rep =
      some (s.count orig, some (s.map (fun c => if c = orig then rep else c))) := by
  unfold replacechar
  simp only [if_neg h]
  have := replacecharLoop_eq orig rep (s.length + 1) [] s 0 (Nat.lt_succ_self _)
  simp only [List.nil_append, List.length_nil, Nat.zero_add] at this
  rw [this]
  rfl

theorem not_mem_map_replace {orig rep : Char} (h : rep ≠ orig) (s : List Char) :
    orig ∉ s.map (fun c => if c = orig then rep else c) := by
  intro hm
  obtain ⟨c, -, hc⟩ := List.mem_map.mp hm
  by_cases e : c = orig
  · rw [if_pos e] at hc; exact h hc
  · rw [if_neg e] at hc; exact e hc

/-! ## `bitIsSetAndNoHigherPrioTask` -/

theorem toUInt32_two_pow {k : Nat} (hk : k ≤ 30) : toUInt32 ((2 : Int) ^ k) = 2 ^ k := by
  unfold toUInt32
  have h1 : (2 : Int) ^ k = ((2 ^ k : Nat) : Int) := by push_cast; rfl
  have h2 : (2 : Nat) ^ k < 2 ^ 32 := Nat.pow_lt_pow_right (by decide) (by omega)
  rw [h1]
  have h3 : ((2 ^ k : Nat) : Int) % 2 ^ 32 = ((2 ^ k : Nat) : Int) := by
    apply Int.emod_eq_of_lt
    · exact Int.ofNat_nonneg _
    · have : ((2 ^ k : Nat) : Int) < ((2 ^ 32 : Nat) : Int) := Int.ofNat_lt.mpr h2
      simpa using this
  rw [h3]
  exact Int.toNat_ofNat _

theorem toUInt32_two_pow_pred {k : Nat} (hk : k ≤ 30) :
    toUInt32 ((2 : Int) ^ k - 1) = 2 ^ k - 1 := by
  unfold toUInt32
  have hpos : 1 ≤ (2 : Nat) ^ k := Nat.one_le_two_pow
  have h1 : (2 : Int) ^ k - 1 = ((2 ^ k - 1 : Nat) : Int) := by
    rw [Nat.cast_sub hpos]; push_cast; rfl
  have h2 : (2 : Nat) ^ k < 2 ^ 32 := Nat.pow_lt_pow_right (by decide) (by omega)
  rw [h1]
  have h3 : ((2 ^ k - 1 : Nat) : Int) % 2 ^ 32 = ((2 ^ k - 1 : Nat) : Int) := by
    apply Int.emod_eq_of_lt
    · exact Int.ofNat_nonneg _
    · have : ((2 ^ k - 1 : Nat) : Int) < ((2 ^ 32 : Nat) : Int) := Int.ofNat_lt.mpr (by omega)
      simpa using this
  rw [h3]
  exact Int.toNat_ofNat _

/-- The test `eventBits & 2^k` sees bit `k`. -/
theorem and_two_pow_eq_zero (x k : Nat) : x &&& 2 ^ k = 0 ↔ x.testBit k = false := by
  constructor
  · intro h
    have := congrArg (fun y => Nat.testBit y k) h
    simpa [Nat.testBit_and, Nat.testBit_two_pow_self] using this
  · intro h
    apply Nat.eq_of_testBit_eq
    intro i
    rw [Nat.testBit_and, Nat.testBit_two_pow, Nat.zero_testBit]
    by_cases e : k = i
    · subst e; simp [h]
    · simp [e]

/-- The test `eventBits & (2^k - 1)` sees the bits below `k`. -/
theorem and_pred_two_pow_eq_zero (x k : Nat) :
    x &&& (2 ^ k - 1) = 0 ↔ ∀ j, j < k → x.testBit j = false := by
  rw [Nat.and_pow_two_sub_one_eq_mod]
  constructor
  · intro h j hj
    have := Nat.testBit_mod_two_pow x k j
    rw [h, Nat.zero_testBit] at this
    simpa [hj] using this.symm
  · intro h
    apply Nat.eq_of_testBit_eq
    intro i
    rw [Nat.testBit_mod_two_pow, Nat.zero_testBit]
    by_cases hi : i < k
    · simp [hi, h i hi]
    · simp [hi]

theorem bitIsSetAndNoHigherPrioTask_iff (k : Nat) (hk : k ≤ 30) (eventBits : Nat) :
    bitIsSetAndNoHigherPrioTask ((2 : Int) ^ k) eventBits = true ↔
      (eventBits.testBit k = true ∧ ∀ j, j < k → eventBits.testBit j = false) := by
  unfold bitIsSetAndNoHigherPrioTask
  rw [toUInt32_two_pow hk, toUInt32_two_pow_pred hk]
  by_cases h0 : eventBits &&& 2 ^ k = 0
  · rw [if_pos h0]
    have := (and_two_pow_eq_zero eventBits k).mp h0
    simp [this]
  · rw [if_neg h0]
    have hb : eventBits.testBit k = true := by
      cases hx : eventBits.testBit k with
      | true => rfl
      | false => exact absurd ((and_two_pow_eq_zero eventBits k).mpr hx) h0
    by_cases h1 : (2 : Int) ^ k ≤ 1
    · rw [if_pos h1]
      have hk0 : k = 0 := by
        by_contra hne
        have : (2 : Int) ^ 1 ≤ 2 ^ k := by
          apply pow_le_pow_right₀ (by decide) (by omega)
        omega
      subst hk0
      simp [hb]
    · rw [if_neg h1, decide_eq_true_eq, and_pred_two_pow_eq_zero]
      simp [hb]

/-! ## The repeat callback -/

theorem stop_bit_iff (bits : Nat) : bits &&& IR_REPEAT_STOP_BIT ≠ 0 ↔ bits.testBit 2 = true := by
  have h := and_two_pow_eq_zero bits 2
  have e : IR_REPEAT_STOP_BIT = 2 ^ 2 := rfl
  rw [e, Ne, h]
  cases bits.testBit 2 <;> simp

theorem stop_bit_set (bits mask : Nat) (h : bits.testBit 2 = true) :
    (xEventGroupSetBits bits mask).testBit 2 = true := by
  unfold xEventGroupSetBits
  rw [Nat.testBit_or, h, Bool.true_or]

theorem stop_bit_clear_repeat (bits : Nat) (h : bits.testBit 2 = true) :
    (xEventGroupClearBits bits IR_REPEAT_BIT).testBit 2 = true := by
  unfold xEventGroupClearBits IR_REPEAT_BIT
  rw [Nat.testBit_and, h, Bool.true_and]
  decide

theorem stop_bit_clear_learning (bits : Nat) (h : bits.testBit 2 = true) :
    (xEventGroupClearBits bits IR_LEARNING_BIT).testBit 2 = true := by
  unfold xEventGroupClearBits IR_LEARNING_BIT
  rw [Nat.testBit_and, h, Bool.true_and]
  decide

/-- With the stop bit set the callback returns false, sets `repeat` to 0 and leaves the bits. -/
theorem repeatCallback_of_stop (bits : Nat) (v : RepeatVars)
    (hs : bits &&& IR_REPEAT_STOP_BIT ≠ 0) :
    repeatCallback bits v = (false, bits, { v with repeat_ := 0 }) := by
  unfold repeatCallback
  simp only [if_pos hs]
  rfl

/-- While a request is in the queue, a call other than the release by the send task keeps the
request in the queue and the stop bit set. -/
theorem stop_kept_call (board : Board) (s : InfraredService) (m : IRSendMessage)
    (q : List IRSendMessage) (bits : Nat) (hq : s.m_queue = some (m :: q))
    (he : s.m_eventgroup = some bits) (hs : bits.testBit 2 = true) (c : ServiceCall)
    (hc : c ≠ ServiceCall.release) :
    ∃ bits2, (s.call board c).m_eventgroup = some bits2 ∧ bits2.testBit 2 = true ∧
      (s.call board c).m_queue = some (m :: q) := by
  obtain ⟨eg, q0, c0⟩ := s
  simp only at hq he
  subst hq he
  cases c with
  | send clientId msgId code format repeat_ a b c d gcSocket =>
    simp only [InfraredService.call]
    rw [send_busy]
    by_cases hl : bits &&& IR_LEARNING_BIT ≠ 0
    · rw [if_pos hl]; exact ⟨bits, rfl, hs, rfl⟩
    · rw [if_neg hl]
      by_cases hp : pinMask board a b c d = 0
      · rw [if_pos hp]; exact ⟨bits, rfl, hs, rfl⟩
      · rw [if_neg hp]
        cases irFormatOf format with
        | none => exact ⟨bits, rfl, hs, rfl⟩
        | some f =>
          by_cases hr : repeat_ > 0 ∧ c0 = code
          · dsimp only; rw [if_pos hr]; exact ⟨_, rfl, stop_bit_set bits _ hs, rfl⟩
          · dsimp only; rw [if_neg hr]; exact ⟨bits, rfl, hs, rfl⟩
  | stopSend =>
    exact ⟨_, rfl, stop_bit_clear_repeat _ (stop_bit_set bits _ hs), rfl⟩
  | startIrLearn => exact ⟨_, rfl, stop_bit_set bits _ hs, rfl⟩
  | stopIrLearn => exact ⟨_, rfl, stop_bit_clear_learning bits hs, rfl⟩
  | release => exact absurd rfl hc

/-- The same for a sequence of calls and callback invocations. -/
theorem stop_kept_steps (board : Board) (m : IRSendMessage) (q : List IRSendMessage)
    (steps : List TransmitStep) :
    ∀ (s : InfraredService) (v : RepeatVars) (bits : Nat), s.m_queue = some (m :: q) →
      s.m_eventgroup = some bits → bits.testBit 2 = true →
      (∀ st ∈ steps, st ≠ TransmitStep.call ServiceCall.release) →
      ∃ bits2, (steps.foldl (transmitStep board) (s, v)).1.m_eventgroup = some bits2 ∧
        bits2.testBit 2 = true ∧
        (steps.foldl (transmitStep board) (s, v)).1.m_queue = some (m :: q) := by
  induction steps with
  | nil => intro s v bits hq he hs _; exact ⟨bits, he, hs, hq⟩
  | cons st steps ih =>
    intro s v bits hq he hs hsteps
    rw [List.foldl_cons]
    have hrest : ∀ x ∈ steps, x ≠ TransmitStep.call ServiceCall.release :=
      fun x hx => hsteps x (List.mem_cons_of_mem _ hx)
    cases st with
    | call c =>
      have hc : c ≠ ServiceCall.release := by
        intro e
        exact hsteps (TransmitStep.call c) (List.mem_cons_self _ _) (by rw [e])
      obtain ⟨bits2, he2, hs2, hq2⟩ := stop_kept_call board s m q bits hq he hs c hc
      exact ih (s.call board c) v bits2 hq2 he2 hs2 hrest
    | repeatCallback =>
      have hstep : transmitStep board (s, v) TransmitStep.repeatCallback =
          ({ s with m_eventgroup := some bits }, { v with repeat_ := 0 }) := by
        unfold transmitStep
        simp only [he]
        rw [repeatCallback_of_stop bits v ((stop_bit_iff bits).mpr hs)]
      rw [hstep]
      exact ih _ _ bits hq rfl hs hrest

/-- With neither flag set the callback counts `repeat` down, returns true while it is above 0 and
leaves the bits. -/
theorem repeatCallback_plain (bits : Nat) (v : RepeatVars)
    (hs : bits &&& IR_REPEAT_STOP_BIT = 0) (hr : bits &&& IR_REPEAT_BIT = 0) :
    repeatCallback bits v =
      if v.repeat_ > 0 then (true, bits, { v with repeat_ := v.repeat_ - 1 })
      else (false, bits, v) := by
  unfold repeatCallback
  simp only [hs, hr, ne_eq, not_true_eq_false, if_false]

theorem afterCallbacks_plain (bits : Nat) (L : Nat)
    (hs : bits &&& IR_REPEAT_STOP_BIT = 0) (hr : bits &&& IR_REPEAT_BIT = 0) (i : Nat) :
    afterCallbacks bits ⟨L, (L : Int)⟩ i = (bits, ⟨L, (L : Int) - (min i L : Nat)⟩) := by
  induction i with
  | zero => simp [afterCallbacks]
  | succ i ih =>
    unfold afterCallbacks
    rw [ih, repeatCallback_plain bits _ hs hr]
    by_cases h : i < L
    · have hpos : (L : Int) - (min i L : Nat) > 0 := by
        rw [Nat.min_eq_left (Nat.le_of_lt h)]; omega
      simp only [if_pos hpos]
      congr 2
      rw [Nat.min_eq_left (Nat.le_of_lt h), Nat.min_eq_left (by omega : i + 1 ≤ L)]
      push_cast
      omega
    · have hpos : ¬ (L : Int) - (min i L : Nat) > 0 := by
        rw [Nat.min_eq_right (by omega : L ≤ i)]; omega
      simp only [if_neg hpos]
      congr 2
      rw [Nat.min_eq_right (by omega : L ≤ i), Nat.min_eq_right (by omega : L ≤ i + 1)]

/-! ## The gateway on a line the grammar rejects -/

/-- The codes of `parseGcRequest` are 0 to 3. -/
theorem parseGcRequest_code_le (request : List Char) (msg : GCMsg) :
    (parseGcRequest request msg).1 ≤ 3 := by
  unfold parseGcRequest
  simp only
  split
  · split <;> simp
  · split
    · simp
    · split
      · simp
      · split
        · simp
        · split
          · simp
          · split
            · simp
            · split <;> simp

/-! ## `atoi` on white space and signs -/

theorem dropWhile_run {p : Char → Bool} {W X : List Char} (hW : ∀ c ∈ W, p c = true)
    (hX : X.head?.map p ≠ some true) : (W ++ X).dropWhile p = X := by
  induction W with
  | nil =>
    match X with
    | [] => rfl
    | a :: r =>
      have : p a = false := by
        cases h : p a with
        | false => rfl
        | true => simp [h] at hX
      simp [List.dropWhile, this]
  | cons c cs ih =>
    simp only [List.cons_append, List.dropWhile, hW c (by simp)]
    exact ih (fun x hx => hW x (by simp [hx]))

/-- Leading white space does not change what `atoi` reads. -/
theorem atoi_skip_space {W X : List Char} (hW : IsSpaceRun W)
    (hX : X.head?.map isspace ≠ some true) : atoi (W ++ X) = atoi X := by
  have h1 : (W ++ X).dropWhile isspace = X := dropWhile_run hW hX
  have h2 : X.dropWhile isspace = X := by
    have := dropWhile_run (W := []) (p := isspace) (fun _ h => by simp at h) hX
    simpa using this
  unfold atoi strtol parseSubject
  simp only [h1, h2, hasPrefix_ten, Bool.false_eq_true, if_false]
  by_cases hds : List.takeWhile (isDigitOf 10) (if hasSign X = true then X.tail else X) = []
  · simp only [hds, if_true]
  · simp only [hds, if_false]
    have hlen : (List.takeWhile (isDigitOf 10) (if hasSign X = true then X.tail else X)).length
        ≠ 0 := fun h => hds (List.eq_nil_of_length_eq_zero h)
    have e1 : ¬ ((List.takeWhile isspace (W ++ X)).length + (if hasSign X = true then 1 else 0)
        + 0 + (List.takeWhile (isDigitOf 10) (if hasSign X = true then X.tail else X)).length
          = 0) := by omega
    have e2 : ¬ ((List.takeWhile isspace X).length + (if hasSign X = true then 1 else 0)
        + 0 + (List.takeWhile (isDigitOf 10) (if hasSign X = true then X.tail else X)).length
          = 0) := by omega
    simp only [e1, e2, if_false]

/-- A sign and a run of decimal digits, up to the first character that is not a digit. -/
theorem atoi_signed {sgn : Char} {D rest : List Char} (hs : sgn = '+' ∨ sgn = '-')
    (hD : IsDigitRun D) (hr : NoDigitAhead rest) :
    atoi (sgn :: (D ++ rest)) = clampLong (signedValue [sgn] D) := by
  have h0 : isspace sgn = false := by rcases hs with rfl | rfl <;> decide
  have hs1 : (sgn :: (D ++ rest)).dropWhile isspace = sgn :: (D ++ rest) := by
    rw [List.dropWhile, h0]
  have hsg : hasSign (sgn :: (D ++ rest)) = true := by
    rcases hs with rfl | rfl <;> simp [hasSign]
  unfold atoi strtol parseSubject
  simp only [hs1, hsg, hasPrefix_ten, Bool.false_eq_true, if_false, if_true, List.tail_cons,
    takeWhile_run hD hr, accumulate_eq, List.head?_cons]
  by_cases hne : D = []
  · subst hne
    simp [clampLong, signedValue, numeralValue, LONG_MAX, LONG_MIN]
  · have hlen : D.length ≠ 0 := fun h => hne (List.eq_nil_of_length_eq_zero h)
    simp only [hne, if_false]
    have e1 : ¬ ((List.takeWhile isspace (sgn :: (D ++ rest))).length + 1 + 0 + D.length = 0) := by
      omega
    simp only [e1, if_false]
    rcases hs with rfl | rfl
    · have : ¬ (some '+' = some '-') := by decide
      simp only [this, decide_False, Bool.false_eq_true, if_false, clampLong, signedValue,
        LONG_MAX, LONG_MIN]
      have hd : ¬ (['+'] = ['-']) := by decide
      simp only [hd, if_false]
      split_ifs <;> omega
    · simp only [decide_True, if_true, clampLong, signedValue, LONG_MAX, LONG_MIN]
      split_ifs <;> omega

theorem noPadAhead_append {T rest : List Char} (hT : NoPadAhead T) (hr : NoPadAhead rest) :
    NoPadAhead (T ++ rest) := by
  rcases hT with rfl | ⟨a, r, rfl, h⟩
  · simpa using hr
  · right; exact ⟨a, r ++ rest, rfl, h⟩

theorem noPadAhead_head {X : List Char} (h : NoPadAhead X) :
    X.head?.map isspace ≠ some true := by
  rcases h with rfl | ⟨a, r, rfl, hsp, _, _⟩
  · simp
  · simp [hsp]

/-- What `atoi` returns for a text read as white space, sign, digits and rest, when what follows
the text starts with neither a digit, white space nor a sign. -/
theorem atoi_reading {M W S D T rest : List Char} (h : Reading M W S D T)
    (hr : NoDigitAhead rest) (hp : NoPadAhead rest) :
    atoi (M ++ rest) = clampLong (signedValue S D) := by
  obtain ⟨rfl, hW, hS, hD, hT, hT0⟩ := h
  have hnd : NoDigitAhead (T ++ rest) := noDigitAhead_append hT hr
  have e : W ++ (S ++ (D ++ T)) ++ rest = W ++ (S ++ (D ++ (T ++ rest))) := by simp
  rw [e]
  rcases hS with rfl | rfl | rfl
  · have hX : ([] ++ (D ++ (T ++ rest))).head?.map isspace ≠ some true := by
      rw [List.nil_append]
      cases D with
      | nil =>
        rw [List.nil_append]
        exact noPadAhead_head (noPadAhead_append (hT0 rfl rfl) hp)
      | cons d ds =>
        have := isspace_of_digit (hD d (by simp))
        simp [this]
    rw [atoi_skip_space hW hX, List.nil_append,
      atoi_run hD hnd (fun hd => noPadAhead_append (hT0 rfl hd) hp)]
    simp [signedValue]
  · have hX : (['+'] ++ (D ++ (T ++ rest))).head?.map isspace ≠ some true := by
      simp only [List.singleton_append, List.head?_cons, Option.map_some']
      decide
    rw [atoi_skip_space hW hX]
    exact atoi_signed (Or.inl rfl) hD hnd
  · have hX : (['-'] ++ (D ++ (T ++ rest))).head?.map isspace ≠ some true := by
      simp only [List.singleton_append, List.head?_cons, Option.map_some']
      decide
    rw [atoi_skip_space hW hX]
    exact atoi_signed (Or.inr rfl) hD hnd

theorem head_dropWhile (p : Char → Bool) (l : List Char) :
    (l.dropWhile p).head?.map p ≠ some true := by
  induction l with
  | nil => simp
  | cons c cs ih =>
    cases h : p c with
    | true => simpa [List.dropWhile, h] using ih
    | false => simp [List.dropWhile, h]

/-- Every text has a reading as white space, sign, digits and rest. -/
theorem exists_reading (M : List Char) : ∃ W S D T, Reading M W S D T := by
  have hM : M = M.takeWhile isspace ++ M.dropWhile isspace :=
    (List.takeWhile_append_dropWhile isspace M).symm
  have hW : IsSpaceRun (M.takeWhile isspace) := fun c hc => (List.mem_takeWhile_imp hc)
  have hhead := head_dropWhile isspace M
  cases hX : M.dropWhile isspace with
  | nil =>
    refine ⟨M.takeWhile isspace, [], [], [], ?_, hW, Or.inl rfl, ?_, ?_, fun _ _ => Or.inl rfl⟩
    · rw [hX] at hM; simpa using hM
    · intro c hc; simp at hc
    · simp [NoDigitAhead]
  | cons a Y =>
    rw [hX] at hM hhead
    have hsp : isspace a = false := by
      cases h : isspace a with
      | false => rfl
      | true => simp [h] at hhead
    have hsplit : ∀ l : List Char,
        l = l.takeWhile (isDigitOf 10) ++ l.dropWhile (isDigitOf 10) :=
      fun l => (List.takeWhile_append_dropWhile (isDigitOf 10) l).symm
    have hrun : ∀ l : List Char, IsDigitRun (l.takeWhile (isDigitOf 10)) :=
      fun l c hc => List.mem_takeWhile_imp hc
    by_cases hs : a = '+' ∨ a = '-'
    · refine ⟨M.takeWhile isspace, [a], Y.takeWhile (isDigitOf 10), Y.dropWhile (isDigitOf 10),
        ?_, hW, ?_, hrun Y, head_dropWhile _ Y, ?_⟩
      · rw [← hsplit Y]; simpa using hM
      · rcases hs with rfl | rfl
        · exact Or.inr (Or.inl rfl)
        · exact Or.inr (Or.inr rfl)
      · intro h; simp at h
    · refine ⟨M.takeWhile isspace, [], (a :: Y).takeWhile (isDigitOf 10),
        (a :: Y).dropWhile (isDigitOf 10), ?_, hW, Or.inl rfl, hrun _, head_dropWhile _ _, ?_⟩
      · rw [List.nil_append, ← hsplit (a :: Y)]; exact hM
      · intro _ hD
        have hd : isDigitOf 10 a = false := by
          cases h : isDigitOf 10 a with
          | false => rfl
          | true => simp [List.takeWhile, h] at hD
        right
        refine ⟨a, Y, by simp [List.dropWhile, hd], hsp, ?_, ?_⟩
        · exact fun e => hs (Or.inr e)
        · exact fun e => hs (Or.inl e)

/-! ## The repeat callback from the start of a transmission -/

/-- With the repeat bit set and the stop bit clear the callback starts over from `repeatLimit`,
whatever `repeat` was. -/
theorem repeatCallback_of_extend (bits : Nat) (v : RepeatVars) (hL : 1 ≤ v.repeatLimit)
    (hs : bits &&& IR_REPEAT_STOP_BIT = 0) (hr : bits &&& IR_REPEAT_BIT ≠ 0) :
    repeatCallback bits v =
      (true, xEventGroupClearBits bits IR_REPEAT_BIT,
        ⟨v.repeatLimit, (v.repeatLimit : Int) - 1⟩) := by
  unfold repeatCallback
  have hpos : ((v.repeatLimit : Nat) : Int) > 0 := by omega
  simp only [hs, ne_eq, not_true_eq_false, if_false, hr, not_false_eq_true, if_true, hpos]

/-- Clearing the repeat bit leaves it clear. -/
theorem repeat_bit_cleared (bits : Nat) :
    xEventGroupClearBits bits IR_REPEAT_BIT &&& IR_REPEAT_BIT = 0 := by
  unfold xEventGroupClearBits IR_REPEAT_BIT
  apply bits_eq
  · simp only [Nat.testBit_and, Nat.testBit_xor]
    generalize bits.testBit 0 = b; revert b; decide
  · simp only [Nat.testBit_and, Nat.testBit_xor]
    generalize bits.testBit 1 = b; revert b; decide
  · simp only [Nat.testBit_and, Nat.testBit_xor]
    generalize bits.testBit 2 = b; revert b; decide
  · intro i
    simp only [Nat.testBit_and, Nat.testBit_xor, testBit_two_high, Nat.zero_testBit,
      Bool.and_false]

/-- The callback keeps `repeatLimit`, and keeps `repeat` within `0..repeatLimit`. -/
theorem repeatCallback_range (bits : Nat) (v : RepeatVars) (h0 : 0 ≤ v.repeat_)
    (h1 : v.repeat_ ≤ (v.repeatLimit : Int)) :
    (repeatCallback bits v).2.2.repeatLimit = v.repeatLimit ∧
    0 ≤ (repeatCallback bits v).2.2.repeat_ ∧
    (repeatCallback bits v).2.2.repeat_ ≤ (v.repeatLimit : Int) := by
  obtain ⟨limit, rep⟩ := v
  simp only at h0 h1
  unfold repeatCallback
  by_cases hs : bits &&& IR_REPEAT_STOP_BIT ≠ 0
  · simp only [if_pos hs]
    simp
  · simp only [if_neg hs]
    by_cases hr : bits &&& IR_REPEAT_BIT ≠ 0
    · simp only [if_pos hr]
      by_cases hpos : ((limit : Nat) : Int) > 0
      · simp only [if_pos hpos]
        refine ⟨trivial, ?_, ?_⟩ <;> omega
      · simp only [if_neg hpos]
        refine ⟨trivial, ?_, ?_⟩ <;> omega
    · simp only [if_neg hr]
      by_cases hp : rep > 0
      · simp only [if_pos hp]
        refine ⟨trivial, ?_, ?_⟩ <;> omega
      · simp only [if_neg hp]
        refine ⟨trivial, ?_, ?_⟩ <;> omega

/-- The same after any number of invocations, whatever bits each of them finds. -/
theorem callbacksFrom_range (seen : List Nat) :
    ∀ v : RepeatVars, 0 ≤ v.repeat_ → v.repeat_ ≤ (v.repeatLimit : Int) →
      (callbacksFrom v seen).repeatLimit = v.repeatLimit ∧
      0 ≤ (callbacksFrom v seen).repeat_ ∧
      (callbacksFrom v seen).repeat_ ≤ (v.repeatLimit : Int) := by
  induction seen with
  | nil => intro v h0 h1; exact ⟨rfl, h0, h1⟩
  | cons bits rest ih =>
    intro v h0 h1
    obtain ⟨e, g0, g1⟩ := repeatCallback_range bits v h0 h1
    unfold callbacksFrom
    have := ih (repeatCallback bits v).2.2 g0 (by rw [e]; exact g1)
    rw [e] at this
    exact this

/-! ## The claims -/

/-- C1 - hex-code round trip: for a protocol `p` written as a decimal numeral `P` (non-zero and
within the range of the protocol field), a 64-bit command `c` written as a hexadecimal numeral
behind `0x` or `0X`, bits `b` in 1..65535 and repeat `r` in 0..20 written as decimal numerals,
`buildIRHexData` applied to the text `P;0xC;B;R` returns true and fills `data` with
`protocol = p`, `command = c`, `bits = b` and `repeat = r`. -/
theorem buildIRHexData_roundtrip (P C B R : List Char) (x : Char) (p c b r : Nat) (data : IRHexData)
    (hx : x = 'x' ∨ x = 'X')
    (hP : IsNumeral 10 P ∧ numeralValue 10 P = p) (hC : IsNumeral 16 C ∧ numeralValue 16 C = c)
    (hB : IsNumeral 10 B ∧ numeralValue 10 B = b) (hR : IsNumeral 10 R ∧ numeralValue 10 R = r)
    (hp : p ≠ 0 ∧ p < 2 ^ 31) (hc : c < 2 ^ 64) (hb : 1 ≤ b ∧ b ≤ 65535) (hr : r ≤ 20) :
    buildIRHexData (hexMessage P ('0' :: x :: C) B R) data = (true, ⟨(p : Int), c, b, r⟩) := by
  obtain ⟨hP, rfl⟩ := hP
  obtain ⟨hC, rfl⟩ := hC
  obtain ⟨hB, rfl⟩ := hB
  obtain ⟨hR, rfl⟩ := hR
  have hCf : IsHexField ('0' :: x :: C) C := by
    rcases hx with rfl | rfl
    · exact ⟨hC, Or.inr (Or.inl rfl)⟩
    · exact ⟨hC, Or.inr (Or.inr rfl)⟩
  rw [buildIRHexData_numerals P _ C B R data hP hCf hB hR hp.1 hp.2 hc]
  have h1 : ¬ (numeralValue 10 B > ULONG_MAX ∨ numeralValue 10 B > 0xFFFF) := by
    simp only [ULONG_MAX]; omega
  have h2 : ¬ numeralValue 10 B = 0 := by omega
  have h3 : ¬ numeralValue 10 R > 20 := by omega
  simp only [h1, h2, h3, if_false]

/-- Witness of C1 on the message of the unit test, `4;0x640C;15;1`. -/
theorem buildIRHexData_roundtrip_witness :
    buildIRHexData "4;0x640C;15;1".toList ⟨0, 0, 0, 0⟩ = (true, ⟨4, 0x640C, 15, 1⟩) :=
  buildIRHexData_roundtrip "4".toList "640C".toList "15".toList "1".toList 'x' 4 0x640C 15 1
    ⟨0, 0, 0, 0⟩ (Or.inl rfl) (by decide) (by decide) (by decide) (by decide) (by decide)
    (by decide) (by decide) (by decide)

/-- C2 - range postcondition of `buildIRHexData`: whenever it returns true, `data.protocol` is
not 0, `data.bits` lies in 1..65535 and `data.repeat` is at most 20; and a message whose
protocol and command fields are valid and whose bits and repeat fields are decimal numerals is
accepted, for bits in 1..65535, exactly when the repeat value is at most 20 (so with 20, and
with no value above 20), and is rejected when the bits value is 0 or above 65535. -/
theorem buildIRHexData_range (message : List Char) (data : IRHexData) :
    ((buildIRHexData message data).1 = true →
      (buildIRHexData message data).2.protocol ≠ 0 ∧
      1 ≤ (buildIRHexData message data).2.bits ∧
      (buildIRHexData message data).2.bits ≤ 65535 ∧
      (buildIRHexData message data).2.repeat_ ≤ 20) ∧
    (∀ P Cf C B R : List Char, message = hexMessage P Cf B R →
      IsNumeral 10 P → numeralValue 10 P ≠ 0 → numeralValue 10 P < 2 ^ 31 →
      IsHexField Cf C → numeralValue 16 C < 2 ^ 64 →
      IsNumeral 10 B → IsNumeral 10 R →
      ((1 ≤ numeralValue 10 B ∧ numeralValue 10 B ≤ 65535) →
        ((buildIRHexData message data).1 = true ↔ numeralValue 10 R ≤ 20)) ∧
      ((numeralValue 10 B = 0 ∨ numeralValue 10 B > 65535) →
        (buildIRHexData message data).1 = false)) := by
  refine ⟨buildIRHexData_post message data, ?_⟩
  intro P Cf C B R hm hP hp0 hp hC hc hB hR
  subst hm
  rw [buildIRHexData_numerals P Cf C B R data hP hC hB hR hp0 hp hc]
  refine ⟨?_, ?_⟩
  · intro hb
    have h1 : ¬ (numeralValue 10 B > ULONG_MAX ∨ numeralValue 10 B > 0xFFFF) := by
      simp only [ULONG_MAX]; omega
    have h2 : ¬ numeralValue 10 B = 0 := by omega
    rw [if_neg h1, if_neg h2]
    by_cases h3 : numeralValue 10 R > 20
    · rw [if_pos h3]
      constructor
      · intro h; exact absurd h (by simp)
      · intro h; omega
    · rw [if_neg h3]
      exact ⟨fun _ => by omega, fun _ => rfl⟩
  · intro hb
    by_cases h1 : numeralValue 10 B > ULONG_MAX ∨ numeralValue 10 B > 0xFFFF
    · rw [if_pos h1]
    · rw [if_neg h1]
      have h2 : numeralValue 10 B = 0 := by
        simp only [not_or, not_lt] at h1
        omega
      rw [if_pos h2]

/-- Witness of C2 on the messages of the unit test: repeat 20 is accepted, 21 is rejected. -/
theorem buildIRHexData_range_witness :
    (buildIRHexData "4;0x640C;15;20".toList ⟨0, 0, 0, 0⟩).1 = true ∧
    (buildIRHexData "4;0x640C;15;21".toList ⟨0, 0, 0, 0⟩).1 = false :=
  ⟨(((buildIRHexData_range "4;0x640C;15;20".toList ⟨0, 0, 0, 0⟩).2
      "4".toList "0x640C".toList "640C".toList "15".toList "20".toList
      (by decide) (by decide) (by decide) (by decide) (by decide) (by decide) (by decide)
      (by decide)).1 (by decide)).2 (by decide),
   Bool.eq_false_iff.mpr (fun h =>
    absurd ((((buildIRHexData_range "4;0x640C;15;21".toList ⟨0, 0, 0, 0⟩).2
      "4".toList "0x640C".toList "640C".toList "15".toList "21".toList
      (by decide) (by decide) (by decide) (by decide) (by decide) (by decide) (by decide)
      (by decide)).1 (by decide)).1 h) (by decide))⟩

/-- C3 - missing fields are rejected: a message with fewer than three `;` separators, or a
message `P;C;B;R` in which one of the four fields is empty (the trailing repeat field
included), makes `buildIRHexData` return false. -/
theorem buildIRHexData_missing_field (message : List Char) (data : IRHexData)
    (h : message.count ';' < 3 ∨
      ∃ P C B R : List Char, message = hexMessage P C B R ∧ ';' ∉ P ∧ ';' ∉ C ∧ ';' ∉ B ∧
        (P = [] ∨ C = [] ∨ B = [] ∨ R = [])) :
    (buildIRHexData message data).1 = false := by
  rcases h with h | ⟨P, C, B, R, rfl, hP, hC, hB, he⟩
  · exact buildIRHexData_few_separators message data h
  · exact buildIRHexData_empty_field P C B R data hP hC hB he

/-- Witness of C3 on the message of the unit test with an empty trailing repeat field. -/
theorem buildIRHexData_missing_field_witness :
    (buildIRHexData "4;0x640C;15;".toList ⟨0, 0, 0, 0⟩).1 = false :=
  buildIRHexData_missing_field "4;0x640C;15;".toList ⟨0, 0, 0, 0⟩
    (Or.inr ⟨"4".toList, "0x640C".toList, "15".toList, [], by decide, by decide, by decide,
      by decide, by decide⟩)

/-- The protocol field is read by `toInt`, which stops at the first non-digit: text after the
leading numeral of the protocol field is not examined. -/
theorem buildIRHexData_protocol_trailing_text :
    buildIRHexData "4z;0x640C;15;1".toList ⟨0, 0, 0, 0⟩ = (true, ⟨4, 0x640C, 15, 1⟩) := by
  decide

/-- C5 - Pronto decode of well-formed input: for a sequence `v` of `n ≥ 6` 16-bit values written
as 4-digit hexadecimal tokens `ts`, with `v[0] = 0` and `4 + 2*v[2] + 2*v[3] ≤ n`, joined by the
separator `' '` or `','` into a text shorter than 32768 characters, `prontoBufferToArray` (with
a successful allocation) returns a non-NULL array equal to `v`, sets `codeCount = n` and
`memError = 0`. -/
theorem prontoBufferToArray_roundtrip (ts : List (List Char)) (v : List Nat) (separator : Char)
    (codeCount : Nat)
    (hsep : separator = ' ' ∨ separator = ',')
    (hts : ∀ t ∈ ts, t.length = 4 ∧ IsNumeral 16 t)
    (hv : v = ts.map (numeralValue 16))
    (hn : 6 ≤ v.length) (h0 : v.getD 0 0 = 0)
    (hfit : 4 + 2 * v.getD 2 0 + 2 * v.getD 3 0 ≤ v.length)
    (hlen : (joinSep separator ts).length < 32768) :
    prontoBufferToArray true (joinSep separator ts) separator codeCount =
      some ⟨some v, v.length, 0⟩ := by
  have hstored : ∀ t ∈ ts, storedValue 16 t = numeralValue 16 t := by
    intro t ht
    obtain ⟨h4, hnum⟩ := hts t ht
    have := numeralValue_lt (by decide) hnum
    rw [h4] at this
    exact storedValue_numeral (by decide) hnum (by omega)
  have hv' : v = ts.map (storedValue 16) := by
    rw [hv]
    exact (List.map_congr_left hstored).symm
  match ts, hts, hv, hv', hlen with
  | [], _, hv, _, _ => simp [hv] at hn
  | t :: ts, hts, hv, hv', hlen =>
    have hl : ts.length + 1 = v.length := by simp [hv]
    exact prontoBufferToArray_tokens separator (isStop_sep hsep) t ts codeCount v
      (fun u hu => isToken_numeral (by decide) hsep (hts u hu).2) (by omega)
      (by simp only [INT16_MAX]; omega) hv' h0 hfit

/-- Witness of C5 on the minimal buffer of the unit test, `0000 0066 0000 0001 0050 0051`. -/
theorem prontoBufferToArray_roundtrip_witness :
    prontoBufferToArray true "0000 0066 0000 0001 0050 0051".toList ' ' 0 =
      some ⟨some [0, 0x66, 0, 1, 0x50, 0x51], 6, 0⟩ :=
  prontoBufferToArray_roundtrip
    ["0000".toList, "0066".toList, "0000".toList, "0001".toList, "0050".toList, "0051".toList]
    [0, 0x66, 0, 1, 0x50, 0x51] ' ' 0 (Or.inl rfl) (by decide) (by decide) (by decide)
    (by decide) (by decide) (by decide)

/-- C6 at its failing input: the third value `8000` declares 32768 burst pairs, the 16-bit
product `codeArray[2] * 2` wraps to 0, and the six-value message is returned as an array. -/
theorem prontoBufferToArray_truncated_accepted :
    prontoBufferToArray true "0000 0066 8000 0000 0050 0051".toList ' ' 0 =
      some ⟨some [0, 0x66, 0x8000, 0, 0x50, 0x51], 6, 0⟩ ∧
    ¬ (4 + 2 * 0x8000 ≤ 6) := by
  decide

/-- C7 at its failing input: five values followed by a separator are counted as six by
`countValuesInCStr`, and an array of five values is returned. -/
theorem prontoBufferToArray_five_values :
    prontoBufferToArray true "0000 0066 0000 0000 0050 ".toList ' ' 0 =
      some ⟨some [0, 0x66, 0, 0, 0x50], 5, 0⟩ := by
  decide

/-- C8 as stated fails: the token `zzzz` is not a hexadecimal number, yet the message is decoded,
with 0 stored for that token. -/
theorem prontoBufferToArray_nonnumeric_counterexample :
    ¬ IsNumeral 16 "zzzz".toList ∧
    prontoBufferToArray true "0000 0066 0000 0001 zzzz 0051".toList ' ' 0 =
      some ⟨some [0, 0x66, 0, 1, 0, 0x51], 6, 0⟩ := by
  decide

/-- C8 (amended) - a token that is not a hexadecimal number is no failure of its own: for a
message of at least 6 tokens joined by `' '` or `','` (text shorter than 32768 characters), each
token non-empty, free of the separator and not starting with white space or a sign, every token
is stored as the value `strtoul` reads from it, which is 0 for a token that starts with no
hexadecimal digit (such as `zzzz`), and `prontoBufferToArray` returns the array of the stored
values `v` whenever `v[0] = 0` and `4 + 2*v[2] + 2*v[3]` does not exceed the number of tokens. -/
theorem prontoBufferToArray_nonnumeric (ts : List (List Char)) (v : List Nat) (separator : Char)
    (codeCount : Nat)
    (hsep : separator = ' ' ∨ separator = ',')
    (hts : ∀ t ∈ ts, IsToken separator t)
    (hv : v = ts.map (storedValue 16))
    (hn : 6 ≤ v.length) (h0 : v.getD 0 0 = 0)
    (hfit : 4 + 2 * v.getD 2 0 + 2 * v.getD 3 0 ≤ v.length)
    (hlen : (joinSep separator ts).length < 32768) :
    prontoBufferToArray true (joinSep separator ts) separator codeCount =
      some ⟨some v, v.length, 0⟩ ∧
    ∀ t ∈ ts, t.head?.map (isDigitOf 16) = some false → storedValue 16 t = 0 := by
  refine ⟨?_, fun t ht hd => storedValue_nondigit (hts t ht).1 hd⟩
  match ts, hts, hv, hlen with
  | [], _, hv, _ => simp [hv] at hn
  | t :: ts, hts, hv, hlen =>
    have hl : ts.length + 1 = v.length := by simp [hv]
    exact prontoBufferToArray_tokens separator (isStop_sep hsep) t ts codeCount v
      hts (by omega) (by simp only [INT16_MAX]; omega) hv h0 hfit

/-- Witness of the amended C8: the message with the token `zzzz` is decoded with 0 in its
place. -/
theorem prontoBufferToArray_nonnumeric_witness :
    prontoBufferToArray true "0000 0066 0000 0001 zzzz 0051".toList ' ' 0 =
      some ⟨some [0, 0x66, 0, 1, 0, 0x51], 6, 0⟩ :=
  (prontoBufferToArray_nonnumeric
    ["0000".toList, "0066".toList, "0000".toList, "0001".toList, "zzzz".toList, "0051".toList]
    [0, 0x66, 0, 1, 0, 0x51] ' ' 0 (Or.inl rfl) (by decide) (by decide) (by decide)
    (by decide) (by decide) (by decide)).1

/-- C9 as stated fails for a list that is long enough: 32768 values `0` are decimal 16-bit
values, their comma-joined text has 65535 characters, the `int16_t` text index of
`countValuesInCStr` cannot reach its end, and no array is returned. -/
theorem globalCacheBufferToArray_prefix_counterexample :
    (∀ t ∈ List.replicate 32768 ['0'], IsNumeral 10 t ∧ numeralValue 10 t < 65536) ∧
    6 ≤ (List.replicate 32768 ['0']).length ∧
    globalCacheBufferToArray true (joinSep ',' (List.replicate 32768 ['0'])) 0 = none := by
  refine ⟨?_, by rw [List.length_replicate]; omega, ?_⟩
  · intro t ht
    rw [List.eq_of_mem_replicate ht]
    decide
  · apply globalCacheBufferToArray_long
    have := joinSep_replicate_length ',' ['0'] 32767
    norm_num at this
    simp only [INT16_MAX]
    omega

/-- C9 (amended) - GlobalCache prefix skip: for a list `v` of `n ≥ 6` 16-bit values written as
decimal numerals `ts` and two comma-free descriptor fields `d1`, `d2` such that the text
`sendir,d1,d2,` followed by the comma-joined numerals is shorter than 32768 characters,
`globalCacheBufferToArray` (with a successful allocation) applied to the comma-joined numerals
and applied to the prefixed text both return, with `memError = 0`, the array `v` with
`codeCount = n`: the three leading fields are skipped and nothing else. -/
theorem globalCacheBufferToArray_prefix (ts : List (List Char)) (v : List Nat)
    (d1 d2 : List Char) (codeCount : Nat)
    (hts : ∀ t ∈ ts, IsNumeral 10 t ∧ numeralValue 10 t < 65536)
    (hv : v = ts.map (numeralValue 10)) (hn : 6 ≤ v.length)
    (hd1 : ',' ∉ d1) (hd2 : ',' ∉ d2)
    (hlen : (joinSep ',' (sendirText :: d1 :: d2 :: ts)).length < 32768) :
    globalCacheBufferToArray true (joinSep ',' ts) codeCount = some ⟨some v, v.length, 0⟩ ∧
    globalCacheBufferToArray true (joinSep ',' (sendirText :: d1 :: d2 :: ts)) codeCount =
      some ⟨some v, v.length, 0⟩ := by
  have hstored : ∀ t ∈ ts, storedValue 10 t = numeralValue 10 t := fun t ht =>
    storedValue_numeral (by decide) (hts t ht).1 (hts t ht).2
  have hv' : v = ts.map (storedValue 10) := by
    rw [hv]
    exact (List.map_congr_left hstored).symm
  match ts, hts, hv, hv', hlen with
  | [], _, hv, _, _ => simp [hv] at hn
  | t :: ts, hts, hv, hv', hlen =>
    have hl : ts.length + 1 = v.length := by simp [hv]
    have htok : ∀ u ∈ t :: ts, IsToken ',' u := fun u hu =>
      isToken_numeral (by decide) (Or.inr rfl) (hts u hu).1
    have hlen' : (joinSep ',' (t :: ts)).length ≤ INT16_MAX := by
      have : (joinSep ',' (sendirText :: d1 :: d2 :: t :: ts)).length =
          6 + 1 + d1.length + 1 + d2.length + 1 + (joinSep ',' (t :: ts)).length := by
        simp [joinSep, tailJoin, sendirText]; omega
      simp only [INT16_MAX]; omega
    refine ⟨globalCacheBufferToArray_tokens t ts codeCount v htok (by omega) hlen' ?_ hv',
      globalCacheBufferToArray_sendir d1 d2 t ts codeCount v hd1 hd2 htok (by omega)
        (by simp only [INT16_MAX]; omega) hv'⟩
    obtain ⟨c, cs, rfl⟩ : ∃ c cs, t = c :: cs := by
      obtain ⟨c, cs, e, _⟩ := (htok t (by simp)).1
      exact ⟨c, cs, e⟩
    have hc : isDigitOf 10 c = true := (hts (c :: cs) (by simp)).1.2 c (by simp)
    have hcs : c ≠ 's' := digit_ne_of_toNat (by decide) hc (by decide)
    simp [joinSep, hcs]

/-- Witness of the amended C9 on a short message of six values. -/
theorem globalCacheBufferToArray_prefix_witness :
    globalCacheBufferToArray true "38000,1,69,340,171,21".toList 0 =
      some ⟨some [38000, 1, 69, 340, 171, 21], 6, 0⟩ ∧
    globalCacheBufferToArray true "sendir,1:1,1,38000,1,69,340,171,21".toList 0 =
      some ⟨some [38000, 1, 69, 340, 171, 21], 6, 0⟩ :=
  globalCacheBufferToArray_prefix
    ["38000".toList, "1".toList, "69".toList, "340".toList, "171".toList, "21".toList]
    [38000, 1, 69, 340, 171, 21] "1:1".toList "1".toList 0
    (by decide) (by decide) (by decide) (by decide) (by decide) (by decide)

/-- C10 - `parseGcRequest` on well-formed requests, with the command buffer of 20 bytes:
(i) a request without a comma and shorter than 20 characters (the empty request included)
returns 0 with `command = request`, `module = 0`, `port = 0` and no `param`;
(ii) `c,x` with `x` free of `,` and `:` returns 0 with `command = c`, `module = 0`, `port = 0`
and `param = x`;
(iii) `c,1:P` with `P` a decimal numeral of value `p` in 1..15 returns 0 with `command = c`,
`module = 1`, `port = p` and no `param`, and `c,1:P,t` returns the same with `param = t`, the
whole remainder behind the comma that follows the port.
In (ii) and (iii) the command token `c` is free of `,` and shorter than 20 characters. -/
theorem parseGcRequest_wellFormed (msg : GCMsg) :
    (∀ request : List Char, ',' ∉ request → request.length < 20 →
      parseGcRequest request msg = (0, ⟨request, 0, 0, none⟩)) ∧
    (∀ c x : List Char, ',' ∉ c → c.length < 20 → ',' ∉ x → ':' ∉ x →
      parseGcRequest (c ++ ',' :: x) msg = (0, ⟨c, 0, 0, some x⟩)) ∧
    (∀ (c P : List Char) (p : Nat), ',' ∉ c → c.length < 20 →
      IsNumeral 10 P → numeralValue 10 P = p → 1 ≤ p → p ≤ 15 →
      parseGcRequest (c ++ ',' :: '1' :: ':' :: P) msg = (0, ⟨c, 1, p, none⟩) ∧
      ∀ t : List Char,
        parseGcRequest (c ++ ',' :: '1' :: ':' :: (P ++ ',' :: t)) msg =
          (0, ⟨c, 1, p, some t⟩)) := by
  refine ⟨?_, ?_, ?_⟩
  · intro request hc hl
    have h2 : ¬ request.length ≥ GCMSG_COMMAND_SIZE := by simp only [GCMSG_COMMAND_SIZE]; omega
    have h3 : request.take (min GCMSG_COMMAND_SIZE request.length) = request := by
      simp only [GCMSG_COMMAND_SIZE]
      rw [Nat.min_eq_right (by omega)]
      simp
    unfold parseGcRequest
    simp only [strchr_none hc, h2, if_false, h3]
  · intro c x hc hl hx1 hx2
    rw [parseGcRequest_command c x msg hc hl, if_pos ⟨strchr_none hx1, strchr_none hx2⟩]
  · intro c P p hc hl hP hp h1 h15
    subst hp
    have hcolon : ∀ r : List Char, strchr ('1' :: ':' :: r) ':' = some 1 := by
      intro r; simp [strchr]
    have hmod : ∀ r : List Char, atoi ('1' :: ':' :: r) = 1 := by
      intro r
      have := strtol_numeral_stop (s := ['1']) ':' r (by decide) (by decide) isStop_colon
      simpa [atoi] using this
    have hne : ∀ r : List Char,
        ¬ (strchr ('1' :: ':' :: r) ',' = none ∧ strchr ('1' :: ':' :: r) ':' = none) := by
      intro r h
      rw [hcolon] at h
      exact absurd h.2 (by simp)
    have hport : atoi P = (numeralValue 10 P : Int) := strtol_numeral hP (by omega)
    have hport' : ∀ t : List Char, atoi (P ++ ',' :: t) = (numeralValue 10 P : Int) :=
      fun t => strtol_numeral_stop ',' t hP (by omega) isStop_comma
    have hrange : ¬ ((numeralValue 10 P : Int) < 1 ∨ (numeralValue 10 P : Int) > 15) := by omega
    refine ⟨?_, fun t => ?_⟩
    · rw [parseGcRequest_command c _ msg hc hl, if_neg (hne P), hmod, if_neg (by simp)]
      simp only [hcolon, List.drop_succ_cons, List.drop_zero, hport, hrange, if_false,
        strchr_none (comma_not_mem_numeral hP), Int.toNat_ofNat]
    · rw [parseGcRequest_command c _ msg hc hl, if_neg (hne _), hmod, if_neg (by simp)]
      simp only [hcolon, List.drop_succ_cons, List.drop_zero, hport', hrange, if_false,
        strchr_append t (comma_not_mem_numeral hP), Int.toNat_ofNat]
      rw [← List.drop_drop]
      simp

/-- Witness of C10 on the requests of the unit tests `blink`, `blink,1`, `stopir,1:3` and a
`sendir` line. -/
theorem parseGcRequest_wellFormed_witness :
    parseGcRequest "blink".toList ⟨[], 0, 0, none⟩ = (0, ⟨"blink".toList, 0, 0, none⟩) ∧
    parseGcRequest "blink,1".toList ⟨[], 0, 0, none⟩ =
      (0, ⟨"blink".toList, 0, 0, some "1".toList⟩) ∧
    parseGcRequest "stopir,1:3".toList ⟨[], 0, 0, none⟩ = (0, ⟨"stopir".toList, 1, 3, none⟩) ∧
    parseGcRequest "sendir,1:1,1,37000,1,1,128,64".toList ⟨[], 0, 0, none⟩ =
      (0, ⟨"sendir".toList, 1, 1, some "1,37000,1,1,128,64".toList⟩) :=
  ⟨(parseGcRequest_wellFormed ⟨[], 0, 0, none⟩).1 "blink".toList (by decide) (by decide),
   (parseGcRequest_wellFormed ⟨[], 0, 0, none⟩).2.1 "blink".toList "1".toList
      (by decide) (by decide) (by decide) (by decide),
   ((parseGcRequest_wellFormed ⟨[], 0, 0, none⟩).2.2 "stopir".toList "3".toList 3
      (by decide) (by decide) (by decide) (by decide) (by decide) (by decide)).1,
   ((parseGcRequest_wellFormed ⟨[], 0, 0, none⟩).2.2 "sendir".toList "1".toList 1
      (by decide) (by decide) (by decide) (by decide) (by decide) (by decide)).2
      "1,37000,1,1,128,64".toList⟩

/-- C11 - module and port range errors of `parseGcRequest`: for a command `c` shorter than 20
characters, integers `m` and `p` written in decimal as `M` and `P`, and an optional tail `,t`,
`parseGcRequest` applied to `c,M:P` or `c,M:P,t` returns 2 when `m ≠ 1` whatever `p` is, returns
3 when `m = 1` and `p < 1` or `p > 15`, and returns 0 otherwise, that is exactly when `m = 1`
and `1 ≤ p ≤ 15`. -/
theorem parseGcRequest_ranges (c M P : List Char) (m p : Int) (tail : Option (List Char))
    (msg : GCMsg) (hc : ',' ∉ c) (hl : c.length < 20)
    (hM : IsIntegerText M m) (hP : IsIntegerText P p) :
    (parseGcRequest (c ++ ',' :: (M ++ ':' :: (P ++ gcTail tail))) msg).1 =
        (if m ≠ 1 then 2 else if p < 1 ∨ p > 15 then 3 else 0) ∧
    ((parseGcRequest (c ++ ',' :: (M ++ ':' :: (P ++ gcTail tail))) msg).1 = 0 ↔
        m = 1 ∧ 1 ≤ p ∧ p ≤ 15) := by
  have hcode : (parseGcRequest (c ++ ',' :: (M ++ ':' :: (P ++ gcTail tail))) msg).1 =
      (if m ≠ 1 then 2 else if p < 1 ∨ p > 15 then 3 else 0) := by
    rw [parseGcRequest_address c M _ msg hc hl (colon_not_mem_integerText hM),
      atoi_integerText hM (noDigitAhead_colon _), atoi_integerText hP (noDigitAhead_gcTail tail)]
    have e1 : clampLong m ≠ 1 ↔ m ≠ 1 := by
      unfold clampLong; simp only [LONG_MAX, LONG_MIN]; split_ifs <;> omega
    have e2 : (clampLong p < 1 ∨ clampLong p > 15) ↔ (p < 1 ∨ p > 15) := by
      unfold clampLong; simp only [LONG_MAX, LONG_MIN]; split_ifs <;> omega
    simp only [e1, e2]
  refine ⟨hcode, ?_⟩
  rw [hcode]
  by_cases h1 : m ≠ 1
  · rw [if_pos h1]
    constructor
    · intro h; exact absurd h (by decide)
    · intro h; exact absurd h.1 h1
  · rw [if_neg h1]
    by_cases h2 : p < 1 ∨ p > 15
    · rw [if_pos h2]
      constructor
      · intro h; exact absurd h (by decide)
      · intro h; omega
    · rw [if_neg h2]
      constructor
      · intro _; omega
      · intro _; rfl

/-- Witness of C11 on the requests of the unit tests `stopir,2:3`, `stopir,1:16` and
`stopir,1:15`. -/
theorem parseGcRequest_ranges_witness :
    (parseGcRequest "stopir,2:3".toList ⟨[], 0, 0, none⟩).1 = 2 ∧
    (parseGcRequest "stopir,1:16".toList ⟨[], 0, 0, none⟩).1 = 3 ∧
    (parseGcRequest "stopir,1:15".toList ⟨[], 0, 0, none⟩).1 = 0 :=
  ⟨(parseGcRequest_ranges "stopir".toList "2".toList "3".toList 2 3 none ⟨[], 0, 0, none⟩
      (by decide) (by decide) (Or.inl ⟨by decide, by decide⟩) (Or.inl ⟨by decide, by decide⟩)).1,
   (parseGcRequest_ranges "stopir".toList "1".toList "16".toList 1 16 none ⟨[], 0, 0, none⟩
      (by decide) (by decide) (Or.inl ⟨by decide, by decide⟩) (Or.inl ⟨by decide, by decide⟩)).1,
   (parseGcRequest_ranges "stopir".toList "1".toList "15".toList 1 15 none ⟨[], 0, 0, none⟩
      (by decide) (by decide) (Or.inl ⟨by decide, by decide⟩) (Or.inl ⟨by decide, by decide⟩)).1⟩

/-- C12 - over-long command names fail: a request whose command token (the text before the
first comma, or the whole request when it has no comma) has 20 or more characters makes
`parseGcRequest` return 1, whatever follows the command token. -/
theorem parseGcRequest_commandTooLong (c : List Char) (msg : GCMsg) (hc : ',' ∉ c)
    (hl : 20 ≤ c.length) :
    (parseGcRequest c msg).1 = 1 ∧
    ∀ rest : List Char, (parseGcRequest (c ++ ',' :: rest) msg).1 = 1 := by
  have h2 : c.length ≥ GCMSG_COMMAND_SIZE := by simp only [GCMSG_COMMAND_SIZE]; omega
  constructor
  · unfold parseGcRequest
    simp only [strchr_none hc, h2, if_true]
  · intro rest
    unfold parseGcRequest
    simp only [strchr_append rest hc, h2, if_true]

/-- Witness of C12 on the requests of the unit tests with a command of 20 characters. -/
theorem parseGcRequest_commandTooLong_witness :
    (parseGcRequest "01234567890123456789".toList ⟨[], 0, 0, none⟩).1 = 1 ∧
    (parseGcRequest "01234567890123456789,1:1,foo,bar".toList ⟨[], 0, 0, none⟩).1 = 1 :=
  ⟨(parseGcRequest_commandTooLong "01234567890123456789".toList ⟨[], 0, 0, none⟩
      (by decide) (by decide)).1,
   (parseGcRequest_commandTooLong "01234567890123456789".toList ⟨[], 0, 0, none⟩
      (by decide) (by decide)).2 "1:1,foo,bar".toList⟩

/-- C13 as stated fails: the module text `1a` is a numeral followed by another character, not
exactly a decimal numeral, yet `parseGcRequest` accepts the request with module 1 and port 3;
with module `1` the port text `3x` is accepted as port 3; and a module or port text with a
space or a `+` in front of the numeral is accepted too. -/
theorem parseGcRequest_invalidText_counterexample :
    ¬ IsNumeral 10 "1a".toList ∧
    parseGcRequest "stopir,1a:3".toList ⟨[], 0, 0, none⟩ = (0, ⟨"stopir".toList, 1, 3, none⟩) ∧
    ¬ IsNumeral 10 "3x".toList ∧
    parseGcRequest "stopir,1:3x".toList ⟨[], 0, 0, none⟩ = (0, ⟨"stopir".toList, 1, 3, none⟩) ∧
    ¬ IsNumeral 10 " 1".toList ∧
    parseGcRequest "stopir, 1:3".toList ⟨[], 0, 0, none⟩ = (0, ⟨"stopir".toList, 1, 3, none⟩) ∧
    ¬ IsNumeral 10 "+1".toList ∧ ¬ IsNumeral 10 "+15".toList ∧
    parseGcRequest "stopir,+1:+15".toList ⟨[], 0, 0, none⟩ =
      (0, ⟨"stopir".toList, 1, 15, none⟩) := by
  decide

/-- C13 (amended) - module and port texts are read the way `atoi` reads: for a request `c,M:P`
or `c,M:P,t` with `c` shorter than 20 characters and `M` free of `:`, each of `M` and `P` has a
reading as white space, an optional sign, the run of decimal digits that follows (possibly
empty; an empty run counts 0) and a rest, and for every such reading `parseGcRequest` returns 2
when the signed value of the digits of `M` is not 1 (so for an empty `M`, for `a` and for `-1`),
returns 3 when that value is 1 and the signed value of the digits of `P` is outside 1..15 (so
for an empty `P` and for `a`), and returns 0 otherwise; the rest behind the digits is not
examined. -/
theorem parseGcRequest_invalidText (c M P : List Char) (tail : Option (List Char))
    (msg : GCMsg) (hc : ',' ∉ c) (hl : c.length < 20) (hM : ':' ∉ M) :
    (∃ W S D T, Reading M W S D T) ∧ (∃ W S D T, Reading P W S D T) ∧
    ∀ W S D T W2 S2 D2 T2 : List Char, Reading M W S D T → Reading P W2 S2 D2 T2 →
      (parseGcRequest (c ++ ',' :: (M ++ ':' :: (P ++ gcTail tail))) msg).1 =
        if signedValue S D ≠ 1 then 2
        else if signedValue S2 D2 < 1 ∨ signedValue S2 D2 > 15 then 3 else 0 := by
  refine ⟨exists_reading M, exists_reading P, ?_⟩
  intro W S D T W2 S2 D2 T2 hrM hrP
  rw [parseGcRequest_address c M _ msg hc hl hM]
  have hcolon : NoPadAhead (':' :: (P ++ gcTail tail)) :=
    Or.inr ⟨':', _, rfl, by decide, by decide, by decide⟩
  have htail : NoPadAhead (gcTail tail) := by
    cases tail with
    | none => exact Or.inl rfl
    | some t => exact Or.inr ⟨',', t, rfl, by decide, by decide, by decide⟩
  rw [atoi_reading hrM (noDigitAhead_colon _) hcolon,
    atoi_reading hrP (noDigitAhead_gcTail tail) htail]
  have c1 : clampLong (signedValue S D) ≠ 1 ↔ signedValue S D ≠ 1 := by
    unfold clampLong; simp only [LONG_MAX, LONG_MIN]; split_ifs <;> omega
  have c2 : (clampLong (signedValue S2 D2) < 1 ∨ clampLong (signedValue S2 D2) > 15) ↔
      (signedValue S2 D2 < 1 ∨ signedValue S2 D2 > 15) := by
    unfold clampLong; simp only [LONG_MAX, LONG_MIN]; split_ifs <;> omega
  simp only [c1, c2]

/-- Witness of the amended C13 on the requests of the unit tests `stopir,a:3` and `stopir,1:a,2`
and on `stopir,1a:3` and `stopir, 1:+15`. -/
theorem parseGcRequest_invalidText_witness :
    (parseGcRequest "stopir,a:3".toList ⟨[], 0, 0, none⟩).1 = 2 ∧
    (parseGcRequest "stopir,1:a,2".toList ⟨[], 0, 0, none⟩).1 = 3 ∧
    (parseGcRequest "stopir,1a:3".toList ⟨[], 0, 0, none⟩).1 = 0 ∧
    (parseGcRequest "stopir, 1:+15".toList ⟨[], 0, 0, none⟩).1 = 0 :=
  ⟨(parseGcRequest_invalidText "stopir".toList "a".toList "3".toList none ⟨[], 0, 0, none⟩
      (by decide) (by decide) (by decide)).2.2 [] [] [] "a".toList [] [] "3".toList []
      (by decide) (by decide),
   (parseGcRequest_invalidText "stopir".toList "1".toList "a".toList (some "2".toList)
      ⟨[], 0, 0, none⟩ (by decide) (by decide) (by decide)).2.2 [] [] "1".toList [] [] [] []
      "a".toList (by decide) (by decide),
   (parseGcRequest_invalidText "stopir".toList "1a".toList "3".toList none ⟨[], 0, 0, none⟩
      (by decide) (by decide) (by decide)).2.2 [] [] "1".toList "a".toList [] [] "3".toList []
      (by decide) (by decide),
   (parseGcRequest_invalidText "stopir".toList " 1".toList "+15".toList none ⟨[], 0, 0, none⟩
      (by decide) (by decide) (by decide)).2.2 " ".toList [] "1".toList [] [] "+".toList
      "15".toList [] (by decide) (by decide)⟩

/-- Claim C14. In a service that has its send queue and is in learn mode, `send` returns 503
for every argument tuple, with or without a request in the queue, and leaves the service as it
was: nothing is queued, no flag of the event group changes. -/
theorem send_unavailable_while_learning (board : Board) (s : InfraredService)
    (hq : s.m_queue ≠ none) (hl : s.isIrLearning = true) (clientId : Int) (msgId : Nat)
    (code format : List Char) (repeat_ : Nat)
    (internal_side internal_top external_1 external_2 : Bool) (gcSocket : Int) :
    s.send board clientId msgId code format repeat_ internal_side internal_top external_1
      external_2 gcSocket = (503, s) := by
  obtain ⟨eg, q, c0⟩ := s
  cases eg with
  | none => simp [InfraredService.isIrLearning] at hl
  | some bits =>
    have hb : bits &&& IR_LEARNING_BIT ≠ 0 := by
      simpa [InfraredService.isIrLearning] using hl
    cases q with
    | none => exact absurd rfl hq
    | some q =>
      cases q with
      | nil => rw [send_idle, if_pos hb]
      | cons m q => rw [send_busy, if_pos hb]

theorem send_unavailable_while_learning_witness :
    (InfraredService.run board_4
        [ServiceCall.send 0 1 ['A'] ['h', 'e', 'x'] 0 true false false false 0,
          ServiceCall.startIrLearn]).send board_4 0 2 ['A'] ['h', 'e', 'x'] 3
        true false false false 0 =
      (503, InfraredService.run board_4
        [ServiceCall.send 0 1 ['A'] ['h', 'e', 'x'] 0 true false false false 0,
          ServiceCall.startIrLearn]) :=
  send_unavailable_while_learning board_4 _ (by decide) (by decide) 0 2 ['A'] ['h', 'e', 'x'] 3
    true false false false 0

/-- Claim C15. With request `m` in flight and learn mode off, a `send` that selects an emitter
of the board (pin mask not 0) and names a known format returns 202 when its code is the text of
`m` and repeat is above 0: the repeat bit of the event group is set, no other bit changes, and
the queue and the remembered code stay as they were. With a code other than the text of `m`
it returns 429 and the service stays as it was. -/
theorem send_repeat_extension (board : Board) (s : InfraredService) (m : IRSendMessage)
    (bits : Nat) (he : s.m_eventgroup = some bits) (hf : InFlight s m)
    (hl : s.isIrLearning = false) (clientId : Int) (msgId : Nat)
    (code format : List Char) (repeat_ : Nat)
    (internal_side internal_top external_1 external_2 : Bool) (gcSocket : Int)
    (hp : pinMask board internal_side internal_top external_1 external_2 ≠ 0)
    (hk : irFormatOf format ≠ none) :
    (code = m.message → repeat_ > 0 →
      s.send board clientId msgId code format repeat_ internal_side internal_top external_1
          external_2 gcSocket =
        (202, { s with m_eventgroup := some (xEventGroupSetBits bits IR_REPEAT_BIT) }) ∧
      xEventGroupSetBits bits IR_REPEAT_BIT &&& IR_REPEAT_BIT ≠ 0 ∧
      (∀ i, i ≠ 1 → (xEventGroupSetBits bits IR_REPEAT_BIT).testBit i = bits.testBit i)) ∧
    (code ≠ m.message →
      s.send board clientId msgId code format repeat_ internal_side internal_top external_1
          external_2 gcSocket = (429, s)) := by
  obtain ⟨eg, q, c0⟩ := s
  obtain ⟨hq, hc⟩ := hf
  simp only at he hq hc
  subst he hq hc
  have hb : ¬ bits &&& IR_LEARNING_BIT ≠ 0 := by
    simpa [InfraredService.isIrLearning] using hl
  obtain ⟨f, hfm⟩ := Option.ne_none_iff_exists'.mp hk
  rw [send_busy, if_neg hb, if_neg hp, hfm]
  dsimp only
  refine ⟨?_, ?_⟩
  · intro h1 h2
    rw [if_pos ⟨h2, h1.symm⟩]
    refine ⟨rfl, (flag_facts bits).1, ?_⟩
    intro i hi
    rw [set_repeat_bits]
    simp [hi]
  · intro h1
    rw [if_neg (fun h => h1 h.2.symm)]

theorem send_repeat_extension_witness :
    ((InfraredService.run board_4
        [ServiceCall.send 0 1 ['A'] ['h', 'e', 'x'] 3 true false false false 0]).send board_4
        0 2 ['A'] ['h', 'e', 'x'] 3 true false false false 0).1 = 202 :=
  congrArg Prod.fst
    ((send_repeat_extension board_4
      (InfraredService.run board_4
        [ServiceCall.send 0 1 ['A'] ['h', 'e', 'x'] 3 true false false false 0])
      ⟨0, 1, IRFormat.UNFOLDED_CIRCLE, ['A'], 3, 1 <<< 27, 0⟩ 0 (by decide) (by decide)
      (by decide) 0 2 ['A'] ['h', 'e', 'x'] 3 true false false false 0 (by decide)
      (by decide)).1 (by decide) (by decide)).1

/-- Claim C16, as stated, fails: with a request in flight and learn mode off, `send` answers
an unknown format and an empty emitter selection with 400, which is neither 202 nor 429, also
when the code is the text in flight and repeat is above 0. -/
theorem send_inFlight_classification_counterexample :
    InFlight
        (InfraredService.run board_4
          [ServiceCall.send 0 1 ['A'] ['h', 'e', 'x'] 3 true false false false 0])
        ⟨0, 1, IRFormat.UNFOLDED_CIRCLE, ['A'], 3, 1 <<< 27, 0⟩ ∧
      (InfraredService.run board_4
          [ServiceCall.send 0 1 ['A'] ['h', 'e', 'x'] 3 true false false false 0]).isIrLearning
        = false ∧
      ((InfraredService.run board_4
          [ServiceCall.send 0 1 ['A'] ['h', 'e', 'x'] 3 true false false false 0]).send board_4
          0 2 ['A'] ['f', 'o', 'o'] 3 true false false false 0).1 = 400 ∧
      ((InfraredService.run board_4
          [ServiceCall.send 0 1 ['A'] ['h', 'e', 'x'] 3 true false false false 0]).send board_4
          0 2 ['B'] ['h', 'e', 'x'] 0 false false false false 0).1 = 400 := by
  decide

/-- Claim C16, amended. With request `m` in flight and learn mode off, a `send` that selects
an emitter of the board and names a known format returns 202 if and only if its code is the text
of `m` and repeat is above 0, and returns 429 in every other case; a `send` with no emitter
selected or an unknown format returns 400. -/
theorem send_inFlight_classification (board : Board) (s : InfraredService) (m : IRSendMessage)
    (he : s.m_eventgroup ≠ none) (hf : InFlight s m)
    (hl : s.isIrLearning = false) (clientId : Int) (msgId : Nat)
    (code format : List Char) (repeat_ : Nat)
    (internal_side internal_top external_1 external_2 : Bool) (gcSocket : Int) :
    (pinMask board internal_side internal_top external_1 external_2 ≠ 0 →
      irFormatOf format ≠ none →
      ((s.send board clientId msgId code format repeat_ internal_side internal_top external_1
          external_2 gcSocket).1 = 202 ↔ (code = m.message ∧ repeat_ > 0)) ∧
      ((s.send board clientId msgId code format repeat_ internal_side internal_top external_1
          external_2 gcSocket).1 ≠ 202 →
        (s.send board clientId msgId code format repeat_ internal_side internal_top external_1
          external_2 gcSocket).1 = 429)) ∧
    ((pinMask board internal_side internal_top external_1 external_2 = 0 ∨
        irFormatOf format = none) →
      (s.send board clientId msgId code format repeat_ internal_side internal_top external_1
          external_2 gcSocket).1 = 400) := by
  obtain ⟨eg, q, c0⟩ := s
  obtain ⟨hq, hc⟩ := hf
  obtain ⟨bits, hbits⟩ := Option.ne_none_iff_exists'.mp he
  simp only at hbits hq hc
  subst hbits hq hc
  have hb : ¬ bits &&& IR_LEARNING_BIT ≠ 0 := by
    simpa [InfraredService.isIrLearning] using hl
  rw [send_busy, if_neg hb]
  refine ⟨?_, ?_⟩
  · intro hp hk
    obtain ⟨f, hfm⟩ := Option.ne_none_iff_exists'.mp hk
    rw [if_neg hp, hfm]
    dsimp only
    by_cases hr : repeat_ > 0 ∧ m.message = code
    · rw [if_pos hr]
      exact ⟨⟨fun _ => ⟨hr.2.symm, hr.1⟩, fun _ => rfl⟩, fun h => absurd rfl h⟩
    · rw [if_neg hr]
      exact ⟨⟨fun h => absurd (show (429 : Nat) = 202 from h) (by decide),
        fun h => absurd ⟨h.2, h.1.symm⟩ hr⟩, fun _ => rfl⟩
  · intro h
    by_cases hp : pinMask board internal_side internal_top external_1 external_2 = 0
    · rw [if_pos hp]
    · rw [if_neg hp]
      rcases h with h | h
      · exact absurd h hp
      · rw [h]

theorem send_inFlight_classification_witness :
    ((InfraredService.run board_4
        [ServiceCall.send 0 1 ['A'] ['h', 'e', 'x'] 3 true false false false 0]).send board_4
        0 2 ['B'] ['h', 'e', 'x'] 3 true false false false 0).1 = 429 :=
  ((send_inFlight_classification board_4
    (InfraredService.run board_4
      [ServiceCall.send 0 1 ['A'] ['h', 'e', 'x'] 3 true false false false 0])
    ⟨0, 1, IRFormat.UNFOLDED_CIRCLE, ['A'], 3, 1 <<< 27, 0⟩ (by decide) (by decide)
    (by decide) 0 2 ['B'] ['h', 'e', 'x'] 3 true false false false 0).1 (by decide)
    (by decide)).2 (by decide)

/-- Claim C17. In a service with nothing in flight, `stopSend` followed by a `send` gives the
same return code, the same send queue and the same remembered code as that `send` alone, and
when the request is accepted (code 0) the same event bits, with the repeat and the stop bit both
clear; `stopSend` twice leaves the service as `stopSend` once. -/
theorem stopSend_idle_unobservable (board : Board) (s : InfraredService)
    (hn : NothingInFlight s) (clientId : Int) (msgId : Nat)
    (code format : List Char) (repeat_ : Nat)
    (internal_side internal_top external_1 external_2 : Bool) (gcSocket : Int) :
    (s.stopSend.send board clientId msgId code format repeat_ internal_side internal_top
        external_1 external_2 gcSocket).1 =
      (s.send board clientId msgId code format repeat_ internal_side internal_top
        external_1 external_2 gcSocket).1 ∧
    (s.stopSend.send board clientId msgId code format repeat_ internal_side internal_top
        external_1 external_2 gcSocket).2.m_queue =
      (s.send board clientId msgId code format repeat_ internal_side internal_top
        external_1 external_2 gcSocket).2.m_queue ∧
    (s.stopSend.send board clientId msgId code format repeat_ internal_side internal_top
        external_1 external_2 gcSocket).2.m_currentSendCode =
      (s.send board clientId msgId code format repeat_ internal_side internal_top
        external_1 external_2 gcSocket).2.m_currentSendCode ∧
    ((s.send board clientId msgId code format repeat_ internal_side internal_top
        external_1 external_2 gcSocket).1 = 0 →
      (s.stopSend.send board clientId msgId code format repeat_ internal_side internal_top
          external_1 external_2 gcSocket).2 =
        (s.send board clientId msgId code format repeat_ internal_side internal_top
          external_1 external_2 gcSocket).2 ∧
      ∃ bits,
        (s.send board clientId msgId code format repeat_ internal_side internal_top
          external_1 external_2 gcSocket).2.m_eventgroup = some bits ∧
        bits &&& IR_REPEAT_BIT = 0 ∧ bits &&& IR_REPEAT_STOP_BIT = 0) ∧
    s.stopSend.stopSend = s.stopSend := by
  obtain ⟨eg, q, c0⟩ := s
  cases eg with
  | none =>
    have h0 : InfraredService.stopSend ⟨none, q, c0⟩ = ⟨none, q, c0⟩ := rfl
    rw [h0]
    refine ⟨rfl, rfl, rfl, ?_, rfl⟩
    intro h
    rw [send_uninitialised board _ (Or.inr rfl)] at h
    exact absurd (show (500 : Nat) = 0 from h) (by decide)
  | some bits =>
    have h1 : InfraredService.stopSend ⟨some bits, q, c0⟩ =
        ⟨some (xEventGroupClearBits (xEventGroupSetBits bits IR_REPEAT_STOP_BIT) IR_REPEAT_BIT),
          q, c0⟩ := rfl
    have h2 : InfraredService.stopSend
        ⟨some (xEventGroupClearBits (xEventGroupSetBits bits IR_REPEAT_STOP_BIT) IR_REPEAT_BIT),
          q, c0⟩ =
        ⟨some (xEventGroupClearBits (xEventGroupSetBits bits IR_REPEAT_STOP_BIT) IR_REPEAT_BIT),
          q, c0⟩ := by
      show InfraredService.mk _ _ _ = _
      rw [stop_twice]
    rw [h1, h2]
    have hq : q = some [] ∨ q = none := hn
    rcases hq with hq | hq
    · subst hq
      rw [send_idle, send_idle]
      by_cases hl : bits &&& IR_LEARNING_BIT ≠ 0
      · rw [if_pos hl, if_pos ((stop_keeps_learning bits).mpr hl)]
        refine ⟨rfl, rfl, rfl, ?_, rfl⟩
        intro h
        exact absurd (show (503 : Nat) = 0 from h) (by decide)
      · rw [if_neg hl, if_neg (fun h => hl ((stop_keeps_learning bits).mp h))]
        by_cases hp : pinMask board internal_side internal_top external_1 external_2 = 0
        · rw [if_pos hp, if_pos hp]
          refine ⟨rfl, rfl, rfl, ?_, rfl⟩
          intro h
          exact absurd (show (400 : Nat) = 0 from h) (by decide)
        · rw [if_neg hp, if_neg hp]
          cases irFormatOf format with
          | none =>
            refine ⟨rfl, rfl, rfl, ?_, rfl⟩
            intro h
            exact absurd (show (400 : Nat) = 0 from h) (by decide)
          | some f =>
            dsimp only
            rw [stop_then_clear]
            exact ⟨rfl, rfl, rfl, fun _ => ⟨rfl, _, rfl, (flag_facts bits).2.1,
              (flag_facts bits).2.2⟩, rfl⟩
    · subst hq
      rw [send_uninitialised board _ (Or.inl rfl), send_uninitialised board _ (Or.inl rfl)]
      refine ⟨rfl, rfl, rfl, ?_, rfl⟩
      intro h
      exact absurd (show (500 : Nat) = 0 from h) (by decide)

theorem stopSend_idle_unobservable_witness :
    (InfraredService.created.init.stopSend.send board_4 0 1 ['A'] ['h', 'e', 'x'] 3
        true false false false 0).2 =
      (InfraredService.created.init.send board_4 0 1 ['A'] ['h', 'e', 'x'] 3
        true false false false 0).2 :=
  ((stopSend_idle_unobservable board_4 InfraredService.created.init (by decide) 0 1 ['A']
    ['h', 'e', 'x'] 3 true false false false 0).2.2.2.1 (by decide)).1

/-- Claim C18. In the service reached from `init` by any sequence of `send`, `stopSend`,
`startIrLearn`, `stopIrLearn` and releases of the queue by the send task, the send queue holds
at most one request, and a request it holds has `m_currentSendCode` as its text. -/
theorem run_singleSlot (board : Board) (calls : List ServiceCall) :
    ∃ q, (InfraredService.run board calls).m_queue = some q ∧ q.length ≤ 1 ∧
      ∀ m ∈ q, (InfraredService.run board calls).m_currentSendCode = m.message :=
  singleSlot_foldl board calls _ singleSlot_init

/-- Claim C19 fails in the code: the repeat field `65537` of the line
`sendir,1:1,1,38000,65537,1,69,340` has a decimal value above 50, yet `sendGlobalCache` does
not return 6: the value is cut to `int16_t` before the range check, passes it as 1, and `send`
is called with repeat 1 and queues the request (return code 0). -/
theorem sendGlobalCache_repeat_wraps :
    numeralValue 10 "65537".toList = 65537 ∧
    InfraredService.sendGlobalCache board_4 InfraredService.created.init (-2) 1
        "sendir,1:1,1,38000,65537,1,69,340".toList 0 =
      (0, ⟨some 0,
        some [⟨-2, 1, IRFormat.GLOBAL_CACHE, "sendir,1:1,1,38000,65537,1,69,340".toList, 1,
          1 <<< 27, 0⟩],
        "sendir,1:1,1,38000,65537,1,69,340".toList⟩) := by
  constructor
  · decide
  · decide

/-- Claim C20. For module `m` in 0..1 and port `p` in 0..15, the values `parseGcRequest` can
set, and every outcome `r`, the `sendir` handler writes no reply for `r` 0, 200 or 202; the
text `ERR_m:p,` followed by `0`, the two decimal digits of `r` and CR for `r` in 1..99;
`ERR_m:p,023` CR for 500; `busyir` CR for 429 and 503; `ERR_m:p,001` CR for every other `r`.
Each reply is the whole formatted text: it has at most 15 characters and fits the 16-byte
buffer with its terminating NUL. -/
theorem sendirMsg_mapping (m p r : Nat) (hm : m ≤ 1) (hp : p ≤ 15) :
    ((r = 0 ∨ r = 200 ∨ r = 202) → GlobalCacheServer.sendirMsg m p r = none) ∧
    ((1 ≤ r ∧ r ≤ 99) → GlobalCacheServer.sendirMsg m p r =
      some (['E', 'R', 'R', '_'] ++ formatD m ++ [':'] ++ formatD p ++ [','] ++
        ['0', Nat.digitChar (r / 10), Nat.digitChar (r % 10), '\r'])) ∧
    (r = 500 → GlobalCacheServer.sendirMsg m p r =
      some (['E', 'R', 'R', '_'] ++ formatD m ++ [':'] ++ formatD p ++ [','] ++
        ['0', '2', '3', '\r'])) ∧
    ((r = 429 ∨ r = 503) → GlobalCacheServer.sendirMsg m p r =
      some ['b', 'u', 's', 'y', 'i', 'r', '\r']) ∧
    ((r ≠ 0 ∧ r ≠ 200 ∧ r ≠ 202 ∧ ¬ (1 ≤ r ∧ r ≤ 99) ∧ r ≠ 500 ∧ r ≠ 429 ∧ r ≠ 503) →
      GlobalCacheServer.sendirMsg m p r =
        some (['E', 'R', 'R', '_'] ++ formatD m ++ [':'] ++ formatD p ++ [','] ++
          ['0', '0', '1', '\r'])) ∧
    (∀ msg, GlobalCacheServer.sendirMsg m p r = some msg → msg.length ≤ 15) := by
  have hlen := replyHead_length m p hm hp
  generalize hhead : ['E', 'R', 'R', '_'] ++ formatD m ++ [':'] ++ formatD p ++ [','] = head
    at hlen
  have htake : ∀ a b c : Char, snprintf 16 (head ++ [a, b, c, '\r']) = head ++ [a, b, c, '\r'] := by
    intro a b c
    unfold snprintf
    apply List.take_of_length_le
    simp only [List.length_append, List.length_cons, List.length_nil]
    omega
  have h1 : ∀ x : List Char, ['E', 'R', 'R', '_'] ++ formatD m ++ [':'] ++ formatD p ++ [','] ++ x
      = head ++ x := by
    intro x; rw [hhead]
  have h2 : ∀ x : List Char, ['E', 'R', 'R', '_'] ++ formatD m ++ [':'] ++ formatD p ++ ',' :: x
      = head ++ x := by
    intro x; rw [← hhead]; simp
  have key : GlobalCacheServer.sendirMsg m p r =
      if r = 0 ∨ r = 200 then none
      else if r = 202 then none
      else if r > 0 ∧ r < 100 then
        some (head ++ ['0', Nat.digitChar (r / 10), Nat.digitChar (r % 10), '\r'])
      else if r = 500 then some (head ++ ['0', '2', '3', '\r'])
      else if r = 429 ∨ r = 503 then some ['b', 'u', 's', 'y', 'i', 'r', '\r']
      else some (head ++ ['0', '0', '1', '\r']) := by
    unfold GlobalCacheServer.sendirMsg
    by_cases c1 : r = 0 ∨ r = 200
    · rw [if_pos c1, if_pos c1]
    · rw [if_neg c1, if_neg c1]
      by_cases c2 : r = 202
      · rw [if_pos c2, if_pos c2]
      · rw [if_neg c2, if_neg c2]
        by_cases c3 : r > 0 ∧ r < 100
        · rw [if_pos c3, if_pos c3, format03d_two_digits r c3.2, List.append_assoc _ _ ['\r'],
            h1]
          exact congrArg some (htake _ _ _)
        · rw [if_neg c3, if_neg c3]
          by_cases c4 : r = 500
          · rw [if_pos c4, if_pos c4, h2]
            exact congrArg some (htake _ _ _)
          · rw [if_neg c4, if_neg c4]
            by_cases c5 : r = 429 ∨ r = 503
            · rw [if_pos c5, if_pos c5]
            · rw [if_neg c5, if_neg c5, h2]
              exact congrArg some (htake _ _ _)
  rw [key]
  refine ⟨?_, ?_, ?_, ?_, ?_, ?_⟩
  · intro h
    by_cases c1 : r = 0 ∨ r = 200
    · rw [if_pos c1]
    · rw [if_neg c1, if_pos (by omega)]
  · intro h
    rw [if_neg (by omega), if_neg (by omega), if_pos (by omega)]
  · intro h
    rw [if_neg (by omega), if_neg (by omega), if_neg (by omega), if_pos h]
  · intro h
    rw [if_neg (by omega), if_neg (by omega), if_neg (by omega), if_neg (by omega), if_pos h]
  · intro h
    rw [if_neg (by omega), if_neg (by omega), if_neg (by omega), if_neg (by omega),
      if_neg (by omega)]
  · intro msg h
    have hfour : ∀ a b c : Char, (head ++ [a, b, c, '\r']).length ≤ 15 := by
      intro a b c
      simp only [List.length_append, List.length_cons, List.length_nil]
      omega
    split_ifs at h
    · injection h with h; rw [← h]; exact hfour _ _ _
    · injection h with h; rw [← h]; exact hfour _ _ _
    · injection h with h; rw [← h]; simp
    · injection h with h; rw [← h]; exact hfour _ _ _

theorem sendirMsg_mapping_witness :
    GlobalCacheServer.sendirMsg 1 15 6 = some "ERR_1:15,006\r".toList ∧
    GlobalCacheServer.sendirMsg 1 3 500 = some "ERR_1:3,023\r".toList ∧
    GlobalCacheServer.sendirMsg 1 3 429 = some "busyir\r".toList ∧
    GlobalCacheServer.sendirMsg 1 3 400 = some "ERR_1:3,001\r".toList ∧
    GlobalCacheServer.sendirMsg 1 3 202 = none :=
  ⟨(sendirMsg_mapping 1 15 6 (by decide) (by decide)).2.1 (by decide),
   (sendirMsg_mapping 1 3 500 (by decide) (by decide)).2.2.1 (by decide),
   (sendirMsg_mapping 1 3 429 (by decide) (by decide)).2.2.2.1 (by decide),
   (sendirMsg_mapping 1 3 400 (by decide) (by decide)).2.2.2.2.1 (by decide),
   (sendirMsg_mapping 1 3 202 (by decide) (by decide)).1 (by decide)⟩

/-- Claim C21, as stated, fails: the request `stopir,1:16`, rejected with code 3, is answered
with `ERR_1:1,003` and not with `ERR_1:16,003`, and a command of 21 characters without module
and port, rejected with code 1, is answered with `ERR_1:1,001` and not with `ERR_001`. -/
theorem socket_task_grammarError_counterexample :
    (parseGcRequest "stopir,1:16".toList ⟨[], 0, 0, none⟩).1 = 3 ∧
    GlobalCacheServer.socket_task ⟨board_4, false, "v1.2.3".toList, 5, "0123456789ab".toList, true⟩
        InfraredService.created.init ⟨[], 0, 0, none⟩ "stopir,1:16\r".toList =
      some ⟨["ERR_1:1,003\r".toList], InfraredService.created.init, none⟩ ∧
    (parseGcRequest "012345678901234567890".toList ⟨[], 0, 0, none⟩).1 = 1 ∧
    GlobalCacheServer.socket_task ⟨board_4, false, "v1.2.3".toList, 5, "0123456789ab".toList, true⟩
        InfraredService.created.init ⟨[], 0, 0, none⟩ "012345678901234567890\r".toList =
      some ⟨["ERR_1:1,001\r".toList], InfraredService.created.init, none⟩ := by
  decide

/-- Claim C21, amended. For every line up to the first CR that holds a graphic character and
that `parseGcRequest` rejects with code `c`, the gateway writes `ERR_1:1,00c` followed by CR,
with the fixed address `1:1` whatever module and port the request names or lacks, and calls
nothing; `c` is 1, 2 or 3. -/
theorem socket_task_grammarError (client : GCClient) (irService : InfraredService) (req : GCMsg)
    (line rest : List Char) (hcr : '\r' ∉ line) (hg : ∃ c ∈ line, isgraph c = true)
    (hc : (parseGcRequest line req).1 ≠ 0) :
    GlobalCacheServer.socket_task client irService req (line ++ '\r' :: rest) =
      some ⟨[['E', 'R', 'R', '_', '1', ':', '1', ',', '0', '0',
        Nat.digitChar (parseGcRequest line req).1, '\r']], irService, none⟩ ∧
    1 ≤ (parseGcRequest line req).1 ∧ (parseGcRequest line req).1 ≤ 3 := by
  refine ⟨?_, Nat.pos_of_ne_zero hc, parseGcRequest_code_le line req⟩
  have hstart : line.dropWhile (fun c => !isgraph c) ≠ [] := by
    intro h
    rw [List.dropWhile_eq_nil_iff] at h
    obtain ⟨c, hmem, hgc⟩ := hg
    have := h c hmem
    rw [hgc] at this
    exact absurd this (by decide)
  have hle := parseGcRequest_code_le line req
  unfold GlobalCacheServer.socket_task
  rw [strchr_append rest hcr]
  simp only [List.take_left, if_neg hstart]
  rw [if_pos hc]
  generalize (parseGcRequest line req).1 = code at hc hle
  interval_cases code
  · exact absurd rfl hc
  · rfl
  · rfl
  · rfl

theorem socket_task_grammarError_witness :
    GlobalCacheServer.socket_task ⟨board_4, false, "v1.2.3".toList, 5, "0123456789ab".toList, true⟩
        InfraredService.created.init ⟨[], 0, 0, none⟩ ("stopir,2:3".toList ++ '\r' :: []) =
      some ⟨[['E', 'R', 'R', '_', '1', ':', '1', ',', '0', '0',
        Nat.digitChar (parseGcRequest "stopir,2:3".toList ⟨[], 0, 0, none⟩).1, '\r']],
        InfraredService.created.init, none⟩ :=
  (socket_task_grammarError ⟨board_4, false, "v1.2.3".toList, 5, "0123456789ab".toList, true⟩
    InfraredService.created.init ⟨[], 0, 0, none⟩ "stopir,2:3".toList [] (by decide)
    ⟨'s', by decide, by decide⟩ (by decide)).1

/-- Claim C22 fails in the code: the gateway finds the first graphic character of the line but
hands the untrimmed line to `parseGcRequest`. With one space in front, `getversion` is answered
with `ERR_0:0,001` instead of the version, and `stopir,1:1` is answered with `ERR_1:1,001` and
`stopSend` is not called. A line of non-graphic characters only is ignored, as claimed. -/
theorem socket_task_leading_space :
    GlobalCacheServer.socket_task ⟨board_4, false, "v1.2.3".toList, 5, "0123456789ab".toList, true⟩
        InfraredService.created.init ⟨[], 0, 0, none⟩ "getversion\r".toList =
      some ⟨["1-2-3\r".toList], InfraredService.created.init, none⟩ ∧
    GlobalCacheServer.socket_task ⟨board_4, false, "v1.2.3".toList, 5, "0123456789ab".toList, true⟩
        InfraredService.created.init ⟨[], 0, 0, none⟩ " getversion\r".toList =
      some ⟨["ERR_0:0,001\r".toList], InfraredService.created.init, none⟩ ∧
    GlobalCacheServer.socket_task ⟨board_4, false, "v1.2.3".toList, 5, "0123456789ab".toList, true⟩
        InfraredService.created.init ⟨[], 0, 0, none⟩ "stopir,1:1\r".toList =
      some ⟨["stopir,1:1".toList], InfraredService.created.init.stopSend, none⟩ ∧
    GlobalCacheServer.socket_task ⟨board_4, false, "v1.2.3".toList, 5, "0123456789ab".toList, true⟩
        InfraredService.created.init ⟨[], 0, 0, none⟩ " stopir,1:1\r".toList =
      some ⟨["ERR_1:1,001\r".toList], InfraredService.created.init, none⟩ ∧
    GlobalCacheServer.socket_task ⟨board_4, false, "v1.2.3".toList, 5, "0123456789ab".toList, true⟩
        InfraredService.created.init ⟨[], 0, 0, none⟩ " \n \r".toList =
      some ⟨[], InfraredService.created.init, none⟩ := by
  decide

/-- Claim C23 fails in the code: for the gateway line `sendir,1:1,123456789,38000,1,1,69,340`,
which the gateway queues with the id 123456789, the completion text `completeir,1:1,123456789`
with CR has 25 characters and is cut to the 23 that the 24-byte buffer holds: the last digit
and the CR are lost. -/
theorem send_ir_f_response_truncated :
    (GlobalCacheServer.socket_task ⟨board_4, false, "v1.2.3".toList, 5, "0123456789ab".toList, true⟩
        InfraredService.created.init ⟨[], 0, 0, none⟩
        "sendir,1:1,123456789,38000,1,1,69,340\r".toList).map
        (fun pass => pass.irService.m_queue) =
      some (some [⟨-2, 123456789, IRFormat.GLOBAL_CACHE,
        "sendir,1:1,123456789,38000,1,1,69,340".toList, 1, 1 <<< 27, 5⟩]) ∧
    InfraredService.send_ir_f_response
        ⟨-2, 123456789, IRFormat.GLOBAL_CACHE, "sendir,1:1,123456789,38000,1,1,69,340".toList, 1,
          1 <<< 27, 5⟩ ⟨[], 0, 0, none⟩ =
      some "completeir,1:1,12345678".toList := by
  decide

/-- Claim C24. For every text `s` and characters `orig` (not NUL) and `rep`, `replacechar`
returns the number of occurrences of `orig` in `s` and leaves the text with `rep` at every
position that held `orig` and every other position as it was, the length unchanged; it returns
0 for a NULL pointer and for a text without `orig` (the empty text among them), which it leaves
as it is. The `getversion` reply, built with `replacechar(version, '.', '-')`, holds no `.`. -/
theorem replacechar_replaces (s : List Char) (orig rep : Char) (h : orig ≠ Char.ofNat 0) :
    replacechar (some s) orig rep =
      some (s.count orig, some (s.map (fun c => if c = orig then rep else c))) ∧
    (s.map (fun c => if c = orig then rep else c)).length = s.length ∧
    (∀ i : Nat, (s.map (fun c => if c = orig then rep else c))[i]? =
      (s[i]?).map (fun c => if c = orig then rep else c)) ∧
    replacechar none orig rep = some (0, none) ∧
    (orig ∉ s → replacechar (some s) orig rep = some (0, some s)) ∧
    (∀ DOCK_VERSION : List Char, ∃ version,
      getversionReply DOCK_VERSION = some version ∧ '.' ∉ version) := by
  refine ⟨replacechar_eq s orig rep h, List.length_map _ _, fun i => List.getElem?_map _ _ _,
    rfl, ?_, ?_⟩
  · intro hn
    rw [replacechar_eq s orig rep h, List.count_eq_zero_of_not_mem hn, map_replace_of_not_mem hn]
  · intro DOCK_VERSION
    unfold getversionReply
    simp only
    rw [replacechar_eq _ '.' '-' (by decide)]
    exact ⟨_, rfl, not_mem_map_replace (by decide) _⟩

theorem replacechar_replaces_witness :
    replacechar (some "foobar".toList) 'o' 'u' = some (2, some "fuubar".toList) ∧
    getversionReply "v1.2.3".toList = some "1-2-3\r".toList :=
  ⟨(replacechar_replaces "foobar".toList 'o' 'u' (by decide)).1, by decide⟩

/-- Claim C25, as stated, fails on 32-bit event bits with bit 31 set: for the event bits
`0x80000000` no mask `2^k` that an `int` can hold (`k` up to 30) yields true, and the `int`
whose only set bit is bit 31 yields true for `0x80000001`, where the mask 1 yields true as
well. -/
theorem bitIsSetAndNoHigherPrioTask_lowest_counterexample :
    (∀ k, k ≤ 30 → bitIsSetAndNoHigherPrioTask ((2 : Int) ^ k) (2 ^ 31) = false) ∧
    bitIsSetAndNoHigherPrioTask (-(2 : Int) ^ 31) (2 ^ 31 + 1) = true ∧
    bitIsSetAndNoHigherPrioTask 1 (2 ^ 31 + 1) = true := by
  decide

/-- Claim C25, amended. For every mask `2^k` with `k` up to 30 (the single-bit values of an
`int` mask) and all event bits, `bitIsSetAndNoHigherPrioTask` is true if and only if bit `k` of
the event bits is set and no bit below `k` is; and for event bits that are not 0 and have bit
31 clear, exactly one such mask yields true. -/
theorem bitIsSetAndNoHigherPrioTask_lowest (eventBits : Nat) :
    (∀ k, k ≤ 30 → (bitIsSetAndNoHigherPrioTask ((2 : Int) ^ k) eventBits = true ↔
      (eventBits.testBit k = true ∧ ∀ j, j < k → eventBits.testBit j = false))) ∧
    (eventBits ≠ 0 → eventBits < 2 ^ 31 →
      ∃! k, k ≤ 30 ∧ bitIsSetAndNoHigherPrioTask ((2 : Int) ^ k) eventBits = true) := by
  refine ⟨fun k hk => bitIsSetAndNoHigherPrioTask_iff k hk eventBits, ?_⟩
  intro h0 hlt
  have hex : ∃ i, eventBits.testBit i = true := Nat.ne_zero_implies_bit_true h0
  have hk : Nat.find hex ≤ 30 := by
    by_contra hgt
    have hge : 31 ≤ Nat.find hex := by omega
    have hlt2 : eventBits < 2 ^ Nat.find hex :=
      Nat.lt_of_lt_of_le hlt (Nat.pow_le_pow_right (by decide) hge)
    have := Nat.testBit_lt_two_pow hlt2
    rw [Nat.find_spec hex] at this
    exact absurd this (by decide)
  refine ⟨Nat.find hex, ⟨hk, ?_⟩, ?_⟩
  · rw [bitIsSetAndNoHigherPrioTask_iff _ hk]
    refine ⟨Nat.find_spec hex, ?_⟩
    intro j hj
    cases hb : eventBits.testBit j with
    | false => rfl
    | true => exact absurd hb (Nat.find_min hex hj)
  · intro i hi
    obtain ⟨hi30, hi2⟩ := hi
    rw [bitIsSetAndNoHigherPrioTask_iff _ hi30] at hi2
    obtain ⟨hset, hlow⟩ := hi2
    have h1 : Nat.find hex ≤ i := Nat.find_min' hex hset
    rcases Nat.lt_or_ge (Nat.find hex) i with hlt3 | hge
    · have := hlow _ hlt3
      rw [Nat.find_spec hex] at this
      exact absurd this (by decide)
    · omega

theorem bitIsSetAndNoHigherPrioTask_lowest_witness :
    (bitIsSetAndNoHigherPrioTask 4 12 = true ↔
      (Nat.testBit 12 2 = true ∧ ∀ j, j < 2 → Nat.testBit 12 j = false)) ∧
    ∃! k, k ≤ 30 ∧ bitIsSetAndNoHigherPrioTask ((2 : Int) ^ k) 12 = true :=
  ⟨(bitIsSetAndNoHigherPrioTask_lowest 12).1 2 (by decide),
   (bitIsSetAndNoHigherPrioTask_lowest 12).2 (by decide) (by decide)⟩

/-- Claim C26. With the stop bit set the repeat callback returns false and sets the remaining
repeats to 0, whatever their count and whether or not the repeat bit is set too, and it leaves
the bits as they are. And while the request stays in the queue, after any sequence of `send`,
`stopSend`, `startIrLearn`, `stopIrLearn` and callback invocations the stop bit is still set
and the callback returns false again. -/
theorem repeatCallback_stop (bits : Nat) (v : RepeatVars)
    (hs : bits &&& IR_REPEAT_STOP_BIT ≠ 0) :
    repeatCallback bits v = (false, bits, { v with repeat_ := 0 }) ∧
    ∀ (board : Board) (s : InfraredService) (m : IRSendMessage) (q : List IRSendMessage)
      (steps : List TransmitStep),
      s.m_eventgroup = some bits → s.m_queue = some (m :: q) →
      (∀ st ∈ steps, st ≠ TransmitStep.call ServiceCall.release) →
      ∃ bits2, (steps.foldl (transmitStep board) (s, v)).1.m_eventgroup = some bits2 ∧
        bits2 &&& IR_REPEAT_STOP_BIT ≠ 0 ∧
        (steps.foldl (transmitStep board) (s, v)).1.m_queue = some (m :: q) ∧
        (repeatCallback bits2 (steps.foldl (transmitStep board) (s, v)).2).1 = false := by
  refine ⟨repeatCallback_of_stop bits v hs, ?_⟩
  intro board s m q steps he hq hsteps
  obtain ⟨bits2, he2, hs2, hq2⟩ :=
    stop_kept_steps board m q steps s v bits hq he ((stop_bit_iff bits).mp hs) hsteps
  refine ⟨bits2, he2, (stop_bit_iff bits2).mpr hs2, hq2, ?_⟩
  rw [repeatCallback_of_stop bits2 _ ((stop_bit_iff bits2).mpr hs2)]

theorem repeatCallback_stop_witness :
    repeatCallback 6 ⟨3, 2⟩ = (false, 6, ⟨3, 0⟩) ∧
    ∃ bits2,
      ([TransmitStep.call (ServiceCall.send 0 2 ['A'] ['h', 'e', 'x'] 3 true false false false 0),
          TransmitStep.repeatCallback].foldl (transmitStep board_4)
        (⟨some 6, some [⟨0, 1, IRFormat.UNFOLDED_CIRCLE, ['A'], 3, 1 <<< 27, 0⟩], ['A']⟩,
          ⟨3, 2⟩)).1.m_eventgroup = some bits2 ∧
      bits2 &&& IR_REPEAT_STOP_BIT ≠ 0 :=
  ⟨(repeatCallback_stop 6 ⟨3, 2⟩ (by decide)).1,
   ((repeatCallback_stop 6 ⟨3, 2⟩ (by decide)).2 board_4
      ⟨some 6, some [⟨0, 1, IRFormat.UNFOLDED_CIRCLE, ['A'], 3, 1 <<< 27, 0⟩], ['A']⟩
      ⟨0, 1, IRFormat.UNFOLDED_CIRCLE, ['A'], 3, 1 <<< 27, 0⟩ []
      [TransmitStep.call (ServiceCall.send 0 2 ['A'] ['h', 'e', 'x'] 3 true false false false 0),
        TransmitStep.repeatCallback] rfl rfl (by decide)).imp
      (fun _ h => ⟨h.1, h.2.1⟩)⟩

/-- Claim C27. For a request `pIrMsg` with repeat count `L` of 1 or more, `send_ir_f` installs
the callback with `repeatLimit = L` and `repeat = L`. From there, after any number of
invocations, whatever bits they find, `repeatLimit` is still `L` and the remaining repeats are
within `0..L`; an invocation that finds the repeat bit set and the stop bit clear sets the
remaining repeats to `L` whatever they were, clears the repeat bit, counts the invocation
(remaining `L - 1`) and returns true. With neither bit set from the start, invocation number
`i + 1` returns true exactly when `i < L`, so the callback returns true `L` times and false
from then on, and the bits stay as they are. -/
theorem repeatCallback_extend (pIrMsg : IRSendMessage) (hL : 1 ≤ pIrMsg.repeat_) :
    ∃ v0, repeatVarsOf pIrMsg = some v0 ∧
      v0.repeatLimit = pIrMsg.repeat_ ∧ v0.repeat_ = (pIrMsg.repeat_ : Int) ∧
      (∀ (seen : List Nat) (bits : Nat),
        (callbacksFrom v0 seen).repeatLimit = pIrMsg.repeat_ ∧
        0 ≤ (callbacksFrom v0 seen).repeat_ ∧
        (callbacksFrom v0 seen).repeat_ ≤ (pIrMsg.repeat_ : Int) ∧
        (bits &&& IR_REPEAT_STOP_BIT = 0 → bits &&& IR_REPEAT_BIT ≠ 0 →
          repeatCallback bits (callbacksFrom v0 seen) =
            (true, xEventGroupClearBits bits IR_REPEAT_BIT,
              ⟨pIrMsg.repeat_, (pIrMsg.repeat_ : Int) - 1⟩) ∧
          xEventGroupClearBits bits IR_REPEAT_BIT &&& IR_REPEAT_BIT = 0)) ∧
      (∀ (bits : Nat) (r : Int), bits &&& IR_REPEAT_STOP_BIT = 0 → bits &&& IR_REPEAT_BIT ≠ 0 →
        repeatCallback bits { v0 with repeat_ := r } =
          (true, xEventGroupClearBits bits IR_REPEAT_BIT,
            ⟨pIrMsg.repeat_, (pIrMsg.repeat_ : Int) - 1⟩)) ∧
      (∀ bits : Nat, bits &&& IR_REPEAT_STOP_BIT = 0 → bits &&& IR_REPEAT_BIT = 0 →
        ∀ i : Nat,
          afterCallbacks bits v0 i =
            (bits, ⟨pIrMsg.repeat_, (pIrMsg.repeat_ : Int) - (min i pIrMsg.repeat_ : Nat)⟩) ∧
          ((repeatCallback (afterCallbacks bits v0 i).1 (afterCallbacks bits v0 i).2).1 = true ↔
            i < pIrMsg.repeat_)) := by
  have hv0 : repeatVarsOf pIrMsg = some ⟨pIrMsg.repeat_, (pIrMsg.repeat_ : Int)⟩ := by
    unfold repeatVarsOf
    rw [if_pos (by omega)]
  generalize pIrMsg.repeat_ = L at hL hv0
  refine ⟨⟨L, (L : Int)⟩, hv0, rfl, rfl, ?_, ?_, ?_⟩
  · intro seen bits
    obtain ⟨e, g0, g1⟩ := callbacksFrom_range seen ⟨L, (L : Int)⟩ (by simp) (by simp)
    simp only at e g1
    refine ⟨e, g0, g1, ?_⟩
    intro hs hr
    have := repeatCallback_of_extend bits (callbacksFrom ⟨L, (L : Int)⟩ seen)
      (by rw [e]; exact hL) hs hr
    rw [e] at this
    exact ⟨this, repeat_bit_cleared bits⟩
  · intro bits r hs hr
    exact repeatCallback_of_extend bits ⟨L, r⟩ hL hs hr
  · intro bits hs hr i
    refine ⟨afterCallbacks_plain bits L hs hr i, ?_⟩
    rw [afterCallbacks_plain bits L hs hr i, repeatCallback_plain bits _ hs hr]
    by_cases h : i < L
    · have hpos : (L : Int) - (min i L : Nat) > 0 := by
        rw [Nat.min_eq_left (Nat.le_of_lt h)]; omega
      simp only [if_pos hpos, h]
    · have hpos : ¬ (L : Int) - (min i L : Nat) > 0 := by
        rw [Nat.min_eq_right (by omega : L ≤ i)]; omega
      simp only [if_neg hpos, h]
      simp

theorem repeatCallback_extend_witness :
    ∃ v0, repeatVarsOf ⟨0, 1, IRFormat.UNFOLDED_CIRCLE, ['A'], 3, 1 <<< 27, 0⟩ = some v0 ∧
      repeatCallback 2 (callbacksFrom v0 [0, 0, 0, 0]) =
        (true, xEventGroupClearBits 2 IR_REPEAT_BIT, ⟨3, 2⟩) ∧
      ((repeatCallback (afterCallbacks 0 v0 2).1 (afterCallbacks 0 v0 2).2).1 = true ↔ 2 < 3) ∧
      ((repeatCallback (afterCallbacks 0 v0 3).1 (afterCallbacks 0 v0 3).2).1 = true ↔ 3 < 3) :=
  (repeatCallback_extend ⟨0, 1, IRFormat.UNFOLDED_CIRCLE, ['A'], 3, 1 <<< 27, 0⟩
    (by decide)).imp
    (fun v0 h => ⟨h.1, ((h.2.2.2.1 [0, 0, 0, 0] 2).2.2.2 (by decide) (by decide)).1,
      ((h.2.2.2.2.2 0 (by decide) (by decide)) 2).2,
      ((h.2.2.2.2.2 0 (by decide) (by decide)) 3).2⟩)

/-- Claim C28, as stated, fails: a decode result that is not classified as failed (no overflow,
a known protocol, value `0x640C`) produces no event when the API response queue already holds
five responses: the queue is left as it is. -/
theorem learn_ir_f_pass_classification_counterexample :
    InfraredService.learn_ir_f_pass (-1) (fun _ => "0x640C".toList) true
        (List.replicate 5 ⟨0, []⟩) ⟨3, 0x640C, 15, false, false⟩ =
      ⟨false, some States.IR_LEARN_OK, List.replicate 5 ⟨0, []⟩⟩ := by
  decide

/-- Claim C28, amended. For every decode result the learn loop classifies the result as failed
if and only if it has overflow set, or its protocol is `UNKNOWN`, or its value is 0 or
`2^64 - 1`; a failed result leaves the response queue as it is (state `IR_LEARN_FAILED`). A
result that is not failed sets the state `IR_LEARN_OK` and, when the response queue holds fewer
than five responses, adds exactly one response with client id -1 whose `ir_code` is the protocol
number, the text of `resultToHexidecimal`, the bit count and the repeat mark joined by `;`; when
the queue holds five, the response is dropped. -/
theorem learn_ir_f_pass_classification (UNKNOWN : Int)
    (resultToHexidecimal : decode_results → List Char) (hasState : Bool)
    (apiResponseQueue : List IrResponse) (results : decode_results) :
    ((InfraredService.learn_ir_f_pass UNKNOWN resultToHexidecimal hasState apiResponseQueue
        results).failed = true ↔
      (results.overflow = true ∨ results.decode_type = UNKNOWN ∨ results.value = 0 ∨
        results.value = 2 ^ 64 - 1)) ∧
    ((InfraredService.learn_ir_f_pass UNKNOWN resultToHexidecimal hasState apiResponseQueue
        results).failed = true →
      InfraredService.learn_ir_f_pass UNKNOWN resultToHexidecimal hasState apiResponseQueue
          results =
        ⟨true, if hasState then some States.IR_LEARN_FAILED else none, apiResponseQueue⟩) ∧
    ((InfraredService.learn_ir_f_pass UNKNOWN resultToHexidecimal hasState apiResponseQueue
        results).failed = false →
      (apiResponseQueue.length < 5 →
        InfraredService.learn_ir_f_pass UNKNOWN resultToHexidecimal hasState apiResponseQueue
            results =
          ⟨false, if hasState then some States.IR_LEARN_OK else none,
            apiResponseQueue ++ [⟨-1, [("type".toList, "event".toList),
              ("msg".toList, "ir_receive".toList),
              ("ir_code".toList, formatInt results.decode_type ++ [';'] ++
                resultToHexidecimal results ++ [';'] ++ formatD results.bits ++ [';'] ++
                [if results.repeat_ then '1' else '0'])]⟩]⟩) ∧
      (5 ≤ apiResponseQueue.length →
        InfraredService.learn_ir_f_pass UNKNOWN resultToHexidecimal hasState apiResponseQueue
            results =
          ⟨false, if hasState then some States.IR_LEARN_OK else none, apiResponseQueue⟩)) := by
  have hrep : formatD (if results.repeat_ = true then 1 else 0) =
      [if results.repeat_ = true then '1' else '0'] := by
    cases results.repeat_ <;> rfl
  unfold InfraredService.learn_ir_f_pass
  simp only [UINT64_MAX, API_RESPONSE_QUEUE_LENGTH]
  by_cases ho : results.overflow = true
  · simp [ho]
  · by_cases hu : results.decode_type = UNKNOWN
    · simp [ho, hu]
    · by_cases hv : results.value = 0 ∨ results.value = 2 ^ 64 - 1
      · simp only [ho, hu, hv, if_true, if_false, true_or, or_true, or_false, false_or]
        simp
      · simp only [ho, hu, hv, if_false, or_self, false_or, List.nil_append, hrep]
        by_cases hq : 5 ≤ apiResponseQueue.length
        · simp only [ge_iff_le, hq, if_true]
          refine ⟨by simp [hv], by simp, fun _ => ⟨fun h => absurd hq (by omega), fun _ => ?_⟩⟩
          simp
        · simp only [ge_iff_le, hq, if_false]
          refine ⟨by simp [hv], by simp, fun _ => ⟨fun _ => ?_, fun h => h.elim⟩⟩
          simp

theorem learn_ir_f_pass_classification_witness :
    (InfraredService.learn_ir_f_pass (-1) (fun _ => "0x640C".toList) true []
        ⟨3, 0x640C, 15, false, false⟩).apiResponseQueue =
      [⟨-1, [("type".toList, "event".toList), ("msg".toList, "ir_receive".toList),
        ("ir_code".toList, "3;0x640C;15;0".toList)]⟩] ∧
    (InfraredService.learn_ir_f_pass (-1) (fun _ => "0x0".toList) true []
        ⟨3, 0, 15, false, false⟩).failed = true :=
  ⟨congrArg LearnPass.apiResponseQueue
    (((learn_ir_f_pass_classification (-1) (fun _ => "0x640C".toList) true []
      ⟨3, 0x640C, 15, false, false⟩).2.2 (by decide)).1 (by decide)),
   (learn_ir_f_pass_classification (-1) (fun _ => "0x0".toList) true []
      ⟨3, 0, 15, false, false⟩).1.mpr (Or.inr (Or.inr (Or.inl rfl)))⟩

/-- Claim C29 fails in the code: for the lines `sendir` and `sendir,1:3`, which
`parseGcRequest` accepts with the parameter absent, the `sendir` handler calls `atoi` on the
null parameter before anything else, so the pass is not defined, whatever the client and the
state of the service. -/
theorem socket_task_sendir_null_param (client : GCClient) (irService : InfraredService)
    (req : GCMsg) :
    parseGcRequest "sendir".toList req = (0, ⟨"sendir".toList, 0, 0, none⟩) ∧
    GlobalCacheServer.socket_task client irService req "sendir\r".toList = none ∧
    parseGcRequest "sendir,1:3".toList req = (0, ⟨"sendir".toList, 1, 3, none⟩) ∧
    GlobalCacheServer.socket_task client irService req "sendir,1:3\r".toList = none := by
  refine ⟨?_, ?_, ?_, ?_⟩
  · rfl
  · rfl
  · rfl
  · rfl

/-- Claim C30 fails in the code: for the message `sendir` the count 1 of `countValuesInCStr`
is lowered by 3 in `uint16_t` and wraps to 65534, the test `count < 6` lets it pass, and with a
successful allocation an array is returned with `codeCount` 1; for `sendir,1:1` the count wraps
to 65535 and the result is the same. Without the prefix, a trailing separator is counted as a
value that the loop does not store: `1,2,3,4,5,` gives an array with `codeCount` 5. -/
theorem globalCacheBufferToArray_sendir_wraps (codeCount : Nat) :
    globalCacheBufferToArray true "sendir".toList codeCount = some ⟨some [0], 1, 0⟩ ∧
    globalCacheBufferToArray true "sendir,1:1".toList codeCount = some ⟨some [1], 1, 0⟩ ∧
    globalCacheBufferToArray true "1,2,3,4,5,".toList codeCount =
      some ⟨some [1, 2, 3, 4, 5], 5, 0⟩ := by
  refine ⟨?_, ?_, ?_⟩
  · rfl
  · rfl
  · rfl

end UCD2
